import Mathlib

/-!
# Rollout convergence controller of the addon framework

A shallow embedding of `pkg/manager/controllers/addonprogressing/controller.go`
together with the library helpers it calls, and theorems relating the code to
the natural-language specification of the repository.

Conventions of the embedding:

* Go structs become Lean structures with the same field names; an embedded Go
  struct becomes a parent structure (`extends`).
* A Go pointer that may be `nil` becomes an `Option`.
* A Go `error` becomes `Option String` (`none` is `nil`, `some t` an error with text `t`).
* A Go `map[string]string` becomes an association list (`GoMap`) read with `GoMap.get`
  and written with `GoMap.put`.
* A Go function that mutates an object through a pointer returns the new object.
* `metav1.Time` is a natural number, `0` being the zero time.
-/

namespace AddonFramework

/-! ## Go maps with string keys and values -/

/-- Go `map[string]string` as an association list. -/
abbrev GoMap := List (String × String)

/-- Map read `v, ok := m[k]`: `none` when `ok` is false. -/
def GoMap.get (m : GoMap) (k : String) : Option String :=
  match m with
  | [] => none
  | (k', v) :: rest => if k' = k then some v else GoMap.get rest k

/-- Map write `m[k] = v`. -/
def GoMap.put (m : GoMap) (k v : String) : GoMap :=
  match m with
  | [] => [(k, v)]
  | (k', v') :: rest => if k' = k then (k, v) :: rest else (k', v') :: GoMap.put rest k v

/-- The keys of a map, in storage order. -/
def GoMap.keys (m : GoMap) : List String := m.map Prod.fst

/-- The function `equality.Semantic.DeepEqual` on two `map[string]string` values: the maps have
the same number of entries and every entry of the first is an entry of the second
(a nil map and an empty map are equal). -/
def GoMap.deepEqual (m1 m2 : GoMap) : Bool :=
  m1.length == m2.length && m1.all (fun kv => m2.get kv.1 == some kv.2)

/-- The function `strings.HasPrefix`. -/
def HasPrefix (s pre : String) : Bool := pre.data.isPrefixOf s.data

/-! ## `encoding/json`: unmarshalling into a `map[string]string`

`json.Unmarshal(data, &m)` with `m` a `map[string]string` returns no error exactly when `data`
is, between optional white space, either the literal `null` or an object all of whose values are
string literals or `null`. Any other document is a syntax error or a type error. -/

/-- JSON white space. -/
def jsonIsSpace (c : Char) : Bool := c = ' ' ∨ c = '\t' ∨ c = '\r' ∨ c = '\n'

/-- Drops leading white space. -/
def jsonSkipSpace : List Char → List Char
  | [] => []
  | c :: rest => if jsonIsSpace c then jsonSkipSpace rest else c :: rest

/-- The value of a hexadecimal digit. -/
def jsonHex (c : Char) : Option Nat :=
  if '0' ≤ c ∧ c ≤ '9' then some (c.toNat - 48)
  else if 'a' ≤ c ∧ c ≤ 'f' then some (c.toNat - 87)
  else if 'A' ≤ c ∧ c ≤ 'F' then some (c.toNat - 55)
  else none

/-- The value of four hexadecimal digits. -/
def jsonHex4 (a b c d : Char) : Option Nat :=
  match jsonHex a, jsonHex b, jsonHex c, jsonHex d with
  | some a, some b, some c, some d => some (((a * 16 + b) * 16 + c) * 16 + d)
  | _, _, _, _ => none

/-- The character a one-letter escape stands for. -/
def jsonEscape (e : Char) : Option Char :=
  if e = '"' then some '"'
  else if e = '\\' then some '\\'
  else if e = '/' then some '/'
  else if e = 'b' then some (Char.ofNat 8)
  else if e = 'f' then some (Char.ofNat 12)
  else if e = 'n' then some '\n'
  else if e = 'r' then some '\r'
  else if e = 't' then some '\t'
  else none

/-- A piece of a string literal: a character, or the code unit of a `\u` escape. -/
inductive JsonItem where
  | char (c : Char)
  | unit (n : Nat)
deriving DecidableEq, Repr

/-- Scans the body of a string literal, the opening quote already read: the pieces up to the
closing quote and the input after it. A control character, a bad escape or the end of the input
inside the literal is a syntax error. -/
def jsonStringItems : List Char → Option (List JsonItem × List Char)
  | [] => none
  | c :: rest =>
    if c = '"' then some ([], rest)
    else if c = '\\' then
      match rest with
      | [] => none
      | e :: rest1 =>
        if e = 'u' then
          match rest1 with
          | h1 :: h2 :: h3 :: h4 :: rest2 =>
            match jsonHex4 h1 h2 h3 h4 with
            | none => none
            | some n =>
              match jsonStringItems rest2 with
              | none => none
              | some (items, tail) => some (JsonItem.unit n :: items, tail)
          | _ => none
        else
          match jsonEscape e with
          | none => none
          | some ch =>
            match jsonStringItems rest1 with
            | none => none
            | some (items, tail) => some (JsonItem.char ch :: items, tail)
    else if c.toNat < 32 then none
    else
      match jsonStringItems rest with
      | none => none
      | some (items, tail) => some (JsonItem.char c :: items, tail)

/-- Whether a code unit is a UTF-16 surrogate. -/
def jsonIsSurrogate (n : Nat) : Bool := 0xD800 ≤ n ∧ n < 0xE000

/-- Turns the pieces of a literal into text: a high surrogate followed by a low one is one
character, any other surrogate is the replacement character U+FFFD. -/
def jsonDecodeItems : List JsonItem → List Char
  | [] => []
  | JsonItem.char c :: rest => c :: jsonDecodeItems rest
  | [JsonItem.unit n] => [if jsonIsSurrogate n then Char.ofNat 0xFFFD else Char.ofNat n]
  | JsonItem.unit n :: JsonItem.char c :: rest =>
    (if jsonIsSurrogate n then Char.ofNat 0xFFFD else Char.ofNat n) :: c :: jsonDecodeItems rest
  | JsonItem.unit n :: JsonItem.unit lo :: rest =>
    if jsonIsSurrogate n then
      if n < 0xDC00 ∧ 0xDC00 ≤ lo ∧ lo < 0xE000 then
        Char.ofNat (0x10000 + (n - 0xD800) * 1024 + (lo - 0xDC00)) :: jsonDecodeItems rest
      else Char.ofNat 0xFFFD :: jsonDecodeItems (JsonItem.unit lo :: rest)
    else Char.ofNat n :: jsonDecodeItems (JsonItem.unit lo :: rest)

/-- A string literal, the opening quote already read: its text and the input after it. -/
def jsonString (input : List Char) : Option (String × List Char) :=
  match jsonStringItems input with
  | none => none
  | some (items, tail) => some (String.mk (jsonDecodeItems items), tail)

/-- A value of an object that unmarshals into a Go string: a string literal, or `null`, which
leaves the zero value `""`. Every other value is an error. -/
def jsonStringValue : List Char → Option (String × List Char)
  | '"' :: rest => jsonString rest
  | 'n' :: 'u' :: 'l' :: 'l' :: rest => some ("", rest)
  | _ => none

/-- One member of an object, the input starting at the opening quote of its key: the key and the
value, whether a comma (another member must follow) or the closing brace came after it, and the
input after that comma (white space skipped) or brace. -/
def jsonMember : List Char → Option ((String × String) × Bool × List Char)
  | '"' :: rest =>
    match jsonString rest with
    | none => none
    | some (key, afterKey) =>
      match jsonSkipSpace afterKey with
      | ':' :: afterColon =>
        match jsonStringValue (jsonSkipSpace afterColon) with
        | none => none
        | some (value, afterValue) =>
          match jsonSkipSpace afterValue with
          | c :: tail =>
            if c = ',' then some ((key, value), true, jsonSkipSpace tail)
            else if c = Char.ofNat 125 then some ((key, value), false, tail)
            else none
          | [] => none
      | _ => none
  | _ => none

/-- The members of an object from its first key on, up to and including the closing brace: the
members in document order and the input after the brace. Every member consumes input, so `fuel`
equal to the length of the input suffices (`jsonMembers_fuel`). -/
def jsonMembers : Nat → List Char → Option (List (String × String) × List Char)
  | 0, _ => none
  | fuel + 1, input =>
    match jsonMember input with
    | none => none
    | some (member, true, rest) =>
      match jsonMembers fuel rest with
      | none => none
      | some (members, tail) => some (member :: members, tail)
    | some (member, false, rest) => some ([member], rest)

/-- The members of the JSON document `data` when it unmarshals into a `map[string]string` without
error (`null` has no members), `none` when `json.Unmarshal` returns an error. -/
def jsonObjectMembers (data : String) : Option (List (String × String)) :=
  match jsonSkipSpace data.data with
  | 'n' :: 'u' :: 'l' :: 'l' :: rest => if jsonSkipSpace rest = [] then some [] else none
  | c :: rest =>
    if c = Char.ofNat 123 then
      match jsonSkipSpace rest with
      | [] => none
      | d :: rest1 =>
        if d = Char.ofNat 125 then (if jsonSkipSpace rest1 = [] then some [] else none)
        else
          match jsonMembers data.length (d :: rest1) with
          | none => none
          | some (members, tail) => if jsonSkipSpace tail = [] then some members else none
    else none
  | [] => none

/-- The map `json.Unmarshal` leaves in a fresh `map[string]string`: the members are stored in
document order, a repeated key keeping its last value; `none` when an error is returned. -/
def jsonUnmarshalStringMap (data : String) : Option GoMap :=
  match jsonObjectMembers data with
  | none => none
  | some members => some (members.foldl (fun m kv => GoMap.put m kv.1 kv.2) [])

/-! ## API types (`k8s.io/apimachinery`, `open-cluster-management.io/api`) -/

/-- The type `metav1.Time`; `0` is the zero time. -/
abbrev Time := Nat

/-- The type `metav1.Condition`. -/
structure Condition where
  Type_ : String
  Status : String
  ObservedGeneration : Int := 0
  LastTransitionTime : Time := 0
  Reason : String := ""
  Message : String := ""
deriving DecidableEq, Repr

/-- The constant `metav1.ConditionTrue`. -/
def ConditionTrue : String := "True"
/-- The constant `metav1.ConditionFalse`. -/
def ConditionFalse : String := "False"

/-- The type `addonapiv1alpha1.ConfigGroupResource`. -/
structure ConfigGroupResource where
  Group : String := ""
  Resource : String := ""
deriving DecidableEq, Repr

/-- The type `addonapiv1alpha1.ConfigReferent`. -/
structure ConfigReferent where
  Namespace : String := ""
  Name : String := ""
deriving DecidableEq, Repr

/-- The type `addonapiv1alpha1.ConfigSpecHash`: a referent and the hash of its spec. -/
structure ConfigSpecHash extends ConfigReferent where
  SpecHash : String := ""
deriving DecidableEq, Repr

/-- The type `addonapiv1alpha1.AddOnConfig`, an entry of `spec.configs`. -/
structure AddOnConfig extends ConfigGroupResource, ConfigReferent
deriving DecidableEq, Repr

/-- The type `addonapiv1alpha1.ConfigReference`, an entry of `status.configReferences`. -/
structure ConfigReference extends ConfigGroupResource, ConfigReferent where
  LastObservedGeneration : Int := 0
  DesiredConfig : Option ConfigSpecHash := none
  LastAppliedConfig : Option ConfigSpecHash := none
deriving DecidableEq, Repr

/-- The type `addonapiv1alpha1.ManagedClusterAddOnSpec` (the fields the controller reads). -/
structure ManagedClusterAddOnSpec where
  InstallNamespace : String := ""
  Configs : List AddOnConfig := []
deriving DecidableEq, Repr

/-- The type `addonapiv1alpha1.ManagedClusterAddOnStatus` (the fields the controller reads or writes). -/
structure ManagedClusterAddOnStatus where
  Conditions : List Condition := []
  SupportedConfigs : List ConfigGroupResource := []
  ConfigReferences : List ConfigReference := []
  Namespace : String := ""
deriving DecidableEq, Repr

/-- The type `addonapiv1alpha1.ManagedClusterAddOn`. -/
structure ManagedClusterAddOn where
  Name : String := ""
  Namespace : String := ""
  UID : String := ""
  ResourceVersion : String := ""
  Spec : ManagedClusterAddOnSpec := {}
  Status : ManagedClusterAddOnStatus := {}
deriving DecidableEq, Repr

/-- The type `workapiv1.ManifestWorkStatus` (its conditions). -/
structure ManifestWorkStatus where
  Conditions : List Condition := []
deriving DecidableEq, Repr

/-- The type `workapiv1.ManifestWork`, a dispatch record. -/
structure ManifestWork where
  Name : String := ""
  Namespace : String := ""
  Generation : Int := 0
  Labels : GoMap := []
  Annotations : GoMap := []
  Status : ManifestWorkStatus := {}
deriving DecidableEq, Repr

/-- The constant `addonapiv1alpha1.ManagedClusterAddOnConditionProgressing`. -/
def ManagedClusterAddOnConditionProgressing : String := "Progressing"
/-- The constant `addonapiv1alpha1.ManagedClusterAddOnManifestApplied`. -/
def ManagedClusterAddOnManifestApplied : String := "ManifestApplied"
/-- The constant `workapiv1.WorkApplied`. -/
def WorkApplied : String := "Applied"
/-- The constant `workapiv1.WorkAvailable`. -/
def WorkAvailable : String := "Available"
/-- The constant `workapiv1.ManifestConfigSpecHashAnnotationKey`. -/
def ManifestConfigSpecHashAnnotationKey : String := "open-cluster-management.io/config-spec-hash"

/-- The constant `addonapiv1alpha1.ProgressingReasonInstalling`. -/
def ProgressingReasonInstalling : String := "Installing"
/-- The constant `addonapiv1alpha1.ProgressingReasonInstallSucceed`. -/
def ProgressingReasonInstallSucceed : String := "InstallSucceed"
/-- The constant `addonapiv1alpha1.ProgressingReasonInstallFailed`. -/
def ProgressingReasonInstallFailed : String := "InstallFailed"
/-- The constant `addonapiv1alpha1.ProgressingReasonUpgrading`. -/
def ProgressingReasonUpgrading : String := "Upgrading"
/-- The constant `addonapiv1alpha1.ProgressingReasonUpgradeSucceed`. -/
def ProgressingReasonUpgradeSucceed : String := "UpgradeSucceed"
/-- The constant `addonapiv1alpha1.ProgressingReasonUpgradeFailed`. -/
def ProgressingReasonUpgradeFailed : String := "UpgradeFailed"
/-- The constant `addonapiv1alpha1.ProgressingReasonConfigurationUnsupported`. -/
def ProgressingReasonConfigurationUnsupported : String := "ConfigurationUnsupported"

/-! ## Condition helpers (`k8s.io/apimachinery/pkg/api/meta`) -/

/-- The function `meta.FindStatusCondition`: the first condition of the given type. -/
def FindStatusCondition (conditions : List Condition) (conditionType : String) : Option Condition :=
  match conditions with
  | [] => none
  | c :: rest => if c.Type_ = conditionType then some c else FindStatusCondition rest conditionType

/-- The update `meta.SetStatusCondition` applies to the condition it found: the status
(and with it the transition time) changes only when it differs; reason, message and observed
generation are always taken from the new condition. -/
def updateExistingCondition (now : Time) (existingCondition newCondition : Condition) : Condition :=
  let c : Condition :=
    if existingCondition.Status ≠ newCondition.Status then
      { existingCondition with
        Status := newCondition.Status
        LastTransitionTime :=
          if newCondition.LastTransitionTime ≠ 0 then newCondition.LastTransitionTime else now }
    else existingCondition
  { c with
    Reason := newCondition.Reason
    Message := newCondition.Message
    ObservedGeneration := newCondition.ObservedGeneration }

/-- The in-place update of the first condition whose type is that of `newCondition`. -/
def updateFirstCondition (now : Time) (newCondition : Condition) : List Condition → List Condition
  | [] => []
  | c :: rest =>
    if c.Type_ = newCondition.Type_ then updateExistingCondition now c newCondition :: rest
    else c :: updateFirstCondition now newCondition rest

/-- The function `meta.SetStatusCondition`, `now` being the value of `time.Now()`: a condition of
a type not yet in the list is appended (stamped with `now` when it carries no transition time),
an existing one is updated in place. -/
def SetStatusCondition (now : Time) (conditions : List Condition) (newCondition : Condition) :
    List Condition :=
  match FindStatusCondition conditions newCondition.Type_ with
  | none =>
    conditions ++
      [if newCondition.LastTransitionTime = 0 then { newCondition with LastTransitionTime := now }
       else newCondition]
  | some _ => updateFirstCondition now newCondition conditions

/-! ## `controller.go` -/

/-- The constant `ProgressingDoing`. -/
def ProgressingDoing : String := "Doing"
/-- The constant `ProgressingSucceed`. -/
def ProgressingSucceed : String := "Succeed"
/-- The constant `ProgressingFailed`. -/
def ProgressingFailed : String := "Failed"

/-- The second loop of `isConfigurationSupported`: the first entry of `spec.configs` whose
group/resource is not in the supported set makes the result `(false, that group/resource)`. -/
def isConfigurationSupportedLoop (supportedConfigSet : List ConfigGroupResource) :
    List AddOnConfig → Bool × ConfigGroupResource
  | [] => (true, {})
  | config :: rest =>
    if config.toConfigGroupResource ∈ supportedConfigSet then
      isConfigurationSupportedLoop supportedConfigSet rest
    else (false, config.toConfigGroupResource)

/-- The function `isConfigurationSupported`. The set built by the first loop is kept as the
list `status.supportedConfigs`, membership in the list being membership in the set. -/
def isConfigurationSupported (addon : ManagedClusterAddOn) : Bool × ConfigGroupResource :=
  isConfigurationSupportedLoop addon.Status.SupportedConfigs addon.Spec.Configs

/-- The function `workIsReady`. -/
def workIsReady (work : ManifestWork) : Bool :=
  match FindStatusCondition work.Status.Conditions WorkAvailable with
  | none => false
  | some cond =>
    if cond.Status ≠ ConditionTrue ∨ cond.ObservedGeneration ≠ work.Generation then false
    else
      match FindStatusCondition work.Status.Conditions WorkApplied with
      | none => false
      | some cond =>
        if cond.Status ≠ ConditionTrue ∨ cond.ObservedGeneration ≠ work.Generation then false
        else true

/-- The key under which a configuration is recorded in the hash annotation:
`<resource>.<group>/<namespace>/<name>`, the `.<group>` part left out when the group is empty. -/
def configKey (gr : ConfigGroupResource) (referent : ConfigReferent) : String :=
  (if gr.Group.length > 0 then gr.Resource ++ "." ++ gr.Group else gr.Resource)
    ++ "/" ++ referent.Namespace ++ "/" ++ referent.Name

/-- Modelled from the spec: `agentdeploy.ConfigsToMap`, of package
`pkg/addonmanager/controllers/agentdeploy`, is not among the sources. The spec describes its
result as the mapping built from the desired config references, keyed by
`<resource>.<group>/<namespace>/<name>` (empty group omitted), the values being the hashes. A
reference without a desired config contributes no entry; a later reference with the key of an
earlier one overwrites it. -/
def ConfigsToMap (configReferences : List ConfigReference) : GoMap :=
  configReferences.foldl
    (fun m v =>
      match v.DesiredConfig with
      | none => m
      | some desired =>
        GoMap.put m (configKey v.toConfigGroupResource desired.toConfigReferent) desired.SpecHash)
    []

/-- The function `workConfigsMatchesAddon`. -/
def workConfigsMatchesAddon (work : ManifestWork) (addon : ManagedClusterAddOn) : Bool :=
  match GoMap.get work.Annotations ManifestConfigSpecHashAnnotationKey with
  | none => addon.Status.ConfigReferences.length == 0
  | some annotationValue =>
    match jsonUnmarshalStringMap annotationValue with
    | none => false
    | some workSpecHashMap =>
      if workSpecHashMap.any (fun kv => kv.2 = "") then false
      else if addon.Status.ConfigReferences.any
          (fun configReference =>
            match configReference.DesiredConfig with
            | none => true
            | some desired => desired.SpecHash = "") then false
      else GoMap.deepEqual workSpecHashMap (ConfigsToMap addon.Status.ConfigReferences)

/-- The test `equality.Semantic.DeepEqual(configReference.LastAppliedConfig,
configReference.DesiredConfig)` on two pointers to `ConfigSpecHash`. -/
def configSpecHashDeepEqual (a b : Option ConfigSpecHash) : Bool := a = b

/-- The write-skip of `setAddOnProgressingAndLastApplied`: there is at least one config reference
and every last applied config equals its desired config. -/
def skipProgressingUpdate (addon : ManagedClusterAddOn) : Bool :=
  addon.Status.ConfigReferences.length > 0 &&
    addon.Status.ConfigReferences.all
      (fun configReference =>
        configSpecHashDeepEqual configReference.LastAppliedConfig configReference.DesiredConfig)

/-- The condition `setAddOnProgressingAndLastApplied` builds in its `switch`. -/
def progressingCondition (isUpgrade : Bool) (status message : String) : Condition :=
  if status = ProgressingDoing then
    if isUpgrade then
      { Type_ := ManagedClusterAddOnConditionProgressing, Status := ConditionTrue,
        Reason := ProgressingReasonUpgrading, Message := "upgrading... " ++ message }
    else
      { Type_ := ManagedClusterAddOnConditionProgressing, Status := ConditionTrue,
        Reason := ProgressingReasonInstalling, Message := "installing... " ++ message }
  else if status = ProgressingSucceed then
    if isUpgrade then
      { Type_ := ManagedClusterAddOnConditionProgressing, Status := ConditionFalse,
        Reason := ProgressingReasonUpgradeSucceed, Message := "upgrade completed with no errors." }
    else
      { Type_ := ManagedClusterAddOnConditionProgressing, Status := ConditionFalse,
        Reason := ProgressingReasonInstallSucceed, Message := "install completed with no errors." }
  else if status = ProgressingFailed then
    if isUpgrade then
      { Type_ := ManagedClusterAddOnConditionProgressing, Status := ConditionFalse,
        Reason := ProgressingReasonUpgradeFailed, Message := message }
    else
      { Type_ := ManagedClusterAddOnConditionProgressing, Status := ConditionFalse,
        Reason := ProgressingReasonInstallFailed, Message := message }
  else { Type_ := ManagedClusterAddOnConditionProgressing, Status := "" }

/-- The function `setAddOnProgressingAndLastApplied`; the result is the addon after the call.
In the `Succeed` case every last applied config becomes a copy of the desired config
(`DeepCopy` of a nil pointer is nil). -/
def setAddOnProgressingAndLastApplied (now : Time) (isUpgrade : Bool) (status message : String)
    (addon : ManagedClusterAddOn) : ManagedClusterAddOn :=
  if skipProgressingUpdate addon then addon
  else
    let configReferences :=
      if status = ProgressingSucceed then
        addon.Status.ConfigReferences.map
          (fun configReference =>
            { configReference with LastAppliedConfig := configReference.DesiredConfig })
      else addon.Status.ConfigReferences
    { addon with
      Status := { addon.Status with
        ConfigReferences := configReferences
        Conditions :=
          SetStatusCondition now addon.Status.Conditions
            (progressingCondition isUpgrade status message) } }

/-- The object `patchAddOnProgressingAndLastApplied` marshals on either side of the merge patch:
the identity fields (empty on the old side) and the two status fields the controller owns. -/
structure PatchData where
  UID : String := ""
  ResourceVersion : String := ""
  ConfigReferences : List ConfigReference := []
  Conditions : List Condition := []
deriving DecidableEq, Repr

/-- A call of the addon client: a merge patch of `oldData` to `newData` on a subresource. -/
structure PatchAction where
  Namespace : String
  Name : String
  Subresource : String
  oldData : PatchData
  newData : PatchData
deriving DecidableEq, Repr

/-- The collaborators of the controller during one run: the clock, the name of the pre-delete
hook work of an addon (`constants.PreDeleteHookWorkName`, not among the sources), the work lister
(by namespace and addon name label) and the addon client. -/
structure Env where
  now : Time
  PreDeleteHookWorkName : String → String
  workLister : String → String → Except String (List ManifestWork)
  addonClientPatch : PatchAction → Option String

/-- The function `patchAddOnProgressingAndLastApplied`: the calls made on the addon client and
the error returned. -/
def patchAddOnProgressingAndLastApplied (env : Env) (new old : ManagedClusterAddOn) :
    List PatchAction × Option String :=
  if new.Status = old.Status then ([], none)
  else
    let action : PatchAction :=
      { Namespace := new.Namespace, Name := new.Name, Subresource := "status"
        oldData :=
          { ConfigReferences := old.Status.ConfigReferences, Conditions := old.Status.Conditions }
        newData :=
          { UID := new.UID, ResourceVersion := new.ResourceVersion
            ConfigReferences := new.Status.ConfigReferences
            Conditions := new.Status.Conditions } }
    ([action], env.addonClientPatch action)

/-- The loop of `updateAddonProgressingAndLastApplied` over the listed works: the message of the
`Doing` state chosen at the first work that fails a check, `none` when the loop runs to its end
(pre-delete hook works are skipped). -/
def checkAddonWorks (hookWorkName : String) (addon : ManagedClusterAddOn) :
    List ManifestWork → Option String
  | [] => none
  | work :: rest =>
    if HasPrefix work.Name hookWorkName then checkAddonWorks hookWorkName addon rest
    else if !workConfigsMatchesAddon work addon then some "configs mismatch"
    else if !workIsReady work then some "work is not ready"
    else checkAddonWorks hookWorkName addon rest

/-- The upgrade flag of `updateAddonProgressingAndLastApplied`. -/
def isUpgradeFlag (addon : ManagedClusterAddOn) : Bool :=
  addon.Status.ConfigReferences.any
    (fun configReference =>
      match configReference.LastAppliedConfig with
      | none => false
      | some lastApplied => lastApplied.SpecHash ≠ "")

/-- The result of one run of `updateAddonProgressingAndLastApplied`: `newaddon` as the run leaves
it, the state and message handed to `setAddOnProgressingAndLastApplied` (`none` when it is not
called), the calls made on the addon client and the error returned. -/
structure Outcome where
  addon : ManagedClusterAddOn
  state : Option String
  message : String
  actions : List PatchAction
  err : Option String

/-- The tail of every branch: patch the status and return. -/
def patchAndReturn (env : Env) (state : Option String) (message : String)
    (newaddon oldaddon : ManagedClusterAddOn) : Outcome :=
  { addon := newaddon, state := state, message := message
    actions := (patchAddOnProgressingAndLastApplied env newaddon oldaddon).1
    err := (patchAddOnProgressingAndLastApplied env newaddon oldaddon).2 }

/-- The function `updateAddonProgressingAndLastApplied`. -/
def updateAddonProgressingAndLastApplied (env : Env) (newaddon oldaddon : ManagedClusterAddOn) :
    Outcome :=
  match isConfigurationSupported newaddon with
  | (false, config) =>
    patchAndReturn env none ""
      { newaddon with
        Status := { newaddon.Status with
          Conditions :=
            SetStatusCondition env.now newaddon.Status.Conditions
              { Type_ := ManagedClusterAddOnConditionProgressing
                Status := ConditionFalse
                Reason := ProgressingReasonConfigurationUnsupported
                Message := "Configuration with gvr " ++ config.Group ++ "/" ++ config.Resource
                  ++ " is not supported for this addon" } } }
      oldaddon
  | (true, _) =>
    match FindStatusCondition newaddon.Status.Conditions ManagedClusterAddOnManifestApplied with
    | none =>
      patchAndReturn env none ""
        { newaddon with
          Status := { newaddon.Status with
            Conditions :=
              SetStatusCondition env.now newaddon.Status.Conditions
                { Type_ := ManagedClusterAddOnConditionProgressing
                  Status := ConditionFalse
                  Reason := "WaitingForManifestApplied"
                  Message := "Waiting for ManagedClusterAddOn ManifestApplied condition" } } }
        oldaddon
    | some _ =>
      let isUpgrade := isUpgradeFlag newaddon
      match env.workLister newaddon.Namespace newaddon.Name with
      | Except.error err =>
        patchAndReturn env (some ProgressingFailed) err
          (setAddOnProgressingAndLastApplied env.now isUpgrade ProgressingFailed err newaddon)
          oldaddon
      | Except.ok addonWorks =>
        if addonWorks.length = 0 then
          patchAndReturn env (some ProgressingDoing) "no addon works"
            (setAddOnProgressingAndLastApplied env.now isUpgrade ProgressingDoing
              "no addon works" newaddon)
            oldaddon
        else
          match checkAddonWorks (env.PreDeleteHookWorkName newaddon.Name) newaddon addonWorks with
          | some message =>
            patchAndReturn env (some ProgressingDoing) message
              (setAddOnProgressingAndLastApplied env.now isUpgrade ProgressingDoing message
                newaddon)
              oldaddon
          | none =>
            patchAndReturn env (some ProgressingSucceed) ""
              (setAddOnProgressingAndLastApplied env.now isUpgrade ProgressingSucceed ""
                newaddon)
              oldaddon

/-- The state and the message `updateAddonProgressingAndLastApplied` hands to
`setAddOnProgressingAndLastApplied` once both gates are passed: `Failed` with the error text when
the lister fails, `Doing` when no work is listed or a work fails a check, `Succeed` otherwise. -/
def chosenState (env : Env) (newaddon : ManagedClusterAddOn) : String × String :=
  match env.workLister newaddon.Namespace newaddon.Name with
  | Except.error err => (ProgressingFailed, err)
  | Except.ok addonWorks =>
    if addonWorks.length = 0 then (ProgressingDoing, "no addon works")
    else
      match checkAddonWorks (env.PreDeleteHookWorkName newaddon.Name) newaddon addonWorks with
      | some message => (ProgressingDoing, message)
      | none => (ProgressingSucceed, "")

/-- The member `status.conditions` of the merge patch of a client call: a JSON merge patch
leaves out a member on which both documents agree and replaces an array as a whole. -/
def PatchAction.patchConditions (action : PatchAction) : Option (List Condition) :=
  if action.oldData.Conditions = action.newData.Conditions then none
  else some action.newData.Conditions

/-- The function `strings.Split(s, "/")` on the characters of `s`. -/
def splitSlash : List Char → List (List Char)
  | [] => [[]]
  | c :: rest =>
    if c = '/' then [] :: splitSlash rest
    else
      match splitSlash rest with
      | [] => [[c]]
      | part :: parts => (c :: part) :: parts

/-- The function `cache.SplitMetaNamespaceKey`: the namespace and the name of a key, `none` when
the key has more than two parts. -/
def SplitMetaNamespaceKey (key : String) : Option (String × String) :=
  match splitSlash key.data with
  | [name] => some ("", String.mk name)
  | [ns, name] => some (String.mk ns, String.mk name)
  | _ => none

/-- What a lister answers to `Get`: the object, a not-found error, or another error. -/
inductive GetResult (α : Type) where
  | found (object : α)
  | notFound
  | failed (err : String)

/-- The type `addonapiv1alpha1.ClusterManagementAddOn` (its name). -/
structure ClusterManagementAddOn where
  Name : String := ""
deriving DecidableEq, Repr

/-- The collaborators of `sync`: those of a run, the two addon listers and the filter that tells
whether this controller owns an addon. -/
structure SyncEnv extends Env where
  managedClusterAddonLister : String → String → GetResult ManagedClusterAddOn
  clusterManagementAddonLister : String → GetResult ClusterManagementAddOn
  addonFilterFunc : ClusterManagementAddOn → Bool

/-- The function `sync`: the calls made on the addon client and the error returned. The new
addon of the run is a deep copy of the addon read from the lister. -/
def sync (env : SyncEnv) (key : String) : List PatchAction × Option String :=
  match SplitMetaNamespaceKey key with
  | none => ([], none)
  | some (ns, addonName) =>
    match env.managedClusterAddonLister ns addonName with
    | GetResult.notFound => ([], none)
    | GetResult.failed err => ([], some err)
    | GetResult.found addon =>
      match env.clusterManagementAddonLister addonName with
      | GetResult.notFound => ([], none)
      | GetResult.failed err => ([], some err)
      | GetResult.found clusterManagementAddon =>
        if !env.addonFilterFunc clusterManagementAddon then ([], none)
        else
          ((updateAddonProgressingAndLastApplied env.toEnv addon addon).actions,
            (updateAddonProgressingAndLastApplied env.toEnv addon addon).err)

/-! ## `constants.go` -/

/-- The constant `HostedManifestLocationLabel`. -/
def HostedManifestLocationLabel : String :=
  "addon.open-cluster-management.io/hosted-manifest-location"
/-- The constant `HostedManifestLocationManaged`. -/
def HostedManifestLocationManaged : String := "managed"
/-- The constant `HostedManifestLocationHosting`. -/
def HostedManifestLocationHosting : String := "hosting"
/-- The constant `HostedManifestLocationNone`. -/
def HostedManifestLocationNone : String := "none"

/-- The function `GetHostedManifestLocation`: the location, whether the label is present, and
the error. -/
def GetHostedManifestLocation (labels : GoMap) : String × Bool × Option String :=
  match GoMap.get labels HostedManifestLocationLabel with
  | none => ("", false, none)
  | some manifestLocation =>
    if manifestLocation = HostedManifestLocationManaged ∨
        manifestLocation = HostedManifestLocationHosting ∨
        manifestLocation = HostedManifestLocationNone then
      (manifestLocation, true, none)
    else ("", true, some ("not supported manifest location: " ++ manifestLocation))

/-- The constant `InstallModeHosted`. -/
def InstallModeHosted : String := "Hosted"
/-- The constant `InstallModeDefault`. -/
def InstallModeDefault : String := "Default"
/-- The constant `HostingClusterNameAnnotation`. -/
def HostingClusterNameAnnotation : String :=
  "addon.open-cluster-management.io/hosting-cluster-name"

/-- The function `GetHostedModeInfo`: the installation mode and the hosting cluster name. -/
def GetHostedModeInfo (annotations : GoMap) : String × String :=
  match GoMap.get annotations HostingClusterNameAnnotation with
  | none => (InstallModeDefault, "")
  | some hostingClusterName => (InstallModeHosted, hostingClusterName)

/-! ## `probe_helper.go` -/

/-- The type `workapiv1.ResourceIdentifier`. -/
structure ResourceIdentifier where
  Group : String := ""
  Resource : String := ""
  Name : String := ""
  Namespace : String := ""
deriving DecidableEq, Repr

/-- The type `workapiv1.FieldValue`: the type of the value and one pointer for each type. -/
structure FieldValue where
  Type_ : String := ""
  Integer : Option Int := none
  String_ : Option String := none
  Boolean : Option Bool := none
  JsonRaw : Option String := none
deriving DecidableEq, Repr

/-- The type `workapiv1.FeedbackValue`. -/
structure FeedbackValue where
  Name : String := ""
  Value : FieldValue := {}
deriving DecidableEq, Repr

/-- The type `workapiv1.StatusFeedbackResult`. -/
structure StatusFeedbackResult where
  Values : List FeedbackValue := []
deriving DecidableEq, Repr

/-- The loop of `HealthCheck` over the values. The outer `none` stands for the panic of the
nil pointer dereference `*value.Value.Integer`; `some none` is the nil error. -/
def healthCheckLoop (identifier : ResourceIdentifier) :
    List FeedbackValue → Option (Option String)
  | [] => some (some "readyReplica is not probed")
  | value :: rest =>
    if value.Name ≠ "ReadyReplicas" then healthCheckLoop identifier rest
    else
      match value.Value.Integer with
      | none => none
      | some integer =>
        if integer ≥ 1 then some none
        else
          some (some ("readyReplica is " ++ toString integer ++ " for deployment "
            ++ identifier.Namespace ++ "/" ++ identifier.Name))

/-- The function `HealthCheck`: the error it returns, or `none` when it panics. -/
def HealthCheck (identifier : ResourceIdentifier) (result : StatusFeedbackResult) :
    Option (Option String) :=
  if result.Values.length = 0 then
    some (some ("no values are probed for deployment " ++ identifier.Namespace ++ "/"
      ++ identifier.Name))
  else healthCheckLoop identifier result.Values

/-! ## Scenarios of `controller_test.go`

The objects of `TestReconcile`, used to run the definitions on concrete inputs. -/

/-- The constant `addonapiv1alpha1.AddonLabelKey`. -/
def AddonLabelKey : String := "open-cluster-management.io/addon-name"

/-- The `ManifestApplied` condition the test cases put on the addon. -/
def testManifestApplied : Condition :=
  { Type_ := ManagedClusterAddOnManifestApplied, Status := ConditionTrue
    LastTransitionTime := 1, Reason := "AddonManifestApplied"
    Message := "manifests of addon are applied successfully" }

/-- The config reference of the test cases: desired hash `hashnew`, last applied hash as given. -/
def testConfigReference (lastAppliedHash : String) : ConfigReference :=
  { Group := "core", Resource := "foo"
    DesiredConfig :=
      some { Name := "test", Namespace := "open-cluster-management", SpecHash := "hashnew" }
    LastAppliedConfig :=
      some { Name := "test", Namespace := "open-cluster-management", SpecHash := lastAppliedHash } }

/-- The addon `cluster1/test` of the test cases with the given config references. -/
def testAddon (configReferences : List ConfigReference) : ManagedClusterAddOn :=
  { Name := "test", Namespace := "cluster1"
    Status := { Conditions := [testManifestApplied], ConfigReferences := configReferences } }

/-- The work `addon-test-deploy` of the test cases: the hash it was stamped with and the status
of its `Applied` and `Available` conditions. -/
def testWork (hash applied available : String) : ManifestWork :=
  { Name := "addon-test-deploy", Namespace := "cluster1"
    Labels := [(AddonLabelKey, "test")]
    Annotations :=
      [(ManifestConfigSpecHashAnnotationKey,
        "\x7b\"foo.core/open-cluster-management/test\":\"" ++ hash ++ "\"\x7d")]
    Status := { Conditions :=
      [{ Type_ := WorkApplied, Status := applied }, { Type_ := WorkAvailable, Status := available }] } }

/-- A pre-delete hook work of the addon `test`, without annotation and without conditions. -/
def testHookWork : ManifestWork :=
  { Name := "addon-test-pre-delete", Namespace := "cluster1", Labels := [(AddonLabelKey, "test")] }

/-- An environment whose lister serves the given works by namespace and addon label and whose
client accepts every patch. -/
def testEnv (works : List ManifestWork) : Env :=
  { now := 2
    PreDeleteHookWorkName := fun addonName => "addon-" ++ addonName ++ "-pre-delete"
    workLister := fun ns addonName =>
      Except.ok (works.filter
        (fun w => w.Namespace = ns ∧ GoMap.get w.Labels AddonLabelKey = some addonName))
    addonClientPatch := fun _ => none }

/-- The addon of the test case `configuration unsupported`. -/
def testUnsupportedAddon : ManagedClusterAddOn :=
  { Name := "test", Namespace := "cluster1"
    Spec := { Configs :=
      [{ Group := "config1.test", Resource := "config1", Namespace := "cluster1",
         Name := "override" }] }
    Status := { Conditions := [testManifestApplied]
                SupportedConfigs := [{ Group := "configs.test", Resource := "testconfigs" }] } }

/-- The environment of `TestReconcile`: the listers serve the given addons and works, the only
cluster management addon is `test`, and the controller owns it. -/
def testSyncEnv (addons : List ManagedClusterAddOn) (works : List ManifestWork) : SyncEnv :=
  { toEnv := testEnv works
    managedClusterAddonLister := fun ns name =>
      match addons.find? (fun a => a.Namespace = ns ∧ a.Name = name) with
      | some a => GetResult.found a
      | none => GetResult.notFound
    clusterManagementAddonLister := fun name =>
      if name = "test" then GetResult.found { Name := "test" } else GetResult.notFound
    addonFilterFunc := fun _ => true }

/-- The addon `addontesting.NewAddon("test", "cluster1")` of the test case
`no work applied condition`: no condition at all. -/
def testNewAddon : ManagedClusterAddOn := { Name := "test", Namespace := "cluster1" }

/-- A config reference that carries neither a desired nor a last applied config. -/
def testBareConfigReference : ConfigReference := { Group := "core", Resource := "foo" }

/-- The Progressing condition a run leaves after a successful install. -/
def testInstallSucceed : Condition :=
  { Type_ := ManagedClusterAddOnConditionProgressing, Status := ConditionFalse
    LastTransitionTime := 1, Reason := ProgressingReasonInstallSucceed
    Message := "install completed with no errors." }

/-- The addon `cluster1/test` after a successful install: ManifestApplied, Progressing with
reason InstallSucceed, and the given config references. -/
def testInstalledAddon (configReferences : List ConfigReference) : ManagedClusterAddOn :=
  { Name := "test", Namespace := "cluster1"
    Status := { Conditions := [testManifestApplied, testInstallSucceed]
                ConfigReferences := configReferences } }

/-- An installed and converged addon (last applied hash equal to the desired `hashnew`) whose
spec now asks for a configuration kind that is not supported. -/
def testConvergedUnsupportedAddon : ManagedClusterAddOn :=
  { testInstalledAddon [testConfigReference "hashnew"] with
    Spec := { Configs := [{ Group := "config1.test", Resource := "config1" }] } }

/-- An installed and converged addon whose status carries no ManifestApplied condition. -/
def testConvergedUnappliedAddon : ManagedClusterAddOn :=
  { Name := "test", Namespace := "cluster1"
    Status := { Conditions := [testInstallSucceed]
                ConfigReferences := [testConfigReference "hashnew"] } }

/-- An environment whose work lister fails with the given error and whose client accepts every
patch. -/
def testListErrorEnv (err : String) : Env :=
  { testEnv [] with workLister := fun _ _ => Except.error err }

/-- The environment of `TestReconcile` with a work lister that fails with the given error. -/
def testListErrorSyncEnv (addons : List ManagedClusterAddOn) (err : String) : SyncEnv :=
  { testSyncEnv addons [] with toEnv := testListErrorEnv err }

/-- The work `addon-test-deploy`, applied and available, with the given text as its hash
annotation. -/
def testAnnotatedWork (annotationValue : String) : ManifestWork :=
  { Name := "addon-test-deploy", Namespace := "cluster1"
    Labels := [(AddonLabelKey, "test")]
    Annotations := [(ManifestConfigSpecHashAnnotationKey, annotationValue)]
    Status := { Conditions :=
      [{ Type_ := WorkApplied, Status := "True" }, { Type_ := WorkAvailable, Status := "True" }] } }

/-! ## Pointer dereferences made explicit

The definitions above read a Go pointer by matching on an `Option`. The checked variants below
follow the source expression by expression: the nil test and the field read are separate steps,
and the result `none` stands for the panic of a nil pointer dereference. -/

/-- The type `labels.Requirement`. -/
structure Requirement where
  key : String
  operator : String
  strValues : List String
deriving DecidableEq, Repr

/-- The constant `selection.Equals`. -/
def Equals : String := "="

/-- The character class `[A-Za-z0-9]` of `qualifiedNameFmt`. -/
def qnameChar (c : Char) : Bool := c.isAlphanum

/-- The character class `[-A-Za-z0-9_.]` of `qualifiedNameFmt`. -/
def qnameExtChar (c : Char) : Bool := c.isAlphanum || c = '-' || c = '_' || c = '.'

/-- The function `validation.IsValidLabelValue`, as the test that it reports no error: at most
63 bytes, and either empty or made of the extended characters with an alphanumeric first and
last character. -/
def IsValidLabelValue (value : String) : Bool :=
  decide (value.utf8ByteSize ≤ 63) &&
    (match value.data with
     | [] => true
     | first :: rest =>
       qnameChar first && qnameChar ((first :: rest).getLast (List.cons_ne_nil first rest)) &&
         (first :: rest).all qnameExtChar)

/-- The function `labels.NewRequirement` for an operator of the `=` family: the pointer to the
requirement, which is never nil, and the error, which reports a number of values other than one
or an invalid label value (the validation of the key, a constant at the call site, is left out;
the caller drops the error). -/
def NewRequirement (key op : String) (vals : List String) : Option Requirement × Option String :=
  (some { key := key, operator := op, strValues := vals },
    if vals.length ≠ 1 then some "exact-match compatibility requires one single value"
    else if vals.all IsValidLabelValue then none
    else some "a valid label must be an empty string or consist of alphanumeric characters")

/-- The generated method `(*ConfigSpecHash).DeepCopy`: a nil receiver gives nil. -/
def ConfigSpecHash.DeepCopy (receiver : Option ConfigSpecHash) : Option ConfigSpecHash :=
  match receiver with
  | none => none
  | some config => some { config with }

/-- The loop that sets the upgrade flag, the read of `LastAppliedConfig.SpecHash` after the nil
test made explicit. -/
def isUpgradeFlagChecked : List ConfigReference → Option Bool
  | [] => some false
  | configReference :: rest =>
    if configReference.LastAppliedConfig = none then isUpgradeFlagChecked rest
    else
      match configReference.LastAppliedConfig with
      | none => none
      | some lastApplied =>
        if lastApplied.SpecHash ≠ "" then some true else isUpgradeFlagChecked rest

/-- The function `workIsReady`, the reads of `cond.Status` and `cond.ObservedGeneration` after
the nil test made explicit. -/
def workIsReadyChecked (work : ManifestWork) : Option Bool :=
  if FindStatusCondition work.Status.Conditions WorkAvailable = none then some false
  else
    match FindStatusCondition work.Status.Conditions WorkAvailable with
    | none => none
    | some cond =>
      if cond.Status ≠ ConditionTrue ∨ cond.ObservedGeneration ≠ work.Generation then some false
      else if FindStatusCondition work.Status.Conditions WorkApplied = none then some false
      else
        match FindStatusCondition work.Status.Conditions WorkApplied with
        | none => none
        | some cond =>
          if cond.Status ≠ ConditionTrue ∨ cond.ObservedGeneration ≠ work.Generation then
            some false
          else some true

/-- The loop of `workConfigsMatchesAddon` over the config references: `some false` when a
reference has no desired config or an empty desired hash, the read of `DesiredConfig.SpecHash`
after the nil test made explicit. -/
def desiredConfigsChecked : List ConfigReference → Option Bool
  | [] => some true
  | configReference :: rest =>
    if configReference.DesiredConfig = none then some false
    else
      match configReference.DesiredConfig with
      | none => none
      | some desired => if desired.SpecHash = "" then some false else desiredConfigsChecked rest

/-- The function `workConfigsMatchesAddon` with the checked loop over the config references. -/
def workConfigsMatchesAddonChecked (work : ManifestWork) (addon : ManagedClusterAddOn) :
    Option Bool :=
  match GoMap.get work.Annotations ManifestConfigSpecHashAnnotationKey with
  | none => some (addon.Status.ConfigReferences.length == 0)
  | some annotationValue =>
    match jsonUnmarshalStringMap annotationValue with
    | none => some false
    | some workSpecHashMap =>
      if workSpecHashMap.any (fun kv => kv.2 = "") then some false
      else
        match desiredConfigsChecked addon.Status.ConfigReferences with
        | none => none
        | some false => some false
        | some true =>
          some (GoMap.deepEqual workSpecHashMap (ConfigsToMap addon.Status.ConfigReferences))

/-- The loop over the listed works with the checked functions; the inner `none` says that the
loop ran to its end. -/
def checkAddonWorksChecked (hookWorkName : String) (addon : ManagedClusterAddOn) :
    List ManifestWork → Option (Option String)
  | [] => some none
  | work :: rest =>
    if HasPrefix work.Name hookWorkName then checkAddonWorksChecked hookWorkName addon rest
    else
      match workConfigsMatchesAddonChecked work addon with
      | none => none
      | some false => some (some "configs mismatch")
      | some true =>
        match workIsReadyChecked work with
        | none => none
        | some false => some (some "work is not ready")
        | some true => checkAddonWorksChecked hookWorkName addon rest

/-- The function `setAddOnProgressingAndLastApplied` with the call of `DeepCopy` on the desired
config, which may be nil, written out. -/
def setAddOnProgressingAndLastAppliedChecked (now : Time) (isUpgrade : Bool)
    (status message : String) (addon : ManagedClusterAddOn) : Option ManagedClusterAddOn :=
  if skipProgressingUpdate addon then some addon
  else
    let configReferences :=
      if status = ProgressingSucceed then
        addon.Status.ConfigReferences.map
          (fun configReference =>
            { configReference with
              LastAppliedConfig := ConfigSpecHash.DeepCopy configReference.DesiredConfig })
      else addon.Status.ConfigReferences
    some { addon with
      Status := { addon.Status with
        ConfigReferences := configReferences
        Conditions :=
          SetStatusCondition now addon.Status.Conditions
            (progressingCondition isUpgrade status message) } }

/-- The function `updateAddonProgressingAndLastApplied` with every pointer read checked: the
upgrade flag, the requirement returned by `labels.NewRequirement`, the loop over the works and
the setting of the last applied configs. The result is `none` when the run panics. -/
def updateAddonProgressingAndLastAppliedChecked (env : Env)
    (newaddon oldaddon : ManagedClusterAddOn) : Option Outcome :=
  match isConfigurationSupported newaddon with
  | (false, config) =>
    some (patchAndReturn env none ""
      { newaddon with
        Status := { newaddon.Status with
          Conditions :=
            SetStatusCondition env.now newaddon.Status.Conditions
              { Type_ := ManagedClusterAddOnConditionProgressing
                Status := ConditionFalse
                Reason := ProgressingReasonConfigurationUnsupported
                Message := "Configuration with gvr " ++ config.Group ++ "/" ++ config.Resource
                  ++ " is not supported for this addon" } } }
      oldaddon)
  | (true, _) =>
    match FindStatusCondition newaddon.Status.Conditions ManagedClusterAddOnManifestApplied with
    | none =>
      some (patchAndReturn env none ""
        { newaddon with
          Status := { newaddon.Status with
            Conditions :=
              SetStatusCondition env.now newaddon.Status.Conditions
                { Type_ := ManagedClusterAddOnConditionProgressing
                  Status := ConditionFalse
                  Reason := "WaitingForManifestApplied"
                  Message := "Waiting for ManagedClusterAddOn ManifestApplied condition" } } }
        oldaddon)
    | some _ =>
      match isUpgradeFlagChecked newaddon.Status.ConfigReferences with
      | none => none
      | some isUpgrade =>
        match (NewRequirement AddonLabelKey Equals [newaddon.Name]).1 with
        | none => none
        | some _ =>
          match env.workLister newaddon.Namespace newaddon.Name with
          | Except.error err =>
            (setAddOnProgressingAndLastAppliedChecked env.now isUpgrade ProgressingFailed err
              newaddon).map
              (fun addon => patchAndReturn env (some ProgressingFailed) err addon oldaddon)
          | Except.ok addonWorks =>
            if addonWorks.length = 0 then
              (setAddOnProgressingAndLastAppliedChecked env.now isUpgrade ProgressingDoing
                "no addon works" newaddon).map
                (fun addon =>
                  patchAndReturn env (some ProgressingDoing) "no addon works" addon oldaddon)
            else
              match checkAddonWorksChecked (env.PreDeleteHookWorkName newaddon.Name) newaddon
                  addonWorks with
              | none => none
              | some (some message) =>
                (setAddOnProgressingAndLastAppliedChecked env.now isUpgrade ProgressingDoing
                  message newaddon).map
                  (fun addon => patchAndReturn env (some ProgressingDoing) message addon oldaddon)
              | some none =>
                (setAddOnProgressingAndLastAppliedChecked env.now isUpgrade ProgressingSucceed
                  "" newaddon).map
                  (fun addon => patchAndReturn env (some ProgressingSucceed) "" addon oldaddon)

/-- An addon whose name is not a valid label value (it ends in a dash), with one config
reference that has neither a desired nor a last applied config, and a ManifestApplied
condition. -/
def testOddAddon : ManagedClusterAddOn :=
  { Name := "test-", Namespace := "cluster1"
    Status := { Conditions := [testManifestApplied]
                ConfigReferences := [testBareConfigReference] } }

/-! ## The payload of the patch (`encoding/json`, `github.com/evanphx/json-patch`)

`CreateMergePatch` decodes both documents into maps and compares them; a map is kept here as
the sequence of its members. -/

mutual
/-- A decoded JSON value. -/
inductive Json where
  | null
  | bool (b : Bool)
  | num (n : Int)
  | str (s : String)
  | arr (items : JsonArray)
  | obj (members : JsonObject)
/-- The items of a JSON array. -/
inductive JsonArray where
  | nil
  | cons (head : Json) (tail : JsonArray)
/-- The members of a JSON object. -/
inductive JsonObject where
  | nil
  | cons (key : String) (value : Json) (tail : JsonObject)
end

/-- The JSON array of a list of values. -/
def JsonArray.ofList : List Json → JsonArray
  | [] => .nil
  | x :: xs => .cons x (JsonArray.ofList xs)

/-- The value of a key in an object, as `m[key]` on a Go map. -/
def JsonObject.get : JsonObject → String → Option Json
  | .nil, _ => none
  | .cons k v rest, key => if k = key then some v else rest.get key

/-- The number of members, `len(m)`. -/
def JsonObject.length : JsonObject → Nat
  | .nil => 0
  | .cons _ _ rest => rest.length + 1

/-- The members of two objects, one after the other. -/
def JsonObject.append : JsonObject → JsonObject → JsonObject
  | .nil, b => b
  | .cons k v rest, b => .cons k v (rest.append b)

/-- The members of an object as a list of pairs. -/
def JsonObject.toList : JsonObject → List (String × Json)
  | .nil => []
  | .cons k v rest => (k, v) :: rest.toList

/-- The test `len(m) == 0`. -/
def JsonObject.isEmpty : JsonObject → Bool
  | .nil => true
  | .cons _ _ _ => false

mutual
/-- The keys of every object in a value are distinct, as they are in a Go map. -/
def Json.distinctKeys : Json → Bool
  | .arr items => items.distinctKeys
  | .obj members => members.distinctKeys
  | _ => true
/-- The keys of every object in the items of an array are distinct. -/
def JsonArray.distinctKeys : JsonArray → Bool
  | .nil => true
  | .cons x xs => x.distinctKeys && xs.distinctKeys
/-- The keys of an object are distinct, and so are those of every object in its values. -/
def JsonObject.distinctKeys : JsonObject → Bool
  | .nil => true
  | .cons k v rest => (rest.get k).isNone && v.distinctKeys && rest.distinctKeys
end

mutual
/-- The functions `matchesValue` and `matchesArray` of the merge patch library; `matchesIn`
is the loop of `matchesValue` over the keys of the second object. -/
def Json.matchesValue : Json → Json → Bool
  | a, .null => match a with | .null => true | _ => false
  | a, .bool y => match a with | .bool x => x == y | _ => false
  | a, .num y => match a with | .num x => x == y | _ => false
  | a, .str y => match a with | .str x => x == y | _ => false
  | a, .arr ys => match a with | .arr xs => JsonArray.matchesArray xs ys | _ => false
  | a, .obj bm => match a with
    | .obj am => am.length == bm.length && JsonObject.matchesIn am bm
    | _ => false
/-- The function `matchesArray`: the same length and matching items. -/
def JsonArray.matchesArray : JsonArray → JsonArray → Bool
  | xs, .nil => match xs with | .nil => true | _ => false
  | xs, .cons y ys => match xs with
    | .cons x xs' => Json.matchesValue x y && JsonArray.matchesArray xs' ys
    | .nil => false
/-- The loop of `matchesValue` over the keys of the second object. -/
def JsonObject.matchesIn (am : JsonObject) : JsonObject → Bool
  | .nil => true
  | .cons k bv rest =>
    (match am.get k with
     | some av => Json.matchesValue av bv
     | none => false) && JsonObject.matchesIn am rest
end

/-- The second loop of `getDiff`: every key of the original that the modified object lacks is
set to `null`. -/
def JsonObject.deleted (b : JsonObject) : JsonObject → JsonObject
  | .nil => .nil
  | .cons k _ rest =>
    match b.get k with
    | none => .cons k .null (JsonObject.deleted b rest)
    | some _ => JsonObject.deleted b rest

mutual
/-- The first loop of `getDiff`, `getDiffValue` being its body for one key of the modified
object: a new key or a value of another type is taken over, two objects are compared member by
member and kept when they differ, other values are kept unless they match. -/
def getDiffValue (key : String) (av : Option Json) : Json → JsonObject
  | .obj bm =>
    match av with
    | some (.obj am) =>
      if ((getDiffPresent am bm).append (JsonObject.deleted bm am)).isEmpty then .nil
      else .cons key (.obj ((getDiffPresent am bm).append (JsonObject.deleted bm am))) .nil
    | _ => .cons key (.obj bm) .nil
  | bv =>
    match av with
    | some a => if Json.matchesValue a bv then .nil else .cons key bv .nil
    | none => .cons key bv .nil
/-- The first loop of `getDiff`, over the keys of the modified object. -/
def getDiffPresent (a : JsonObject) : JsonObject → JsonObject
  | .nil => .nil
  | .cons k bv rest => (getDiffValue k (a.get k) bv).append (getDiffPresent a rest)
end

/-- The function `getDiff` of the merge patch library. -/
def getDiff (a b : JsonObject) : JsonObject :=
  (getDiffPresent a b).append (JsonObject.deleted b a)

/-- A field with the tag `omitempty`: no member when the value is empty. -/
def omitEmpty (key : String) (isEmpty : Bool) (value : Json) : JsonObject :=
  if isEmpty then .nil else .cons key value .nil

/-- How `encoding/json` writes the API types, which are not among the sources: the encoding of
a condition and of a config reference, and the members a marshalled `ManagedClusterAddOn`
carries for the fields the controller leaves at their zero value, at the top level
(`objectRest`, for instance `spec`), in `metadata` (`metadataRest`, for instance
`creationTimestamp`) and in `status` (`statusRest`). -/
structure Encoding where
  condition : Condition → Json
  configReference : ConfigReference → Json
  objectRest : JsonObject
  metadataRest : JsonObject
  statusRest : JsonObject

/-- The members of an encoding are those of Go maps and structs: the keys of every object are
distinct, and the members of the zero-valued fields are not those of the fields the controller
sets. -/
def Encoding.wellFormed (enc : Encoding) : Bool :=
  enc.objectRest.distinctKeys && (enc.objectRest.get "metadata").isNone &&
    (enc.objectRest.get "status").isNone &&
  enc.metadataRest.distinctKeys && (enc.metadataRest.get "uid").isNone &&
    (enc.metadataRest.get "resourceVersion").isNone &&
  enc.statusRest.distinctKeys && (enc.statusRest.get "conditions").isNone &&
    (enc.statusRest.get "configReferences").isNone

/-- The member `metadata` of the marshalled object: `uid` and `resourceVersion` are written
unless empty. -/
def marshalObjectMeta (enc : Encoding) (data : PatchData) : JsonObject :=
  ((omitEmpty "uid" (data.UID = "") (.str data.UID)).append
    (omitEmpty "resourceVersion" (data.ResourceVersion = "") (.str data.ResourceVersion))).append
    enc.metadataRest

/-- The member `status` of the marshalled object: `conditions` and `configReferences` are
written unless empty. -/
def marshalStatus (enc : Encoding) (data : PatchData) : JsonObject :=
  ((omitEmpty "conditions" (data.Conditions = [])
      (.arr (JsonArray.ofList (data.Conditions.map enc.condition)))).append
    (omitEmpty "configReferences" (data.ConfigReferences = [])
      (.arr (JsonArray.ofList (data.ConfigReferences.map enc.configReference))))).append
    enc.statusRest

/-- The document `json.Marshal` writes for the object built by
`patchAddOnProgressingAndLastApplied`, as decoded by `CreateMergePatch`. -/
def marshalAddon (enc : Encoding) (data : PatchData) : JsonObject :=
  .cons "metadata" (.obj (marshalObjectMeta enc data))
    (.cons "status" (.obj (marshalStatus enc data)) enc.objectRest)

/-- The function `jsonpatch.CreateMergePatch` on two decoded objects. -/
def CreateMergePatch (originalDoc modifiedDoc : JsonObject) : JsonObject :=
  getDiff originalDoc modifiedDoc

/-- The payload of a call of the addon client. -/
def PatchAction.patchBytes (enc : Encoding) (action : PatchAction) : JsonObject :=
  CreateMergePatch (marshalAddon enc action.oldData) (marshalAddon enc action.newData)

/-- An encoding in the manner of `encoding/json` on the API types. -/
def testEncoding : Encoding :=
  { condition := fun c =>
      .obj (.cons "type" (.str c.Type_) (.cons "status" (.str c.Status)
        (.cons "lastTransitionTime" (.num c.LastTransitionTime)
          (.cons "reason" (.str c.Reason) (.cons "message" (.str c.Message) .nil)))))
    configReference := fun r =>
      .obj (.cons "group" (.str r.Group) (.cons "resource" (.str r.Resource)
        (.cons "name" (.str r.Name)
          ((omitEmpty "desiredConfig" r.DesiredConfig.isNone
            (.str ((r.DesiredConfig.map (fun config => config.SpecHash)).getD ""))).append
          (omitEmpty "lastAppliedConfig" r.LastAppliedConfig.isNone
            (.str ((r.LastAppliedConfig.map (fun config => config.SpecHash)).getD "")))))))
    objectRest := .cons "spec" (.obj .nil) .nil
    metadataRest := .cons "creationTimestamp" .null .nil
    statusRest := .cons "addOnMeta" (.obj .nil) (.cons "addOnConfiguration" (.obj .nil)
      (.cons "healthCheck" (.obj .nil) .nil)) }

/-- The addon `cluster1/test` of the test cases with identity fields, after a run that set the
Progressing condition. -/
def testPatchedAddon : ManagedClusterAddOn :=
  { testInstalledAddon [testConfigReference ""] with UID := "u1", ResourceVersion := "7" }

/-- The deployment the probe of the examples looks at. -/
def testIdentifier : ResourceIdentifier :=
  { Group := "apps", Resource := "deployments", Name := "agent"
    Namespace := "open-cluster-management-agent-addon" }

/-- A feedback result whose value `ReadyReplicas` is reported as a string: the pointer
`Integer` is nil. -/
def testStringReplicas : StatusFeedbackResult :=
  { Values := [{ Name := "ReadyReplicas", Value := { Type_ := "String", String_ := some "1" } }] }

/-- A feedback result with the given number of ready replicas, after a value of another
name. -/
def testReplicas (ready : Int) : StatusFeedbackResult :=
  { Values :=
      [{ Name := "Replicas", Value := { Type_ := "Integer", Integer := some 2 } },
       { Name := "ReadyReplicas", Value := { Type_ := "Integer", Integer := some ready } }] }

/-- Two works of the addon `test`: the first carries a hash that is not the desired one, the
second carries the desired hash and is not available. -/
def testFailingWorks : List ManifestWork :=
  [{ testWork "hashold" "True" "True" with Name := "addon-test-deploy-0" },
   testWork "hashnew" "True" "False"]

/-! ## A valid JSON string-to-string object

The annotation as a document: whether it is the literal `null`, and its members as they are
written, a value being either a string literal or `null`. -/

/-- Whether the document is the literal `null` between optional white space. -/
def jsonIsNull (data : String) : Bool :=
  match jsonSkipSpace data.data with
  | 'n' :: 'u' :: 'l' :: 'l' :: rest => jsonSkipSpace rest = []
  | _ => false

/-- Whether the value of the member that starts at the opening quote of its key begins with
the letter of `null`. -/
def jsonMemberIsNull : List Char → Bool
  | '"' :: rest =>
    match jsonString rest with
    | none => false
    | some (_, afterKey) =>
      match jsonSkipSpace afterKey with
      | ':' :: afterColon =>
        match jsonSkipSpace afterColon with
        | 'n' :: _ => true
        | _ => false
      | _ => false
  | _ => false

/-- The members of an object from its first key on, as they are written: the value of a member
is `some` text for a string literal and `none` for `null`. -/
def jsonWrittenMembers : Nat → List Char → Option (List (String × Option String) × List Char)
  | 0, _ => none
  | fuel + 1, input =>
    match jsonMember input with
    | none => none
    | some (member, true, rest) =>
      match jsonWrittenMembers fuel rest with
      | none => none
      | some (members, tail) =>
        some ((member.1, if jsonMemberIsNull input then none else some member.2) :: members, tail)
    | some (member, false, rest) =>
      some ([(member.1, if jsonMemberIsNull input then none else some member.2)], rest)

/-- The members, as they are written, of a document that is a JSON object whose values are
string literals or `null`; `none` for every other document. -/
def jsonWrittenObject (data : String) : Option (List (String × Option String)) :=
  match jsonSkipSpace data.data with
  | c :: rest =>
    if c = Char.ofNat 123 then
      match jsonSkipSpace rest with
      | [] => none
      | d :: rest1 =>
        if d = Char.ofNat 125 then (if jsonSkipSpace rest1 = [] then some [] else none)
        else
          match jsonWrittenMembers data.length (d :: rest1) with
          | none => none
          | some (members, tail) => if jsonSkipSpace tail = [] then some members else none
    else none
  | [] => none

/-- The value of the last member with the given key. -/
def jsonLastValue {α : Type} : List (String × α) → String → Option α
  | [], _ => none
  | (key, value) :: rest, k =>
    match jsonLastValue rest k with
    | some later => some later
    | none => if key = k then some value else none

/-- A valid JSON string-to-string object: the document is a JSON object and every key has a
string as its value, a key that is written more than once having the value written last, as in
a map. -/
def jsonIsStringObject (data : String) : Bool :=
  match jsonWrittenObject data with
  | none => false
  | some members =>
    members.all (fun member =>
      match jsonLastValue members member.1 with
      | some (some _) => true
      | _ => false)

/-! ## Lemmas on the JSON model -/

theorem jsonSkipSpace_length (input : List Char) :
    (jsonSkipSpace input).length ≤ input.length := by
  induction input with
  | nil => simp [jsonSkipSpace]
  | cons c rest ih =>
    unfold jsonSkipSpace
    split
    · exact Nat.le_succ_of_le ih
    · exact Nat.le_refl _

theorem jsonStringItems_length :
    ∀ (n : Nat) (input : List Char), input.length ≤ n →
      ∀ items tail, jsonStringItems input = some (items, tail) → tail.length < input.length := by
  intro n
  induction n with
  | zero =>
    intro input hlen items tail h
    have : input = [] := List.length_eq_zero.mp (Nat.le_zero.mp hlen)
    subst this
    simp [jsonStringItems] at h
  | succ n ih =>
    intro input hlen items tail h
    unfold jsonStringItems at h
    split at h
    · cases h
    · rename_i c rest
      simp only [List.length_cons] at hlen ⊢
      split at h
      · cases h; omega
      · split at h
        · split at h
          · cases h
          · rename_i e rest1
            simp only [List.length_cons] at hlen ⊢
            split at h
            · split at h
              · rename_i h1 h2 h3 h4 rest2
                simp only [List.length_cons] at hlen ⊢
                split at h
                · cases h
                · split at h
                  · cases h
                  · rename_i items' tail' hrec
                    cases h
                    have := ih rest2 (by omega) _ _ hrec
                    omega
              · cases h
            · split at h
              · cases h
              · split at h
                · cases h
                · rename_i items' tail' hrec
                  cases h
                  have := ih rest1 (by omega) _ _ hrec
                  omega
        · split at h
          · cases h
          · split at h
            · cases h
            · rename_i items' tail' hrec
              cases h
              have := ih rest (by omega) _ _ hrec
              omega

theorem jsonString_length {input : List Char} {text : String} {tail : List Char}
    (h : jsonString input = some (text, tail)) : tail.length < input.length := by
  unfold jsonString at h
  split at h
  · cases h
  · rename_i items tail' hrec
    cases h
    exact jsonStringItems_length _ input (Nat.le_refl _) _ _ hrec

theorem jsonStringValue_length {input : List Char} {text : String} {tail : List Char}
    (h : jsonStringValue input = some (text, tail)) : tail.length < input.length := by
  unfold jsonStringValue at h
  split at h
  · have := jsonString_length h
    simp only [List.length_cons]
    omega
  · cases h
    simp only [List.length_cons]
    omega
  · cases h

theorem jsonMember_length {input : List Char} {member : String × String} {more : Bool}
    {rest : List Char} (h : jsonMember input = some (member, more, rest)) :
    rest.length < input.length := by
  unfold jsonMember at h
  split at h
  · rename_i rest0
    split at h
    · cases h
    · rename_i key afterKey hkey
      have h1 := jsonString_length hkey
      have h2 := jsonSkipSpace_length afterKey
      split at h
      · rename_i afterColon hcolon
        rw [hcolon] at h2
        have h3 := jsonSkipSpace_length afterColon
        split at h
        · cases h
        · rename_i value afterValue hvalue
          have h4 := jsonStringValue_length hvalue
          have h5 := jsonSkipSpace_length afterValue
          split at h
          · rename_i c tail htail
            rw [htail] at h5
            have h6 := jsonSkipSpace_length tail
            simp only [List.length_cons] at h2 h5 ⊢
            split at h
            · cases h; omega
            · split at h
              · cases h; omega
              · cases h
          · cases h
      · cases h
  · cases h

/-- Fuel beyond the length of the input does not change what `jsonMembers` returns. -/
theorem jsonMembers_fuel (fuel1 : Nat) :
    ∀ (fuel2 : Nat) (input : List Char), input.length ≤ fuel1 → input.length ≤ fuel2 →
      jsonMembers fuel1 input = jsonMembers fuel2 input := by
  induction fuel1 with
  | zero =>
    intro fuel2 input h1 _
    have : input = [] := List.length_eq_zero.mp (Nat.le_zero.mp h1)
    subst this
    cases fuel2 with
    | zero => rfl
    | succ g => simp [jsonMembers, jsonMember]
  | succ f ih =>
    intro fuel2 input h1 h2
    cases fuel2 with
    | zero =>
      have : input = [] := List.length_eq_zero.mp (Nat.le_zero.mp h2)
      subst this
      simp [jsonMembers, jsonMember]
    | succ g =>
      unfold jsonMembers
      cases hm : jsonMember input with
      | none => rfl
      | some r =>
        obtain ⟨member, more, rest⟩ := r
        have hlen := jsonMember_length hm
        cases more with
        | true =>
          simp only
          rw [ih g rest (by omega) (by omega)]
        | false => rfl

/-! ## Lemmas on the condition helpers -/

theorem findStatusCondition_type {conditions : List Condition} {t : String} {c : Condition}
    (h : FindStatusCondition conditions t = some c) : c.Type_ = t := by
  induction conditions with
  | nil => simp [FindStatusCondition] at h
  | cons d rest ih =>
    unfold FindStatusCondition at h
    split at h
    · cases h; assumption
    · exact ih h

theorem findStatusCondition_mem {conditions : List Condition} {t : String} {c : Condition}
    (h : FindStatusCondition conditions t = some c) : c ∈ conditions := by
  induction conditions with
  | nil => simp [FindStatusCondition] at h
  | cons d rest ih =>
    unfold FindStatusCondition at h
    split at h
    · cases h; exact List.mem_cons_self _ _
    · exact List.mem_cons_of_mem _ (ih h)

theorem findStatusCondition_iff_mem_of_nodup {conditions : List Condition}
    (h : (conditions.map Condition.Type_).Nodup) (t : String) (c : Condition) :
    FindStatusCondition conditions t = some c ↔ c ∈ conditions ∧ c.Type_ = t := by
  constructor
  · intro hfind
    exact ⟨findStatusCondition_mem hfind, findStatusCondition_type hfind⟩
  · rintro ⟨hmem, htype⟩
    induction conditions with
    | nil => simp at hmem
    | cons d rest ih =>
      simp only [List.map_cons, List.nodup_cons] at h
      unfold FindStatusCondition
      rcases List.mem_cons.mp hmem with rfl | hrest
      · simp [htype]
      · have hne : d.Type_ ≠ t := by
          intro hd
          apply h.1
          rw [hd, ← htype]
          exact List.mem_map.mpr ⟨c, hrest, rfl⟩
        simp only [hne, if_false]
        exact ih h.2 hrest

theorem findStatusCondition_append_of_none {conditions : List Condition} {t : String}
    (h : FindStatusCondition conditions t = none) (c : Condition) (hc : c.Type_ = t) :
    FindStatusCondition (conditions ++ [c]) t = some c := by
  induction conditions with
  | nil => simp [FindStatusCondition, hc]
  | cons d rest ih =>
    unfold FindStatusCondition at h
    split at h
    · cases h
    · rename_i hd
      simp only [List.cons_append, FindStatusCondition, hd, if_false]
      exact ih h

theorem findStatusCondition_updateFirst {conditions : List Condition} {now : Time}
    {newCondition existing : Condition}
    (h : FindStatusCondition conditions newCondition.Type_ = some existing) :
    FindStatusCondition (updateFirstCondition now newCondition conditions) newCondition.Type_
      = some (updateExistingCondition now existing newCondition) := by
  induction conditions with
  | nil => simp [FindStatusCondition] at h
  | cons d rest ih =>
    unfold FindStatusCondition at h
    split at h
    · rename_i hd
      cases h
      have htype :
          (updateExistingCondition now existing newCondition).Type_ = newCondition.Type_ := by
        unfold updateExistingCondition
        split <;> simpa using hd
      simp [updateFirstCondition, hd, FindStatusCondition, htype]
    · rename_i hd
      simp only [updateFirstCondition, hd, if_false, FindStatusCondition]
      exact ih h

/-- After `SetStatusCondition`, the condition found under the type of the new condition carries
the status, reason and message of the new condition. -/
theorem findStatusCondition_set (now : Time) (conditions : List Condition)
    (newCondition : Condition) :
    ∃ c, FindStatusCondition (SetStatusCondition now conditions newCondition) newCondition.Type_
        = some c ∧
      c.Status = newCondition.Status ∧ c.Reason = newCondition.Reason ∧
      c.Message = newCondition.Message := by
  unfold SetStatusCondition
  cases h : FindStatusCondition conditions newCondition.Type_ with
  | none =>
    simp only
    split
    · refine ⟨_, findStatusCondition_append_of_none h _ rfl, rfl, rfl, rfl⟩
    · refine ⟨_, findStatusCondition_append_of_none h _ rfl, rfl, rfl, rfl⟩
  | some existing =>
    simp only
    refine ⟨_, findStatusCondition_updateFirst h, ?_, rfl, rfl⟩
    unfold updateExistingCondition
    split
    · rfl
    · rename_i hs
      simpa using hs

/-! ## Lemmas on the configuration support filter -/

theorem isConfigurationSupportedLoop_true_iff (supported : List ConfigGroupResource)
    (configs : List AddOnConfig) :
    isConfigurationSupportedLoop supported configs = (true, {}) ↔
      ∀ config ∈ configs, config.toConfigGroupResource ∈ supported := by
  induction configs with
  | nil => simp [isConfigurationSupportedLoop]
  | cons c rest ih =>
    unfold isConfigurationSupportedLoop
    by_cases hc : c.toConfigGroupResource ∈ supported
    · simp [hc, ih]
    · simp [hc]

theorem isConfigurationSupportedLoop_first (supported : List ConfigGroupResource)
    (configs : List AddOnConfig)
    (h : ¬ ∀ config ∈ configs, config.toConfigGroupResource ∈ supported) :
    ∃ pre config post, configs = pre ++ config :: post ∧
      (∀ c ∈ pre, c.toConfigGroupResource ∈ supported) ∧
      config.toConfigGroupResource ∉ supported ∧
      isConfigurationSupportedLoop supported configs = (false, config.toConfigGroupResource) := by
  induction configs with
  | nil => simp at h
  | cons c rest ih =>
    by_cases hc : c.toConfigGroupResource ∈ supported
    · have hrest : ¬ ∀ config ∈ rest, config.toConfigGroupResource ∈ supported := by
        intro hall
        apply h
        intro config hmem
        rcases List.mem_cons.mp hmem with rfl | hmem
        · exact hc
        · exact hall config hmem
      obtain ⟨pre, config, post, heq, hpre, hbad, hres⟩ := ih hrest
      refine ⟨c :: pre, config, post, by simp [heq], ?_, hbad, ?_⟩
      · intro x hx
        rcases List.mem_cons.mp hx with rfl | hx
        · exact hc
        · exact hpre x hx
      · simp [isConfigurationSupportedLoop, hc, hres]
    · exact ⟨[], c, rest, rfl, by simp, hc, by simp [isConfigurationSupportedLoop, hc]⟩

theorem isConfigurationSupported_cases (addon : ManagedClusterAddOn) :
    isConfigurationSupported addon = (true, {}) ∨
      ∃ config, isConfigurationSupported addon = (false, config) := by
  by_cases h : ∀ config ∈ addon.Spec.Configs,
      config.toConfigGroupResource ∈ addon.Status.SupportedConfigs
  · exact Or.inl ((isConfigurationSupportedLoop_true_iff _ _).mpr h)
  · obtain ⟨_, config, _, _, _, _, hres⟩ := isConfigurationSupportedLoop_first _ _ h
    exact Or.inr ⟨config.toConfigGroupResource, hres⟩

theorem isConfigurationSupported_of_fst {addon : ManagedClusterAddOn}
    (h : (isConfigurationSupported addon).1 = true) :
    isConfigurationSupported addon = (true, {}) := by
  rcases isConfigurationSupported_cases addon with h1 | ⟨config, h1⟩
  · exact h1
  · rw [h1] at h; simp at h

/-! ## Lemmas on the loop over the works -/

theorem checkAddonWorks_none_iff (hook : String) (addon : ManagedClusterAddOn)
    (works : List ManifestWork) :
    checkAddonWorks hook addon works = none ↔
      ∀ work ∈ works, HasPrefix work.Name hook = false →
        workConfigsMatchesAddon work addon = true ∧ workIsReady work = true := by
  induction works with
  | nil => simp [checkAddonWorks]
  | cons w rest ih =>
    unfold checkAddonWorks
    by_cases hp : HasPrefix w.Name hook = true
    · simp [hp, ih]
    · have hp' : HasPrefix w.Name hook = false := by simpa using hp
      by_cases hm : workConfigsMatchesAddon w addon = true
      · by_cases hr : workIsReady w = true
        · simp [hp', hm, hr, ih]
        · simp [hp', hm, hr]
      · simp [hp', hm]

theorem checkAddonWorks_some_cases {hook : String} {addon : ManagedClusterAddOn}
    {works : List ManifestWork} {message : String}
    (h : checkAddonWorks hook addon works = some message) :
    message = "configs mismatch" ∨ message = "work is not ready" := by
  induction works with
  | nil => simp [checkAddonWorks] at h
  | cons w rest ih =>
    unfold checkAddonWorks at h
    split at h
    · exact ih h
    · split at h
      · left; cases h; rfl
      · split at h
        · right; cases h; rfl
        · exact ih h

/-! ## Lemmas on `setAddOnProgressingAndLastApplied` -/

theorem setAddOn_of_skip {now : Time} {isUpgrade : Bool} {status message : String}
    {addon : ManagedClusterAddOn} (h : skipProgressingUpdate addon = true) :
    setAddOnProgressingAndLastApplied now isUpgrade status message addon = addon := by
  simp [setAddOnProgressingAndLastApplied, h]

theorem skip_all_equal {addon : ManagedClusterAddOn} (h : skipProgressingUpdate addon = true) :
    ∀ r ∈ addon.Status.ConfigReferences, r.LastAppliedConfig = r.DesiredConfig := by
  intro r hr
  simp only [skipProgressingUpdate, Bool.and_eq_true, List.all_eq_true] at h
  simpa [configSpecHashDeepEqual] using h.2 r hr

theorem skip_false_of_exists {addon : ManagedClusterAddOn}
    (h : ∃ r ∈ addon.Status.ConfigReferences, r.LastAppliedConfig ≠ r.DesiredConfig) :
    skipProgressingUpdate addon = false := by
  obtain ⟨r, hr, hne⟩ := h
  cases hs : skipProgressingUpdate addon with
  | false => rfl
  | true => exact absurd (skip_all_equal hs r hr) hne

theorem setAddOn_refs_succeed (now : Time) (isUpgrade : Bool) (message : String)
    (addon : ManagedClusterAddOn) :
    ∀ r ∈ (setAddOnProgressingAndLastApplied now isUpgrade ProgressingSucceed message
        addon).Status.ConfigReferences, r.LastAppliedConfig = r.DesiredConfig := by
  intro r hr
  unfold setAddOnProgressingAndLastApplied at hr
  split at hr
  · rename_i hs
    exact skip_all_equal hs r hr
  · simp only [if_true, List.mem_map] at hr
    obtain ⟨r0, _, rfl⟩ := hr
    rfl

theorem setAddOn_refs_of_ne {now : Time} {isUpgrade : Bool} {status message : String}
    {addon : ManagedClusterAddOn} (h : status ≠ ProgressingSucceed) :
    (setAddOnProgressingAndLastApplied now isUpgrade status message addon).Status.ConfigReferences
      = addon.Status.ConfigReferences := by
  unfold setAddOnProgressingAndLastApplied
  split
  · rfl
  · simp [h]

theorem progressingCondition_doing (isUpgrade : Bool) (message : String) :
    (progressingCondition isUpgrade ProgressingDoing message).Status = ConditionTrue ∧
    (progressingCondition isUpgrade ProgressingDoing message).Reason =
      (if isUpgrade then ProgressingReasonUpgrading else ProgressingReasonInstalling) ∧
    (progressingCondition isUpgrade ProgressingDoing message).Message =
      (if isUpgrade then "upgrading... " ++ message else "installing... " ++ message) := by
  cases isUpgrade <;> exact ⟨rfl, rfl, rfl⟩

theorem progressingCondition_succeed (isUpgrade : Bool) (message : String) :
    (progressingCondition isUpgrade ProgressingSucceed message).Status = ConditionFalse ∧
    (progressingCondition isUpgrade ProgressingSucceed message).Reason =
      (if isUpgrade then ProgressingReasonUpgradeSucceed
       else ProgressingReasonInstallSucceed) := by
  cases isUpgrade <;> exact ⟨rfl, rfl⟩

theorem progressingCondition_failed (isUpgrade : Bool) (message : String) :
    (progressingCondition isUpgrade ProgressingFailed message).Status = ConditionFalse ∧
    (progressingCondition isUpgrade ProgressingFailed message).Reason =
      (if isUpgrade then ProgressingReasonUpgradeFailed else ProgressingReasonInstallFailed) ∧
    (progressingCondition isUpgrade ProgressingFailed message).Message = message := by
  cases isUpgrade <;> exact ⟨rfl, rfl, rfl⟩

theorem setAddOn_condition (now : Time) (isUpgrade : Bool) (status message : String)
    {addon : ManagedClusterAddOn} (h : skipProgressingUpdate addon = false) :
    ∃ c, FindStatusCondition
        (setAddOnProgressingAndLastApplied now isUpgrade status message addon).Status.Conditions
        ManagedClusterAddOnConditionProgressing = some c ∧
      c.Status = (progressingCondition isUpgrade status message).Status ∧
      c.Reason = (progressingCondition isUpgrade status message).Reason ∧
      c.Message = (progressingCondition isUpgrade status message).Message := by
  have htype : (progressingCondition isUpgrade status message).Type_
      = ManagedClusterAddOnConditionProgressing := by
    unfold progressingCondition
    repeat' split
    all_goals rfl
  have := findStatusCondition_set now addon.Status.Conditions
    (progressingCondition isUpgrade status message)
  rw [htype] at this
  simpa [setAddOnProgressingAndLastApplied, h] using this

/-! ## Lemmas on `updateAddonProgressingAndLastApplied` -/

/-- The shape of a run: either a gate stops it, one condition is set and the config references
are untouched, or `setAddOnProgressingAndLastApplied` is called once with the recorded state. -/
theorem update_shape (env : Env) (newaddon oldaddon : ManagedClusterAddOn) :
    (∃ cond,
      (updateAddonProgressingAndLastApplied env newaddon oldaddon).addon =
        { newaddon with
          Status := { newaddon.Status with
            Conditions := SetStatusCondition env.now newaddon.Status.Conditions cond } } ∧
      (updateAddonProgressingAndLastApplied env newaddon oldaddon).state = none) ∨
    (∃ status message,
      (updateAddonProgressingAndLastApplied env newaddon oldaddon).addon =
        setAddOnProgressingAndLastApplied env.now (isUpgradeFlag newaddon) status message
          newaddon ∧
      (updateAddonProgressingAndLastApplied env newaddon oldaddon).state = some status ∧
      (updateAddonProgressingAndLastApplied env newaddon oldaddon).message = message) := by
  unfold updateAddonProgressingAndLastApplied
  split
  · exact Or.inl ⟨_, rfl, rfl⟩
  · split
    · exact Or.inl ⟨_, rfl, rfl⟩
    · simp only
      split
      · exact Or.inr ⟨_, _, rfl, rfl, rfl⟩
      · split
        · exact Or.inr ⟨_, _, rfl, rfl, rfl⟩
        · split
          · exact Or.inr ⟨_, _, rfl, rfl, rfl⟩
          · exact Or.inr ⟨_, _, rfl, rfl, rfl⟩

/-- A run that passes both gates and lists a non-empty sequence of works. -/
theorem update_of_listed {env : Env} {newaddon : ManagedClusterAddOn}
    (oldaddon : ManagedClusterAddOn) {works : List ManifestWork}
    (hsupported : (isConfigurationSupported newaddon).1 = true)
    (happlied : FindStatusCondition newaddon.Status.Conditions
      ManagedClusterAddOnManifestApplied ≠ none)
    (hlist : env.workLister newaddon.Namespace newaddon.Name = Except.ok works)
    (hne : works ≠ []) :
    updateAddonProgressingAndLastApplied env newaddon oldaddon =
      match checkAddonWorks (env.PreDeleteHookWorkName newaddon.Name) newaddon works with
      | some message =>
        patchAndReturn env (some ProgressingDoing) message
          (setAddOnProgressingAndLastApplied env.now (isUpgradeFlag newaddon) ProgressingDoing
            message newaddon) oldaddon
      | none =>
        patchAndReturn env (some ProgressingSucceed) ""
          (setAddOnProgressingAndLastApplied env.now (isUpgradeFlag newaddon) ProgressingSucceed
            "" newaddon) oldaddon := by
  obtain ⟨c, hc⟩ := Option.ne_none_iff_exists'.mp happlied
  have hlen : works.length ≠ 0 := by simpa using hne
  unfold updateAddonProgressingAndLastApplied
  rw [isConfigurationSupported_of_fst hsupported]
  simp only [hc, hlist, hlen, if_false]

/-- A run that passes both gates and lists no work. -/
theorem update_of_empty {env : Env} {newaddon : ManagedClusterAddOn}
    (oldaddon : ManagedClusterAddOn)
    (hsupported : (isConfigurationSupported newaddon).1 = true)
    (happlied : FindStatusCondition newaddon.Status.Conditions
      ManagedClusterAddOnManifestApplied ≠ none)
    (hlist : env.workLister newaddon.Namespace newaddon.Name = Except.ok []) :
    updateAddonProgressingAndLastApplied env newaddon oldaddon =
      patchAndReturn env (some ProgressingDoing) "no addon works"
        (setAddOnProgressingAndLastApplied env.now (isUpgradeFlag newaddon) ProgressingDoing
          "no addon works" newaddon) oldaddon := by
  obtain ⟨c, hc⟩ := Option.ne_none_iff_exists'.mp happlied
  unfold updateAddonProgressingAndLastApplied
  rw [isConfigurationSupported_of_fst hsupported]
  simp [hc, hlist]

/-! ## Lemmas on Go maps -/

theorem GoMap.get_eq_none_iff (m : GoMap) (k : String) :
    GoMap.get m k = none ↔ k ∉ GoMap.keys m := by
  induction m with
  | nil => simp [GoMap.get, GoMap.keys]
  | cons kv rest ih =>
    obtain ⟨k', v⟩ := kv
    unfold GoMap.get
    by_cases hk : k' = k
    · simp [hk, GoMap.keys]
    · have hk' : ¬ k = k' := fun h => hk h.symm
      simpa [hk, hk', GoMap.keys] using ih

theorem GoMap.mem_of_get {m : GoMap} {k v : String} (h : GoMap.get m k = some v) :
    (k, v) ∈ m := by
  induction m with
  | nil => simp [GoMap.get] at h
  | cons kv rest ih =>
    obtain ⟨k', v'⟩ := kv
    unfold GoMap.get at h
    split at h
    · rename_i hk
      cases h
      simp [hk]
    · exact List.mem_cons_of_mem _ (ih h)

theorem GoMap.get_of_mem {m : GoMap} (hnodup : (GoMap.keys m).Nodup) {k v : String}
    (h : (k, v) ∈ m) : GoMap.get m k = some v := by
  induction m with
  | nil => simp at h
  | cons kv rest ih =>
    obtain ⟨k', v'⟩ := kv
    simp only [GoMap.keys, List.map_cons, List.nodup_cons] at hnodup
    unfold GoMap.get
    rcases List.mem_cons.mp h with heq | hmem
    · cases heq
      simp
    · have hne : k' ≠ k := by
        rintro rfl
        exact hnodup.1 (List.mem_map.mpr ⟨(k', v), hmem, rfl⟩)
      simp only [hne, if_false]
      exact ih hnodup.2 hmem

theorem GoMap.keys_put (m : GoMap) (k v : String) :
    ∀ x, x ∈ GoMap.keys (GoMap.put m k v) ↔ x = k ∨ x ∈ GoMap.keys m := by
  induction m with
  | nil => simp [GoMap.put, GoMap.keys]
  | cons kv rest ih =>
    obtain ⟨k', v'⟩ := kv
    intro x
    unfold GoMap.put
    by_cases hk : k' = k
    · subst hk
      simp [GoMap.keys]
    · simp only [hk, if_false]
      have := ih x
      simp only [GoMap.keys] at this
      simp only [GoMap.keys, List.map_cons, List.mem_cons, this]
      tauto

theorem GoMap.nodup_put {m : GoMap} (h : (GoMap.keys m).Nodup) (k v : String) :
    (GoMap.keys (GoMap.put m k v)).Nodup := by
  induction m with
  | nil => simp [GoMap.put, GoMap.keys]
  | cons kv rest ih =>
    obtain ⟨k', v'⟩ := kv
    have h' := h
    simp only [GoMap.keys, List.map_cons, List.nodup_cons] at h'
    unfold GoMap.put
    by_cases hk : k' = k
    · subst hk
      simpa [GoMap.keys] using h
    · simp only [hk, if_false]
      have hmem := GoMap.keys_put rest k v k'
      have ih' := ih h'.2
      simp only [GoMap.keys] at hmem ih'
      simp only [GoMap.keys, List.map_cons, List.nodup_cons]
      refine ⟨?_, ih'⟩
      rw [hmem]
      rintro (h1 | h1)
      · exact hk h1
      · exact h'.1 h1

theorem GoMap.nodup_foldl_put {α : Type} (f : GoMap → α → GoMap)
    (hf : ∀ m x, (GoMap.keys m).Nodup → (GoMap.keys (f m x)).Nodup) (xs : List α) :
    ∀ m : GoMap, (GoMap.keys m).Nodup → (GoMap.keys (xs.foldl f m)).Nodup := by
  induction xs with
  | nil => intro m hm; simpa using hm
  | cons x rest ih => intro m hm; exact ih _ (hf m x hm)

/-- On maps (association lists without repeated keys) `deepEqual` is equality of all reads. -/
theorem GoMap.deepEqual_iff {a b : GoMap} (ha : (GoMap.keys a).Nodup)
    (hb : (GoMap.keys b).Nodup) :
    GoMap.deepEqual a b = true ↔ ∀ k, GoMap.get a k = GoMap.get b k := by
  constructor
  · intro h
    simp only [GoMap.deepEqual, Bool.and_eq_true, beq_iff_eq, List.all_eq_true] at h
    obtain ⟨hlen, hall⟩ := h
    have hsub : GoMap.keys a ⊆ GoMap.keys b := by
      intro k hk
      obtain ⟨⟨k', v⟩, hmem, rfl⟩ := List.mem_map.mp hk
      have := hall (k', v) hmem
      by_contra hnot
      rw [(GoMap.get_eq_none_iff b k').mpr hnot] at this
      simp at this
    have hperm : (GoMap.keys a).Perm (GoMap.keys b) :=
      (ha.subperm hsub).perm_of_length_le (by simp [GoMap.keys, hlen])
    intro k
    cases hka : GoMap.get a k with
    | none =>
      have hk : k ∉ GoMap.keys b := fun hkb =>
        (GoMap.get_eq_none_iff a k).mp hka (hperm.symm.subset hkb)
      exact ((GoMap.get_eq_none_iff b k).mpr hk).symm
    | some v =>
      have := hall (k, v) (GoMap.mem_of_get hka)
      simpa using this.symm
  · intro h
    have hmem : ∀ k, k ∈ GoMap.keys a ↔ k ∈ GoMap.keys b := by
      intro k
      have h1 := GoMap.get_eq_none_iff a k
      have h2 := GoMap.get_eq_none_iff b k
      rw [h k] at h1
      constructor
      · intro hk
        by_contra hnot
        exact (h1.mp (h2.mpr hnot)) hk
      · intro hk
        by_contra hnot
        exact (h2.mp (h1.mpr hnot)) hk
    have hperm : (GoMap.keys a).Perm (GoMap.keys b) := (List.perm_ext_iff_of_nodup ha hb).mpr hmem
    have hlen : a.length = b.length := by simpa [GoMap.keys] using hperm.length_eq
    simp only [GoMap.deepEqual, Bool.and_eq_true, beq_iff_eq, List.all_eq_true]
    refine ⟨hlen, ?_⟩
    rintro ⟨k, v⟩ hkv
    rw [← h k]
    exact GoMap.get_of_mem ha hkv

theorem jsonUnmarshalStringMap_nodup {data : String} {m : GoMap}
    (h : jsonUnmarshalStringMap data = some m) : (GoMap.keys m).Nodup := by
  unfold jsonUnmarshalStringMap at h
  split at h
  · cases h
  · cases h
    exact GoMap.nodup_foldl_put _ (fun m kv hm => GoMap.nodup_put hm kv.1 kv.2) _ []
      (by simp [GoMap.keys])

theorem ConfigsToMap_nodup (configReferences : List ConfigReference) :
    (GoMap.keys (ConfigsToMap configReferences)).Nodup := by
  unfold ConfigsToMap
  refine GoMap.nodup_foldl_put _ ?_ _ [] (by simp [GoMap.keys])
  intro m v hm
  cases v.DesiredConfig with
  | none => simpa using hm
  | some desired => exact GoMap.nodup_put hm _ _

/-! ## Further lemmas on the run -/

theorem isUpgradeFlag_iff (addon : ManagedClusterAddOn) :
    isUpgradeFlag addon = true ↔
      ∃ r ∈ addon.Status.ConfigReferences, ∃ lastApplied,
        r.LastAppliedConfig = some lastApplied ∧ lastApplied.SpecHash ≠ "" := by
  unfold isUpgradeFlag
  rw [List.any_eq_true]
  constructor
  · rintro ⟨r, hr, h⟩
    cases hl : r.LastAppliedConfig with
    | none => rw [hl] at h; cases h
    | some lastApplied =>
      rw [hl] at h
      exact ⟨r, hr, lastApplied, hl, by simpa using h⟩
  · rintro ⟨r, hr, lastApplied, hl, hne⟩
    exact ⟨r, hr, by rw [hl]; simpa using hne⟩

/-- A run stopped by the configuration support filter. -/
theorem update_of_unsupported {env : Env} {newaddon : ManagedClusterAddOn}
    (oldaddon : ManagedClusterAddOn) {config : ConfigGroupResource}
    (h : isConfigurationSupported newaddon = (false, config)) :
    updateAddonProgressingAndLastApplied env newaddon oldaddon =
      patchAndReturn env none ""
        { newaddon with
          Status := { newaddon.Status with
            Conditions :=
              SetStatusCondition env.now newaddon.Status.Conditions
                { Type_ := ManagedClusterAddOnConditionProgressing
                  Status := ConditionFalse
                  Reason := ProgressingReasonConfigurationUnsupported
                  Message := "Configuration with gvr " ++ config.Group ++ "/" ++ config.Resource
                    ++ " is not supported for this addon" } } }
        oldaddon := by
  unfold updateAddonProgressingAndLastApplied
  rw [h]

/-! ## The claims -/

/-- C1: for an addon with supported configuration and a ManifestApplied condition, and a
successfully listed non-empty list of works, the run chooses the state Succeed if and only if
every work whose name does not start with the pre-delete hook prefix passes both
`workConfigsMatchesAddon` and `workIsReady`; if some such work fails a check it chooses Doing.
The chosen state is the one `setAddOnProgressingAndLastApplied` is run with. -/
theorem C1_succeed_iff_all_records_pass (env : Env) (newaddon oldaddon : ManagedClusterAddOn)
    (works : List ManifestWork)
    (hsupported : (isConfigurationSupported newaddon).1 = true)
    (happlied : FindStatusCondition newaddon.Status.Conditions
      ManagedClusterAddOnManifestApplied ≠ none)
    (hlist : env.workLister newaddon.Namespace newaddon.Name = Except.ok works)
    (hne : works ≠ []) :
    ((updateAddonProgressingAndLastApplied env newaddon oldaddon).state = some ProgressingSucceed ↔
      ∀ work ∈ works, HasPrefix work.Name (env.PreDeleteHookWorkName newaddon.Name) = false →
        workConfigsMatchesAddon work newaddon = true ∧ workIsReady work = true) ∧
    ((∃ work ∈ works, HasPrefix work.Name (env.PreDeleteHookWorkName newaddon.Name) = false ∧
        (workConfigsMatchesAddon work newaddon = false ∨ workIsReady work = false)) →
      (updateAddonProgressingAndLastApplied env newaddon oldaddon).state
        = some ProgressingDoing) ∧
    (∃ status,
      (updateAddonProgressingAndLastApplied env newaddon oldaddon).state = some status ∧
      (updateAddonProgressingAndLastApplied env newaddon oldaddon).addon =
        setAddOnProgressingAndLastApplied env.now (isUpgradeFlag newaddon) status
          (updateAddonProgressingAndLastApplied env newaddon oldaddon).message newaddon) := by
  rw [update_of_listed oldaddon hsupported happlied hlist hne]
  have hiff := checkAddonWorks_none_iff (env.PreDeleteHookWorkName newaddon.Name) newaddon works
  cases hcheck : checkAddonWorks (env.PreDeleteHookWorkName newaddon.Name) newaddon works with
  | none =>
    rw [hcheck] at hiff
    have hall := hiff.mp rfl
    refine ⟨⟨fun _ => hall, fun _ => rfl⟩, ?_, ⟨_, rfl, rfl⟩⟩
    rintro ⟨work, hmem, hpre, hfail⟩
    have := hall work hmem hpre
    rcases hfail with hfail | hfail
    · rw [this.1] at hfail; cases hfail
    · rw [this.2] at hfail; cases hfail
  | some message =>
    rw [hcheck] at hiff
    refine ⟨⟨?_, ?_⟩, fun _ => rfl, ⟨_, rfl, rfl⟩⟩
    · intro h
      simp [patchAndReturn, ProgressingDoing, ProgressingSucceed] at h
    · intro hall
      have := hiff.mpr hall
      cases this

/-- Witness of C1: the test case `install succeed` (one work, stamped with the desired hash,
applied and available). -/
theorem C1_succeed_iff_all_records_pass_witness :
    (updateAddonProgressingAndLastApplied (testEnv [testWork "hashnew" "True" "True"])
      (testAddon [testConfigReference ""]) (testAddon [testConfigReference ""])).state
      = some ProgressingSucceed :=
  (C1_succeed_iff_all_records_pass (testEnv [testWork "hashnew" "True" "True"])
    (testAddon [testConfigReference ""]) (testAddon [testConfigReference ""])
    [testWork "hashnew" "True" "True"] (by decide) (by decide) rfl (by decide)).1.mpr
    (by decide)

/-- C2: whenever a run reaches the state Succeed, in the resulting status every
`configReferences[i].lastAppliedConfig` equals `configReferences[i].desiredConfig`, and so do
their spec hashes, for every index `i`. -/
theorem C2_succeed_last_applied_eq_desired (env : Env) (newaddon oldaddon : ManagedClusterAddOn)
    (hsucceed : (updateAddonProgressingAndLastApplied env newaddon oldaddon).state
      = some ProgressingSucceed)
    (i : Nat)
    (hi : i < (updateAddonProgressingAndLastApplied env newaddon
      oldaddon).addon.Status.ConfigReferences.length) :
    (((updateAddonProgressingAndLastApplied env newaddon
        oldaddon).addon.Status.ConfigReferences.get ⟨i, hi⟩).LastAppliedConfig
      = ((updateAddonProgressingAndLastApplied env newaddon
        oldaddon).addon.Status.ConfigReferences.get ⟨i, hi⟩).DesiredConfig) ∧
    (Option.map ConfigSpecHash.SpecHash
        ((updateAddonProgressingAndLastApplied env newaddon
          oldaddon).addon.Status.ConfigReferences.get ⟨i, hi⟩).LastAppliedConfig
      = Option.map ConfigSpecHash.SpecHash
        ((updateAddonProgressingAndLastApplied env newaddon
          oldaddon).addon.Status.ConfigReferences.get ⟨i, hi⟩).DesiredConfig) := by
  have hall : ∀ r ∈ (updateAddonProgressingAndLastApplied env newaddon
      oldaddon).addon.Status.ConfigReferences, r.LastAppliedConfig = r.DesiredConfig := by
    rcases update_shape env newaddon oldaddon with
      ⟨_, _, hstate⟩ | ⟨status, message, haddon, hstate, _⟩
    · rw [hstate] at hsucceed; cases hsucceed
    · rw [hstate] at hsucceed
      cases hsucceed
      rw [haddon]
      exact setAddOn_refs_succeed _ _ _ _
  have key := hall _ (List.get_mem (updateAddonProgressingAndLastApplied env newaddon
      oldaddon).addon.Status.ConfigReferences i hi)
  exact ⟨key, by rw [key]⟩

/-- Witness of C2: in the test case `install succeed` the last applied hash becomes `hashnew`. -/
theorem C2_succeed_last_applied_eq_desired_witness :
    Option.map ConfigSpecHash.SpecHash
        (((updateAddonProgressingAndLastApplied (testEnv [testWork "hashnew" "True" "True"])
          (testAddon [testConfigReference ""])
          (testAddon [testConfigReference ""])).addon.Status.ConfigReferences.get
            ⟨0, by decide⟩).LastAppliedConfig)
      = Option.map ConfigSpecHash.SpecHash
        (((updateAddonProgressingAndLastApplied (testEnv [testWork "hashnew" "True" "True"])
          (testAddon [testConfigReference ""])
          (testAddon [testConfigReference ""])).addon.Status.ConfigReferences.get
            ⟨0, by decide⟩).DesiredConfig) :=
  (C2_succeed_last_applied_eq_desired (testEnv [testWork "hashnew" "True" "True"])
    (testAddon [testConfigReference ""]) (testAddon [testConfigReference ""])
    (by decide) 0 (by decide)).2

/-- C3: one run either leaves `status.configReferences` (hence every last applied config)
unchanged, or the resulting status has every last applied config equal to its desired config and
a Progressing condition with status False and reason InstallSucceed or UpgradeSucceed. -/
theorem C3_last_applied_changes_only_on_succeed (env : Env)
    (newaddon oldaddon : ManagedClusterAddOn) :
    (updateAddonProgressingAndLastApplied env newaddon oldaddon).addon.Status.ConfigReferences
        = newaddon.Status.ConfigReferences ∨
    ((∀ r ∈ (updateAddonProgressingAndLastApplied env newaddon
          oldaddon).addon.Status.ConfigReferences, r.LastAppliedConfig = r.DesiredConfig) ∧
      ∃ c, FindStatusCondition
          (updateAddonProgressingAndLastApplied env newaddon oldaddon).addon.Status.Conditions
          ManagedClusterAddOnConditionProgressing = some c ∧
        c.Status = ConditionFalse ∧
        (c.Reason = ProgressingReasonInstallSucceed ∨
          c.Reason = ProgressingReasonUpgradeSucceed)) := by
  rcases update_shape env newaddon oldaddon with ⟨cond, haddon, _⟩ | ⟨status, message, haddon, _, _⟩
  · left
    rw [haddon]
  · rw [haddon]
    by_cases hst : status = ProgressingSucceed
    · subst hst
      cases hskip : skipProgressingUpdate newaddon with
      | true =>
        left
        rw [setAddOn_of_skip hskip]
      | false =>
        right
        refine ⟨setAddOn_refs_succeed _ _ _ _, ?_⟩
        obtain ⟨c, hc, hstatus, hreason, _⟩ :=
          setAddOn_condition env.now (isUpgradeFlag newaddon) ProgressingSucceed message hskip
        have hpc := progressingCondition_succeed (isUpgradeFlag newaddon) message
        refine ⟨c, hc, hstatus.trans hpc.1, ?_⟩
        rw [hreason, hpc.2]
        cases isUpgradeFlag newaddon
        · left; rfl
        · right; rfl
    · left
      exact setAddOn_refs_of_ne hst

/-- C4: for a work that carries the config-spec-hash annotation, `workConfigsMatchesAddon`
returns true if and only if the annotation unmarshals into a string-to-string map all of whose
values are non-empty, every desired config of the addon is non-nil with a non-empty spec hash,
and the map built from the config references of the addon (`ConfigsToMap`, keyed by
`<resource>.<group>/<namespace>/<name>`) reads the same as the map of the work at every key. -/
theorem C4_configs_match_iff (work : ManifestWork) (addon : ManagedClusterAddOn)
    (annotationValue : String)
    (hannot : GoMap.get work.Annotations ManifestConfigSpecHashAnnotationKey
      = some annotationValue) :
    workConfigsMatchesAddon work addon = true ↔
      ∃ workSpecHashMap, jsonUnmarshalStringMap annotationValue = some workSpecHashMap ∧
        (∀ k v, GoMap.get workSpecHashMap k = some v → v ≠ "") ∧
        (∀ r ∈ addon.Status.ConfigReferences,
          ∃ desired, r.DesiredConfig = some desired ∧ desired.SpecHash ≠ "") ∧
        (∀ k, GoMap.get (ConfigsToMap addon.Status.ConfigReferences) k
          = GoMap.get workSpecHashMap k) := by
  unfold workConfigsMatchesAddon
  rw [hannot]
  simp only
  cases hjson : jsonUnmarshalStringMap annotationValue with
  | none => simp
  | some m =>
    have hm := jsonUnmarshalStringMap_nodup hjson
    have hc := ConfigsToMap_nodup addon.Status.ConfigReferences
    simp only [Option.some.injEq, exists_eq_left']
    have hvalues : (m.any (fun kv => decide (kv.2 = "")) = true) ↔
        ¬ ∀ k v, GoMap.get m k = some v → v ≠ "" := by
      rw [List.any_eq_true]
      constructor
      · rintro ⟨⟨k, v⟩, hmem, hv⟩ hall
        exact hall k v (GoMap.get_of_mem hm hmem) (by simpa using hv)
      · intro hnot
        push_neg at hnot
        obtain ⟨k, v, hget, hv⟩ := hnot
        exact ⟨(k, v), GoMap.mem_of_get hget, by simpa using hv⟩
    have hdesired : (addon.Status.ConfigReferences.any
          (fun configReference =>
            match configReference.DesiredConfig with
            | none => true
            | some desired => decide (desired.SpecHash = "")) = true) ↔
        ¬ ∀ r ∈ addon.Status.ConfigReferences,
          ∃ desired, r.DesiredConfig = some desired ∧ desired.SpecHash ≠ "" := by
      rw [List.any_eq_true]
      constructor
      · rintro ⟨r, hr, hbad⟩ hall
        obtain ⟨desired, hd, hne⟩ := hall r hr
        rw [hd] at hbad
        exact hne (by simpa using hbad)
      · intro hnot
        push_neg at hnot
        obtain ⟨r, hr, hbad⟩ := hnot
        refine ⟨r, hr, ?_⟩
        cases hd : r.DesiredConfig with
        | none => rfl
        | some desired => simpa using hbad desired hd
    have hequal := GoMap.deepEqual_iff hm hc
    by_cases h1 : ∀ k v, GoMap.get m k = some v → v ≠ ""
    · have h1' : ¬ (m.any (fun kv => decide (kv.2 = "")) = true) := fun h => hvalues.mp h h1
      by_cases h2 : ∀ r ∈ addon.Status.ConfigReferences,
          ∃ desired, r.DesiredConfig = some desired ∧ desired.SpecHash ≠ ""
      · have h2' := fun h => hdesired.mp h h2
        rw [if_neg h1', if_neg h2', hequal]
        constructor
        · intro h
          exact ⟨h1, h2, fun k => (h k).symm⟩
        · rintro ⟨_, _, h⟩
          exact fun k => (h k).symm
      · have h2' := hdesired.mpr h2
        rw [if_neg h1', if_pos h2']
        constructor
        · intro h; cases h
        · rintro ⟨_, h, _⟩; exact absurd h h2
    · have h1' := hvalues.mpr h1
      rw [if_pos h1']
      constructor
      · intro h; cases h
      · rintro ⟨h, _⟩; exact absurd h h1

/-- Witness of C4: the work of the test case `install succeed` matches the addon. -/
theorem C4_configs_match_iff_witness :
    workConfigsMatchesAddon (testWork "hashnew" "True" "True")
      (testAddon [testConfigReference ""]) = true :=
  (C4_configs_match_iff (testWork "hashnew" "True" "True") (testAddon [testConfigReference ""])
    "\x7b\"foo.core/open-cluster-management/test\":\"hashnew\"\x7d" (by decide)).mpr
    ⟨[("foo.core/open-cluster-management/test", "hashnew")], by decide,
      (fun k v h => by
        simp only [GoMap.get] at h
        split at h
        · cases h; decide
        · cases h),
      by decide, fun _ => rfl⟩

/-- C5: for a work without the config-spec-hash annotation, `workConfigsMatchesAddon` returns
true if and only if `status.configReferences` of the addon is empty. -/
theorem C5_no_annotation_matches_iff_no_references (work : ManifestWork)
    (addon : ManagedClusterAddOn)
    (hannot : GoMap.get work.Annotations ManifestConfigSpecHashAnnotationKey = none) :
    workConfigsMatchesAddon work addon = true ↔ addon.Status.ConfigReferences = [] := by
  unfold workConfigsMatchesAddon
  rw [hannot]
  simp

/-- Witness of C5: the hook work of the scenarios has no annotation and matches the addon
without config references. -/
theorem C5_no_annotation_matches_iff_no_references_witness :
    workConfigsMatchesAddon testHookWork (testAddon []) = true :=
  (C5_no_annotation_matches_iff_no_references testHookWork (testAddon []) (by decide)).mpr rfl

/-- C6: `workIsReady` returns true if and only if the work has an Available condition with
status True and observed generation equal to the generation of the work, and an Applied condition
with status True and that observed generation; hence a work that is applied but not available,
available but not applied, or whose conditions carry another generation is not ready. The
condition of a type is the one `meta.FindStatusCondition` finds; when no two conditions of the
work share a type this is the same as the work having such conditions among its conditions. -/
theorem C6_work_is_ready_iff (work : ManifestWork) :
    (workIsReady work = true ↔
      (∃ c, FindStatusCondition work.Status.Conditions WorkAvailable = some c ∧
        c.Status = ConditionTrue ∧ c.ObservedGeneration = work.Generation) ∧
      (∃ c, FindStatusCondition work.Status.Conditions WorkApplied = some c ∧
        c.Status = ConditionTrue ∧ c.ObservedGeneration = work.Generation)) ∧
    ((¬ ∃ c, FindStatusCondition work.Status.Conditions WorkAvailable = some c ∧
        c.Status = ConditionTrue ∧ c.ObservedGeneration = work.Generation) →
      workIsReady work = false) ∧
    ((¬ ∃ c, FindStatusCondition work.Status.Conditions WorkApplied = some c ∧
        c.Status = ConditionTrue ∧ c.ObservedGeneration = work.Generation) →
      workIsReady work = false) ∧
    ((work.Status.Conditions.map Condition.Type_).Nodup →
      (workIsReady work = true ↔
        (∃ c ∈ work.Status.Conditions, c.Type_ = WorkAvailable ∧
          c.Status = ConditionTrue ∧ c.ObservedGeneration = work.Generation) ∧
        (∃ c ∈ work.Status.Conditions, c.Type_ = WorkApplied ∧
          c.Status = ConditionTrue ∧ c.ObservedGeneration = work.Generation))) := by
  have hiff : workIsReady work = true ↔
      (∃ c, FindStatusCondition work.Status.Conditions WorkAvailable = some c ∧
        c.Status = ConditionTrue ∧ c.ObservedGeneration = work.Generation) ∧
      (∃ c, FindStatusCondition work.Status.Conditions WorkApplied = some c ∧
        c.Status = ConditionTrue ∧ c.ObservedGeneration = work.Generation) := by
    unfold workIsReady
    cases h1 : FindStatusCondition work.Status.Conditions WorkAvailable with
    | none => simp
    | some c1 =>
      cases h2 : FindStatusCondition work.Status.Conditions WorkApplied with
      | none => simp
      | some c2 =>
        simp only [Option.some.injEq, exists_eq_left']
        by_cases ha : c1.Status ≠ ConditionTrue ∨ c1.ObservedGeneration ≠ work.Generation
        · rw [if_pos ha]
          constructor
          · intro h; cases h
          · rintro ⟨⟨hs, hg⟩, _⟩
            rcases ha with ha | ha
            · exact absurd hs ha
            · exact absurd hg ha
        · rw [if_neg ha]
          push_neg at ha
          by_cases hb : c2.Status ≠ ConditionTrue ∨ c2.ObservedGeneration ≠ work.Generation
          · rw [if_pos hb]
            constructor
            · intro h; cases h
            · rintro ⟨_, hs, hg⟩
              rcases hb with hb | hb
              · exact absurd hs hb
              · exact absurd hg hb
          · rw [if_neg hb]
            push_neg at hb
            exact ⟨fun _ => ⟨ha, hb⟩, fun _ => rfl⟩
  refine ⟨hiff, ?_, ?_, ?_⟩
  · intro hnot
    cases hr : workIsReady work with
    | false => rfl
    | true => exact absurd (hiff.mp hr).1 hnot
  · intro hnot
    cases hr : workIsReady work with
    | false => rfl
    | true => exact absurd (hiff.mp hr).2 hnot
  · intro hnodup
    rw [hiff]
    constructor
    · rintro ⟨⟨c1, h1, hs1, hg1⟩, ⟨c2, h2, hs2, hg2⟩⟩
      have m1 := (findStatusCondition_iff_mem_of_nodup hnodup _ _).mp h1
      have m2 := (findStatusCondition_iff_mem_of_nodup hnodup _ _).mp h2
      exact ⟨⟨c1, m1.1, m1.2, hs1, hg1⟩, ⟨c2, m2.1, m2.2, hs2, hg2⟩⟩
    · rintro ⟨⟨c1, m1, t1, hs1, hg1⟩, ⟨c2, m2, t2, hs2, hg2⟩⟩
      exact ⟨⟨c1, (findStatusCondition_iff_mem_of_nodup hnodup _ _).mpr ⟨m1, t1⟩, hs1, hg1⟩,
        ⟨c2, (findStatusCondition_iff_mem_of_nodup hnodup _ _).mpr ⟨m2, t2⟩, hs2, hg2⟩⟩

/-- Witness of C6: the work of the test case `work is not ready` (Applied is False, Available is
True) is not ready, the work of `install succeed` is. -/
theorem C6_work_is_ready_iff_witness :
    workIsReady (testWork "hashnew" "False" "True") = false ∧
    workIsReady (testWork "hashnew" "True" "True") = true :=
  ⟨(C6_work_is_ready_iff (testWork "hashnew" "False" "True")).2.2.1 (by decide),
    (C6_work_is_ready_iff (testWork "hashnew" "True" "True")).1.mpr (by decide)⟩

/-- C7: for an addon whose `spec.configs` has an entry whose group/resource is absent from
`status.supportedConfigs`, every run, whatever the lister and the client answer, yields a status
whose Progressing condition has status False, reason ConfigurationUnsupported and a message
naming the group and resource of the first unsupported entry, and leaves
`status.configReferences` unchanged. -/
theorem C7_unsupported_configuration_short_circuit (env : Env)
    (newaddon oldaddon : ManagedClusterAddOn)
    (hunsupported : ∃ config ∈ newaddon.Spec.Configs,
      config.toConfigGroupResource ∉ newaddon.Status.SupportedConfigs) :
    ∃ pre config post, newaddon.Spec.Configs = pre ++ config :: post ∧
      (∀ c ∈ pre, c.toConfigGroupResource ∈ newaddon.Status.SupportedConfigs) ∧
      config.toConfigGroupResource ∉ newaddon.Status.SupportedConfigs ∧
      (∃ c, FindStatusCondition
          (updateAddonProgressingAndLastApplied env newaddon oldaddon).addon.Status.Conditions
          ManagedClusterAddOnConditionProgressing = some c ∧
        c.Status = ConditionFalse ∧
        c.Reason = ProgressingReasonConfigurationUnsupported ∧
        c.Message = "Configuration with gvr " ++ config.Group ++ "/" ++ config.Resource
          ++ " is not supported for this addon") ∧
      (updateAddonProgressingAndLastApplied env newaddon oldaddon).addon.Status.ConfigReferences
        = newaddon.Status.ConfigReferences := by
  have hnot : ¬ ∀ config ∈ newaddon.Spec.Configs,
      config.toConfigGroupResource ∈ newaddon.Status.SupportedConfigs := by
    intro hall
    obtain ⟨config, hmem, hbad⟩ := hunsupported
    exact hbad (hall config hmem)
  obtain ⟨pre, config, post, heq, hpre, hbad, hres⟩ :=
    isConfigurationSupportedLoop_first _ _ hnot
  refine ⟨pre, config, post, heq, hpre, hbad, ?_, ?_⟩
  · rw [update_of_unsupported oldaddon hres]
    exact findStatusCondition_set env.now newaddon.Status.Conditions
      { Type_ := ManagedClusterAddOnConditionProgressing
        Status := ConditionFalse
        Reason := ProgressingReasonConfigurationUnsupported
        Message := "Configuration with gvr " ++ config.Group ++ "/" ++ config.Resource
          ++ " is not supported for this addon" }
  · rw [update_of_unsupported oldaddon hres]
    rfl

/-- Witness of C7: the test case `configuration unsupported`, with a lister that fails. -/
theorem C7_unsupported_configuration_short_circuit_witness :
    ∃ pre config post, testUnsupportedAddon.Spec.Configs = pre ++ config :: post ∧
      (∀ c ∈ pre, c.toConfigGroupResource ∈ testUnsupportedAddon.Status.SupportedConfigs) ∧
      config.toConfigGroupResource ∉ testUnsupportedAddon.Status.SupportedConfigs ∧
      (∃ c, FindStatusCondition
          (updateAddonProgressingAndLastApplied
            { testEnv [] with workLister := fun _ _ => Except.error "cache not synced" }
            testUnsupportedAddon testUnsupportedAddon).addon.Status.Conditions
          ManagedClusterAddOnConditionProgressing = some c ∧
        c.Status = ConditionFalse ∧
        c.Reason = ProgressingReasonConfigurationUnsupported ∧
        c.Message = "Configuration with gvr " ++ config.Group ++ "/" ++ config.Resource
          ++ " is not supported for this addon") ∧
      (updateAddonProgressingAndLastApplied
          { testEnv [] with workLister := fun _ _ => Except.error "cache not synced" }
          testUnsupportedAddon testUnsupportedAddon).addon.Status.ConfigReferences
        = testUnsupportedAddon.Status.ConfigReferences :=
  C7_unsupported_configuration_short_circuit
    { testEnv [] with workLister := fun _ _ => Except.error "cache not synced" }
    testUnsupportedAddon testUnsupportedAddon
    ⟨{ Group := "config1.test", Resource := "config1", Namespace := "cluster1",
       Name := "override" }, by decide, by decide⟩

/-- C8: `isConfigurationSupported` returns `(true, empty ConfigGroupResource)` if and only if the
group/resource of every entry of `spec.configs` occurs in `status.supportedConfigs`; otherwise it
returns `(false, g)`, `g` being the group/resource of the first entry of `spec.configs`, in
declaration order, that does not occur there. The function is pure: its result is all it
produces, the addon is not changed. -/
theorem C8_is_configuration_supported (addon : ManagedClusterAddOn) :
    (isConfigurationSupported addon = (true, {}) ↔
      ∀ config ∈ addon.Spec.Configs,
        config.toConfigGroupResource ∈ addon.Status.SupportedConfigs) ∧
    ((¬ ∀ config ∈ addon.Spec.Configs,
        config.toConfigGroupResource ∈ addon.Status.SupportedConfigs) →
      ∃ pre config post, addon.Spec.Configs = pre ++ config :: post ∧
        (∀ c ∈ pre, c.toConfigGroupResource ∈ addon.Status.SupportedConfigs) ∧
        config.toConfigGroupResource ∉ addon.Status.SupportedConfigs ∧
        isConfigurationSupported addon = (false, config.toConfigGroupResource)) :=
  ⟨isConfigurationSupportedLoop_true_iff _ _, isConfigurationSupportedLoop_first _ _⟩

/-- Witness of C8: the addon of the test case `configuration unsupported` is rejected with its
only entry, the addon of the other test cases is accepted. -/
theorem C8_is_configuration_supported_witness :
    isConfigurationSupported (testAddon []) = (true, {}) ∧
    ∃ pre config post, testUnsupportedAddon.Spec.Configs = pre ++ config :: post ∧
      (∀ c ∈ pre, c.toConfigGroupResource ∈ testUnsupportedAddon.Status.SupportedConfigs) ∧
      config.toConfigGroupResource ∉ testUnsupportedAddon.Status.SupportedConfigs ∧
      isConfigurationSupported testUnsupportedAddon = (false, config.toConfigGroupResource) :=
  ⟨(C8_is_configuration_supported (testAddon [])).1.mpr (by decide),
    (C8_is_configuration_supported testUnsupportedAddon).2 (by decide)⟩

/-- The empty list of works, the sibling path of C9: for an addon with supported configuration
and a ManifestApplied condition, if the list of works is empty the run chooses the state Doing
with the message `no addon works`, and not Succeed. -/
theorem C9_no_works_is_doing (env : Env) (newaddon oldaddon : ManagedClusterAddOn)
    (hsupported : (isConfigurationSupported newaddon).1 = true)
    (happlied : FindStatusCondition newaddon.Status.Conditions
      ManagedClusterAddOnManifestApplied ≠ none)
    (hlist : env.workLister newaddon.Namespace newaddon.Name = Except.ok []) :
    (updateAddonProgressingAndLastApplied env newaddon oldaddon).state = some ProgressingDoing ∧
    (updateAddonProgressingAndLastApplied env newaddon oldaddon).message = "no addon works" ∧
    (updateAddonProgressingAndLastApplied env newaddon oldaddon).state
      ≠ some ProgressingSucceed ∧
    (updateAddonProgressingAndLastApplied env newaddon oldaddon).addon =
      setAddOnProgressingAndLastApplied env.now (isUpgradeFlag newaddon) ProgressingDoing
        "no addon works" newaddon := by
  rw [update_of_empty oldaddon hsupported happlied hlist]
  refine ⟨rfl, rfl, ?_, rfl⟩
  intro h
  simp [patchAndReturn, ProgressingDoing, ProgressingSucceed] at h

/-- The empty list of works in the test case `installing when no work`. -/
theorem C9_no_works_is_doing_witness :
    (updateAddonProgressingAndLastApplied (testEnv []) (testAddon []) (testAddon [])).state
      = some ProgressingDoing :=
  (C9_no_works_is_doing (testEnv []) (testAddon []) (testAddon [])
    (by decide) (by decide) rfl).1

/-- C9: the run on a list made of one pre-delete hook work. The addon `cluster1/test` has
supported configuration, a ManifestApplied condition and a desired config that was never
applied; no listed work is without the hook name in front. The test `len(addonWorks) == 0`
comes before the hook works are skipped, so the loop runs to its end: the run chooses Succeed,
not Doing as it does on the empty list, and records the desired hash as applied. -/
theorem C9_hook_only_list_reaches_succeed :
    (isConfigurationSupported (testAddon [testConfigReference ""])).1 = true ∧
    FindStatusCondition (testAddon [testConfigReference ""]).Status.Conditions
      ManagedClusterAddOnManifestApplied ≠ none ∧
    (∃ works, (testEnv [testHookWork]).workLister "cluster1" "test" = Except.ok works ∧
      works = [testHookWork] ∧
      ∀ work ∈ works,
        HasPrefix work.Name ((testEnv [testHookWork]).PreDeleteHookWorkName "test") = true) ∧
    (updateAddonProgressingAndLastApplied (testEnv [testHookWork])
      (testAddon [testConfigReference ""]) (testAddon [testConfigReference ""])).state
      = some ProgressingSucceed ∧
    (updateAddonProgressingAndLastApplied (testEnv [testHookWork])
      (testAddon [testConfigReference ""]) (testAddon [testConfigReference ""])).state
      ≠ some ProgressingDoing ∧
    (updateAddonProgressingAndLastApplied (testEnv [testHookWork])
      (testAddon [testConfigReference ""])
      (testAddon [testConfigReference ""])).addon.Status.ConfigReferences
      = [testConfigReference "hashnew"] := by
  refine ⟨by decide, by decide, ⟨[testHookWork], rfl, rfl, by decide⟩, by decide, by decide,
    by decide⟩

/-- C10: for an addon with supported configuration and a ManifestApplied condition in which some
last applied config differs from its desired config, if some listed work that is not a
pre-delete hook work fails `workConfigsMatchesAddon` or `workIsReady`, the resulting Progressing
condition has status True, with reason Upgrading when some last applied config has a non-empty
hash and Installing otherwise, and `status.configReferences` is unchanged. -/
theorem C10_failing_record_is_progressing (env : Env) (newaddon oldaddon : ManagedClusterAddOn)
    (works : List ManifestWork)
    (hsupported : (isConfigurationSupported newaddon).1 = true)
    (happlied : FindStatusCondition newaddon.Status.Conditions
      ManagedClusterAddOnManifestApplied ≠ none)
    (hnotconverged : ∃ r ∈ newaddon.Status.ConfigReferences,
      r.LastAppliedConfig ≠ r.DesiredConfig)
    (hlist : env.workLister newaddon.Namespace newaddon.Name = Except.ok works)
    (hfail : ∃ work ∈ works,
      HasPrefix work.Name (env.PreDeleteHookWorkName newaddon.Name) = false ∧
        (workConfigsMatchesAddon work newaddon = false ∨ workIsReady work = false)) :
    (∃ c, FindStatusCondition
        (updateAddonProgressingAndLastApplied env newaddon oldaddon).addon.Status.Conditions
        ManagedClusterAddOnConditionProgressing = some c ∧
      c.Status = ConditionTrue ∧
      ((∃ r ∈ newaddon.Status.ConfigReferences, ∃ lastApplied,
          r.LastAppliedConfig = some lastApplied ∧ lastApplied.SpecHash ≠ "") →
        c.Reason = ProgressingReasonUpgrading) ∧
      ((¬ ∃ r ∈ newaddon.Status.ConfigReferences, ∃ lastApplied,
          r.LastAppliedConfig = some lastApplied ∧ lastApplied.SpecHash ≠ "") →
        c.Reason = ProgressingReasonInstalling)) ∧
    (updateAddonProgressingAndLastApplied env newaddon oldaddon).addon.Status.ConfigReferences
      = newaddon.Status.ConfigReferences := by
  have hne : works ≠ [] := by
    obtain ⟨work, hmem, _⟩ := hfail
    exact List.ne_nil_of_mem hmem
  have hskip := skip_false_of_exists hnotconverged
  rw [update_of_listed oldaddon hsupported happlied hlist hne]
  cases hcheck : checkAddonWorks (env.PreDeleteHookWorkName newaddon.Name) newaddon works with
  | none =>
    exfalso
    obtain ⟨work, hmem, hpre, hbad⟩ := hfail
    have := (checkAddonWorks_none_iff _ _ _).mp hcheck work hmem hpre
    rcases hbad with hbad | hbad
    · rw [this.1] at hbad; cases hbad
    · rw [this.2] at hbad; cases hbad
  | some message =>
    simp only [patchAndReturn]
    obtain ⟨c, hc, hstatus, hreason, _⟩ :=
      setAddOn_condition env.now (isUpgradeFlag newaddon) ProgressingDoing message hskip
    have hpc := progressingCondition_doing (isUpgradeFlag newaddon) message
    refine ⟨⟨c, hc, hstatus.trans hpc.1, ?_, ?_⟩, setAddOn_refs_of_ne (by decide)⟩
    · intro hup
      rw [hreason, hpc.2.1, (isUpgradeFlag_iff newaddon).mpr hup]
      rfl
    · intro hup
      have : isUpgradeFlag newaddon = false := by
        cases h : isUpgradeFlag newaddon with
        | false => rfl
        | true => exact absurd ((isUpgradeFlag_iff newaddon).mp h) hup
      rw [hreason, hpc.2.1, this]
      rfl

/-- Witness of C10: the test case `upgrading when work is not ready` (last applied hash `hash`,
desired `hashnew`, the work stamped with `hashnew` but not applied). -/
theorem C10_failing_record_is_progressing_witness :
    (∃ c, FindStatusCondition
        (updateAddonProgressingAndLastApplied (testEnv [testWork "hashnew" "False" "True"])
          (testAddon [testConfigReference "hash"])
          (testAddon [testConfigReference "hash"])).addon.Status.Conditions
        ManagedClusterAddOnConditionProgressing = some c ∧
      c.Status = ConditionTrue ∧ c.Reason = ProgressingReasonUpgrading) ∧
    (updateAddonProgressingAndLastApplied (testEnv [testWork "hashnew" "False" "True"])
      (testAddon [testConfigReference "hash"])
      (testAddon [testConfigReference "hash"])).addon.Status.ConfigReferences
      = [testConfigReference "hash"] := by
  obtain ⟨⟨c, hc, hstatus, hup, _⟩, hrefs⟩ :=
    C10_failing_record_is_progressing (testEnv [testWork "hashnew" "False" "True"])
      (testAddon [testConfigReference "hash"]) (testAddon [testConfigReference "hash"])
      [testWork "hashnew" "False" "True"] (by decide) (by decide)
      ⟨testConfigReference "hash", by decide, by decide⟩ rfl
      ⟨testWork "hashnew" "False" "True", by decide, by decide, Or.inr (by decide)⟩
  exact ⟨⟨c, hc, hstatus,
    hup ⟨testConfigReference "hash", by decide, _, rfl, by decide⟩⟩, hrefs⟩

/-! ## Setting a condition twice, and the conditions of other types -/

theorem findStatusCondition_eq_none_iff (conditions : List Condition) (t : String) :
    FindStatusCondition conditions t = none ↔ ∀ c ∈ conditions, c.Type_ ≠ t := by
  induction conditions with
  | nil => simp [FindStatusCondition]
  | cons d rest ih =>
    unfold FindStatusCondition
    by_cases hd : d.Type_ = t
    · simp [hd]
    · simp [hd, ih]

theorem findStatusCondition_cons (d : Condition) (rest : List Condition) (t : String) :
    FindStatusCondition (d :: rest) t
      = if d.Type_ = t then some d else FindStatusCondition rest t := rfl

theorem updateFirstCondition_cons (now : Time) (newCondition d : Condition)
    (rest : List Condition) :
    updateFirstCondition now newCondition (d :: rest)
      = if d.Type_ = newCondition.Type_ then updateExistingCondition now d newCondition :: rest
        else d :: updateFirstCondition now newCondition rest := rfl

theorem updateExistingCondition_type (now : Time) (existing newCondition : Condition) :
    (updateExistingCondition now existing newCondition).Type_ = existing.Type_ := by
  unfold updateExistingCondition
  split <;> rfl

theorem updateExistingCondition_of_status {now : Time} {existing newCondition : Condition}
    (hstatus : existing.Status = newCondition.Status)
    (hreason : existing.Reason = newCondition.Reason)
    (hmessage : existing.Message = newCondition.Message)
    (hgeneration : existing.ObservedGeneration = newCondition.ObservedGeneration) :
    updateExistingCondition now existing newCondition = existing := by
  unfold updateExistingCondition
  rw [if_neg (by simpa using hstatus)]
  cases existing
  simp_all

theorem updateExistingCondition_twice (now1 now2 : Time) (existing newCondition : Condition) :
    updateExistingCondition now2 (updateExistingCondition now1 existing newCondition) newCondition
      = updateExistingCondition now1 existing newCondition := by
  apply updateExistingCondition_of_status
  · unfold updateExistingCondition
    split
    · rfl
    · rename_i h
      simpa using h
  · rfl
  · rfl
  · rfl

theorem updateFirstCondition_twice (now1 now2 : Time) (newCondition : Condition)
    (conditions : List Condition) :
    updateFirstCondition now2 newCondition (updateFirstCondition now1 newCondition conditions)
      = updateFirstCondition now1 newCondition conditions := by
  induction conditions with
  | nil => rfl
  | cons d rest ih =>
    by_cases hd : d.Type_ = newCondition.Type_
    · have htype : (updateExistingCondition now1 d newCondition).Type_ = newCondition.Type_ := by
        rw [updateExistingCondition_type]; exact hd
      rw [updateFirstCondition_cons, if_pos hd, updateFirstCondition_cons, if_pos htype,
        updateExistingCondition_twice]
    · rw [updateFirstCondition_cons, if_neg hd, updateFirstCondition_cons, if_neg hd, ih]

theorem updateFirstCondition_append_of_none {conditions : List Condition} {now : Time}
    {newCondition : Condition}
    (h : FindStatusCondition conditions newCondition.Type_ = none) (c : Condition)
    (hc : c.Type_ = newCondition.Type_) :
    updateFirstCondition now newCondition (conditions ++ [c])
      = conditions ++ [updateExistingCondition now c newCondition] := by
  induction conditions with
  | nil => simp [updateFirstCondition, hc]
  | cons d rest ih =>
    rw [findStatusCondition_cons] at h
    split at h
    · cases h
    · rename_i hd
      rw [List.cons_append, updateFirstCondition_cons, if_neg hd, ih h, List.cons_append]

/-- Setting the same condition a second time, at whatever time, changes nothing. -/
theorem setStatusCondition_twice (now1 now2 : Time) (conditions : List Condition)
    (newCondition : Condition) :
    SetStatusCondition now2 (SetStatusCondition now1 conditions newCondition) newCondition
      = SetStatusCondition now1 conditions newCondition := by
  cases h : FindStatusCondition conditions newCondition.Type_ with
  | none =>
    have hfirst : SetStatusCondition now1 conditions newCondition
        = conditions ++
          [if newCondition.LastTransitionTime = 0 then
            { newCondition with LastTransitionTime := now1 } else newCondition] := by
      simp [SetStatusCondition, h]
    rw [hfirst]
    have htype : (if newCondition.LastTransitionTime = 0 then
        { newCondition with LastTransitionTime := now1 } else newCondition).Type_
        = newCondition.Type_ := by
      split <;> rfl
    have hfind := findStatusCondition_append_of_none h _ htype
    unfold SetStatusCondition
    rw [hfind]
    simp only
    rw [updateFirstCondition_append_of_none h _ htype]
    congr 2
    apply updateExistingCondition_of_status <;> split <;> rfl
  | some existing =>
    have hfirst : SetStatusCondition now1 conditions newCondition
        = updateFirstCondition now1 newCondition conditions := by
      simp [SetStatusCondition, h]
    rw [hfirst]
    unfold SetStatusCondition
    rw [findStatusCondition_updateFirst h]
    simp only
    exact updateFirstCondition_twice _ _ _ _

theorem findStatusCondition_updateFirst_of_ne (now : Time) (newCondition : Condition)
    (conditions : List Condition) {t : String} (ht : t ≠ newCondition.Type_) :
    FindStatusCondition (updateFirstCondition now newCondition conditions) t
      = FindStatusCondition conditions t := by
  induction conditions with
  | nil => rfl
  | cons d rest ih =>
    by_cases hd : d.Type_ = newCondition.Type_
    · have hdt : ¬ d.Type_ = t := fun h => ht (h.symm.trans hd)
      have hut : ¬ (updateExistingCondition now d newCondition).Type_ = t := by
        rw [updateExistingCondition_type]; exact hdt
      rw [updateFirstCondition_cons, if_pos hd, findStatusCondition_cons, if_neg hut,
        findStatusCondition_cons, if_neg hdt]
    · rw [updateFirstCondition_cons, if_neg hd, findStatusCondition_cons,
        findStatusCondition_cons, ih]

theorem findStatusCondition_append_of_ne (conditions : List Condition) (c : Condition)
    {t : String} (ht : c.Type_ ≠ t) :
    FindStatusCondition (conditions ++ [c]) t = FindStatusCondition conditions t := by
  induction conditions with
  | nil => simp [FindStatusCondition, ht]
  | cons d rest ih =>
    rw [List.cons_append, findStatusCondition_cons, findStatusCondition_cons, ih]

/-- Setting a condition leaves the conditions of the other types as they are found. -/
theorem findStatusCondition_set_of_ne (now : Time) (conditions : List Condition)
    (newCondition : Condition) {t : String} (ht : t ≠ newCondition.Type_) :
    FindStatusCondition (SetStatusCondition now conditions newCondition) t
      = FindStatusCondition conditions t := by
  unfold SetStatusCondition
  split
  · apply findStatusCondition_append_of_ne
    intro h
    apply ht
    rw [← h]
    split <;> rfl
  · exact findStatusCondition_updateFirst_of_ne _ _ _ ht

/-! ## The run after the gates, and what it depends on -/

/-- A run that passes both gates calls `setAddOnProgressingAndLastApplied` with the chosen
state. -/
theorem update_of_gates {env : Env} {newaddon : ManagedClusterAddOn}
    (oldaddon : ManagedClusterAddOn)
    (hsupported : (isConfigurationSupported newaddon).1 = true)
    (happlied : FindStatusCondition newaddon.Status.Conditions
      ManagedClusterAddOnManifestApplied ≠ none) :
    updateAddonProgressingAndLastApplied env newaddon oldaddon =
      patchAndReturn env (some (chosenState env newaddon).1) (chosenState env newaddon).2
        (setAddOnProgressingAndLastApplied env.now (isUpgradeFlag newaddon)
          (chosenState env newaddon).1 (chosenState env newaddon).2 newaddon) oldaddon := by
  obtain ⟨c, hc⟩ := Option.ne_none_iff_exists'.mp happlied
  unfold updateAddonProgressingAndLastApplied chosenState
  rw [isConfigurationSupported_of_fst hsupported]
  simp only [hc]
  cases env.workLister newaddon.Namespace newaddon.Name with
  | error err => rfl
  | ok works =>
    simp only
    split
    · rfl
    · cases checkAddonWorks (env.PreDeleteHookWorkName newaddon.Name) newaddon works <;> rfl

/-- A run stopped for want of a ManifestApplied condition. -/
theorem update_of_waiting {env : Env} {newaddon : ManagedClusterAddOn}
    (oldaddon : ManagedClusterAddOn)
    (hsupported : (isConfigurationSupported newaddon).1 = true)
    (hwaiting : FindStatusCondition newaddon.Status.Conditions
      ManagedClusterAddOnManifestApplied = none) :
    updateAddonProgressingAndLastApplied env newaddon oldaddon =
      patchAndReturn env none ""
        { newaddon with
          Status := { newaddon.Status with
            Conditions :=
              SetStatusCondition env.now newaddon.Status.Conditions
                { Type_ := ManagedClusterAddOnConditionProgressing
                  Status := ConditionFalse
                  Reason := "WaitingForManifestApplied"
                  Message := "Waiting for ManagedClusterAddOn ManifestApplied condition" } } }
        oldaddon := by
  unfold updateAddonProgressingAndLastApplied
  rw [isConfigurationSupported_of_fst hsupported]
  simp only [hwaiting]

theorem chosenState_cases (env : Env) (newaddon : ManagedClusterAddOn) :
    (chosenState env newaddon).1 = ProgressingFailed ∨
    (chosenState env newaddon).1 = ProgressingDoing ∨
    (chosenState env newaddon).1 = ProgressingSucceed := by
  unfold chosenState
  cases env.workLister newaddon.Namespace newaddon.Name with
  | error err => exact Or.inl rfl
  | ok works =>
    simp only
    split
    · exact Or.inr (Or.inl rfl)
    · cases checkAddonWorks (env.PreDeleteHookWorkName newaddon.Name) newaddon works with
      | none => exact Or.inr (Or.inr rfl)
      | some message => exact Or.inr (Or.inl rfl)

theorem workConfigsMatchesAddon_congr (work : ManifestWork) {a1 a2 : ManagedClusterAddOn}
    (h : a1.Status.ConfigReferences = a2.Status.ConfigReferences) :
    workConfigsMatchesAddon work a1 = workConfigsMatchesAddon work a2 := by
  unfold workConfigsMatchesAddon
  rw [h]

theorem checkAddonWorks_congr (hook : String) {a1 a2 : ManagedClusterAddOn}
    (h : a1.Status.ConfigReferences = a2.Status.ConfigReferences) (works : List ManifestWork) :
    checkAddonWorks hook a1 works = checkAddonWorks hook a2 works := by
  induction works with
  | nil => rfl
  | cons w rest ih =>
    unfold checkAddonWorks
    rw [ih, workConfigsMatchesAddon_congr w h]

/-- The chosen state depends on the addon through its name, its namespace and its config
references only, and on the environment through the lister and the hook work name only. -/
theorem chosenState_congr {env1 env2 : Env} {a1 a2 : ManagedClusterAddOn}
    (hlister : env1.workLister = env2.workLister)
    (hhook : env1.PreDeleteHookWorkName = env2.PreDeleteHookWorkName)
    (hname : a1.Name = a2.Name) (hns : a1.Namespace = a2.Namespace)
    (hrefs : a1.Status.ConfigReferences = a2.Status.ConfigReferences) :
    chosenState env1 a1 = chosenState env2 a2 := by
  unfold chosenState
  rw [hlister, hhook, hname, hns]
  cases env2.workLister a2.Namespace a2.Name with
  | error err => rfl
  | ok works =>
    simp only
    rw [checkAddonWorks_congr _ hrefs]

theorem isUpgradeFlag_congr {a1 a2 : ManagedClusterAddOn}
    (h : a1.Status.ConfigReferences = a2.Status.ConfigReferences) :
    isUpgradeFlag a1 = isUpgradeFlag a2 := by
  unfold isUpgradeFlag
  rw [h]

theorem skipProgressingUpdate_congr {a1 a2 : ManagedClusterAddOn}
    (h : a1.Status.ConfigReferences = a2.Status.ConfigReferences) :
    skipProgressingUpdate a1 = skipProgressingUpdate a2 := by
  unfold skipProgressingUpdate
  rw [h]

theorem patch_of_status_eq (env : Env) {new old : ManagedClusterAddOn}
    (h : new.Status = old.Status) :
    patchAddOnProgressingAndLastApplied env new old = ([], none) := by
  simp [patchAddOnProgressingAndLastApplied, h]

/-- The client calls and the error of a run are those of the final patch of the status. -/
theorem update_actions (env : Env) (newaddon oldaddon : ManagedClusterAddOn) :
    (updateAddonProgressingAndLastApplied env newaddon oldaddon).actions =
      (patchAddOnProgressingAndLastApplied env
        (updateAddonProgressingAndLastApplied env newaddon oldaddon).addon oldaddon).1 ∧
    (updateAddonProgressingAndLastApplied env newaddon oldaddon).err =
      (patchAddOnProgressingAndLastApplied env
        (updateAddonProgressingAndLastApplied env newaddon oldaddon).addon oldaddon).2 := by
  unfold updateAddonProgressingAndLastApplied
  split
  · exact ⟨rfl, rfl⟩
  · split
    · exact ⟨rfl, rfl⟩
    · simp only
      split
      · exact ⟨rfl, rfl⟩
      · split
        · exact ⟨rfl, rfl⟩
        · split <;> exact ⟨rfl, rfl⟩

theorem progressingCondition_type (isUpgrade : Bool) (status message : String) :
    (progressingCondition isUpgrade status message).Type_
      = ManagedClusterAddOnConditionProgressing := by
  unfold progressingCondition
  repeat' split
  all_goals rfl

theorem skip_true_of_all_equal {addon : ManagedClusterAddOn}
    (hne : addon.Status.ConfigReferences ≠ [])
    (hall : ∀ r ∈ addon.Status.ConfigReferences, r.LastAppliedConfig = r.DesiredConfig) :
    skipProgressingUpdate addon = true := by
  simp only [skipProgressingUpdate, Bool.and_eq_true, List.all_eq_true, decide_eq_true_eq]
  refine ⟨List.length_pos.mpr hne, ?_⟩
  intro r hr
  simpa [configSpecHashDeepEqual] using hall r hr

theorem skip_false_iff (addon : ManagedClusterAddOn) :
    skipProgressingUpdate addon = false ↔
      addon.Status.ConfigReferences = [] ∨
        ∃ r ∈ addon.Status.ConfigReferences, r.LastAppliedConfig ≠ r.DesiredConfig := by
  constructor
  · intro h
    by_cases hne : addon.Status.ConfigReferences = []
    · exact Or.inl hne
    · right
      by_contra hall
      push_neg at hall
      rw [skip_true_of_all_equal hne hall] at h
      cases h
  · rintro (h | h)
    · simp [skipProgressingUpdate, h]
    · exact skip_false_of_exists h

/-! ## Running twice -/

theorem setAddOn_eq_of_not_skip (now : Time) (isUpgrade : Bool) (status message : String)
    {addon : ManagedClusterAddOn} (h : skipProgressingUpdate addon = false) :
    setAddOnProgressingAndLastApplied now isUpgrade status message addon =
      { addon with
        Status := { addon.Status with
          ConfigReferences :=
            if status = ProgressingSucceed then
              addon.Status.ConfigReferences.map
                (fun configReference =>
                  { configReference with LastAppliedConfig := configReference.DesiredConfig })
            else addon.Status.ConfigReferences
          Conditions :=
            SetStatusCondition now addon.Status.Conditions
              (progressingCondition isUpgrade status message) } } := by
  simp [setAddOnProgressingAndLastApplied, h]

/-- What `setAddOnProgressingAndLastApplied` leaves alone: everything but the conditions and
the config references. -/
theorem setAddOn_frame (now : Time) (isUpgrade : Bool) (status message : String)
    (addon : ManagedClusterAddOn) :
    (setAddOnProgressingAndLastApplied now isUpgrade status message addon).Name = addon.Name ∧
    (setAddOnProgressingAndLastApplied now isUpgrade status message addon).Namespace
      = addon.Namespace ∧
    (setAddOnProgressingAndLastApplied now isUpgrade status message addon).Spec = addon.Spec ∧
    (setAddOnProgressingAndLastApplied now isUpgrade status message addon).Status.SupportedConfigs
      = addon.Status.SupportedConfigs := by
  unfold setAddOnProgressingAndLastApplied
  split <;> exact ⟨rfl, rfl, rfl, rfl⟩

theorem setAddOn_supported (now : Time) (isUpgrade : Bool) (status message : String)
    (addon : ManagedClusterAddOn) :
    isConfigurationSupported (setAddOnProgressingAndLastApplied now isUpgrade status message addon)
      = isConfigurationSupported addon := by
  obtain ⟨_, _, hspec, hsup⟩ := setAddOn_frame now isUpgrade status message addon
  unfold isConfigurationSupported
  rw [hspec, hsup]

theorem setAddOn_find_of_ne (now : Time) (isUpgrade : Bool) (status message : String)
    (addon : ManagedClusterAddOn) {t : String} (ht : t ≠ ManagedClusterAddOnConditionProgressing) :
    FindStatusCondition
        (setAddOnProgressingAndLastApplied now isUpgrade status message addon).Status.Conditions t
      = FindStatusCondition addon.Status.Conditions t := by
  unfold setAddOnProgressingAndLastApplied
  split
  · rfl
  · apply findStatusCondition_set_of_ne
    rw [progressingCondition_type]
    exact ht

theorem setAddOn_refs_or_skip (now : Time) (isUpgrade : Bool) (status message : String)
    (addon : ManagedClusterAddOn) :
    (setAddOnProgressingAndLastApplied now isUpgrade status message addon).Status.ConfigReferences
        = addon.Status.ConfigReferences ∨
    skipProgressingUpdate (setAddOnProgressingAndLastApplied now isUpgrade status message addon)
      = true := by
  by_cases hst : status = ProgressingSucceed
  · subst hst
    by_cases hne : (setAddOnProgressingAndLastApplied now isUpgrade ProgressingSucceed message
        addon).Status.ConfigReferences = []
    · left
      cases hskip : skipProgressingUpdate addon with
      | true => rw [setAddOn_of_skip hskip]
      | false =>
        rw [setAddOn_eq_of_not_skip _ _ _ _ hskip] at hne ⊢
        simp only [if_true, List.map_eq_nil_iff] at hne ⊢
        rw [hne]
        rfl
    · right
      exact skip_true_of_all_equal hne (setAddOn_refs_succeed _ _ _ _)
  · left
    exact setAddOn_refs_of_ne hst

/-- Calling `setAddOnProgressingAndLastApplied` a second time with the same state, at whatever
time, changes nothing. -/
theorem setAddOn_twice (now1 now2 : Time) (isUpgrade : Bool) (status message : String)
    (addon : ManagedClusterAddOn) :
    setAddOnProgressingAndLastApplied now2 isUpgrade status message
        (setAddOnProgressingAndLastApplied now1 isUpgrade status message addon)
      = setAddOnProgressingAndLastApplied now1 isUpgrade status message addon := by
  cases hskip : skipProgressingUpdate addon with
  | true => rw [setAddOn_of_skip hskip, setAddOn_of_skip hskip]
  | false =>
    cases hskip2 : skipProgressingUpdate
        (setAddOnProgressingAndLastApplied now1 isUpgrade status message addon) with
    | true => exact setAddOn_of_skip hskip2
    | false =>
      rw [setAddOn_eq_of_not_skip now2 _ _ _ hskip2]
      rw [setAddOn_eq_of_not_skip now1 _ _ _ hskip]
      simp only [setStatusCondition_twice]
      by_cases hst : status = ProgressingSucceed
      · simp [hst, List.map_map, Function.comp_def]
      · simp [hst]

/-- A second run on the addon a run leaves, with the same lister and hook work names, leaves
that addon as it is. -/
theorem update_second_run (env env2 : Env) (addon oldaddon oldaddon2 : ManagedClusterAddOn)
    (hlister : env2.workLister = env.workLister)
    (hhook : env2.PreDeleteHookWorkName = env.PreDeleteHookWorkName) :
    (updateAddonProgressingAndLastApplied env2
        (updateAddonProgressingAndLastApplied env addon oldaddon).addon oldaddon2).addon
      = (updateAddonProgressingAndLastApplied env addon oldaddon).addon := by
  rcases isConfigurationSupported_cases addon with hs | ⟨config, hs⟩
  · have hsup : (isConfigurationSupported addon).1 = true := by rw [hs]
    cases hfind : FindStatusCondition addon.Status.Conditions
        ManagedClusterAddOnManifestApplied with
    | none =>
      rw [update_of_waiting oldaddon hsup hfind]
      simp only [patchAndReturn]
      rw [update_of_waiting oldaddon2 (by exact hsup)
        (by
          show FindStatusCondition (SetStatusCondition env.now addon.Status.Conditions _) _ = none
          rw [findStatusCondition_set_of_ne _ _ _ (by decide)]
          exact hfind)]
      simp only [patchAndReturn, setStatusCondition_twice]
    | some c =>
      have happlied : FindStatusCondition addon.Status.Conditions
          ManagedClusterAddOnManifestApplied ≠ none := by rw [hfind]; simp
      rw [update_of_gates oldaddon hsup happlied]
      simp only [patchAndReturn]
      have hsup2 : (isConfigurationSupported
          (setAddOnProgressingAndLastApplied env.now (isUpgradeFlag addon)
            (chosenState env addon).1 (chosenState env addon).2 addon)).1 = true := by
        rw [setAddOn_supported]; exact hsup
      have happlied2 : FindStatusCondition
          (setAddOnProgressingAndLastApplied env.now (isUpgradeFlag addon)
            (chosenState env addon).1 (chosenState env addon).2 addon).Status.Conditions
          ManagedClusterAddOnManifestApplied ≠ none := by
        rw [setAddOn_find_of_ne _ _ _ _ _ (by decide)]; exact happlied
      rw [update_of_gates oldaddon2 hsup2 happlied2]
      simp only [patchAndReturn]
      rcases setAddOn_refs_or_skip env.now (isUpgradeFlag addon) (chosenState env addon).1
          (chosenState env addon).2 addon with hrefs | hskip
      · obtain ⟨hname, hns, _, _⟩ := setAddOn_frame env.now (isUpgradeFlag addon)
          (chosenState env addon).1 (chosenState env addon).2 addon
        rw [isUpgradeFlag_congr hrefs, chosenState_congr hlister hhook hname hns hrefs]
        exact setAddOn_twice _ _ _ _ _ _
      · exact setAddOn_of_skip hskip
  · rw [update_of_unsupported oldaddon hs]
    simp only [patchAndReturn]
    rw [update_of_unsupported oldaddon2 (by exact hs : isConfigurationSupported _ = (false, config))]
    simp only [patchAndReturn, setStatusCondition_twice]

/-! ## Two conditions that differ in reason and message only -/

theorem setStatusCondition_forall₂ (now : Time) (conditions : List Condition)
    (n1 n2 : Condition) (htype : n1.Type_ = n2.Type_) (hstatus : n1.Status = n2.Status)
    (hgeneration : n1.ObservedGeneration = n2.ObservedGeneration)
    (htime : n1.LastTransitionTime = n2.LastTransitionTime) :
    List.Forall₂
      (fun c1 c2 => c1.Type_ = c2.Type_ ∧ c1.Status = c2.Status ∧
        c1.ObservedGeneration = c2.ObservedGeneration ∧
        c1.LastTransitionTime = c2.LastTransitionTime ∧ (c1.Type_ ≠ n1.Type_ → c1 = c2))
      (SetStatusCondition now conditions n1) (SetStatusCondition now conditions n2) := by
  have hrefl : ∀ l : List Condition, List.Forall₂
      (fun c1 c2 => c1.Type_ = c2.Type_ ∧ c1.Status = c2.Status ∧
        c1.ObservedGeneration = c2.ObservedGeneration ∧
        c1.LastTransitionTime = c2.LastTransitionTime ∧ (c1.Type_ ≠ n1.Type_ → c1 = c2))
      l l := by
    intro l
    induction l with
    | nil => exact List.Forall₂.nil
    | cons d rest ih => exact List.Forall₂.cons ⟨rfl, rfl, rfl, rfl, fun _ => rfl⟩ ih
  have hfind : FindStatusCondition conditions n2.Type_
      = FindStatusCondition conditions n1.Type_ := by rw [htype]
  unfold SetStatusCondition
  rw [hfind]
  clear hfind
  cases FindStatusCondition conditions n1.Type_ with
  | none =>
    simp only
    have hlast : List.Forall₂
        (fun c1 c2 => c1.Type_ = c2.Type_ ∧ c1.Status = c2.Status ∧
          c1.ObservedGeneration = c2.ObservedGeneration ∧
          c1.LastTransitionTime = c2.LastTransitionTime ∧ (c1.Type_ ≠ n1.Type_ → c1 = c2))
        [if n1.LastTransitionTime = 0 then { n1 with LastTransitionTime := now } else n1]
        [if n2.LastTransitionTime = 0 then { n2 with LastTransitionTime := now } else n2] := by
      refine List.Forall₂.cons ?_ List.Forall₂.nil
      by_cases ht : n1.LastTransitionTime = 0
      · rw [if_pos ht, if_pos (htime ▸ ht)]
        exact ⟨htype, hstatus, hgeneration, rfl, fun h => absurd rfl h⟩
      · rw [if_neg ht, if_neg (htime ▸ ht)]
        exact ⟨htype, hstatus, hgeneration, htime, fun h => absurd rfl h⟩
    induction conditions with
    | nil => exact hlast
    | cons d rest ih => exact List.Forall₂.cons ⟨rfl, rfl, rfl, rfl, fun _ => rfl⟩ ih
  | some existing =>
    simp only
    induction conditions with
    | nil => exact List.Forall₂.nil
    | cons d rest ih =>
      rw [updateFirstCondition_cons, updateFirstCondition_cons, ← htype]
      by_cases hd : d.Type_ = n1.Type_
      · rw [if_pos hd, if_pos hd]
        refine List.Forall₂.cons ?_ (hrefl rest)
        have hshape : ∀ n : Condition,
            (updateExistingCondition now d n).Status = n.Status ∧
            (updateExistingCondition now d n).ObservedGeneration = n.ObservedGeneration ∧
            (updateExistingCondition now d n).LastTransitionTime =
              (if d.Status ≠ n.Status then
                (if n.LastTransitionTime ≠ 0 then n.LastTransitionTime else now)
               else d.LastTransitionTime) := by
          intro n
          unfold updateExistingCondition
          by_cases hs : d.Status = n.Status
          · simp [hs]
          · simp [hs]
        refine ⟨?_, ?_, ?_, ?_, ?_⟩
        · rw [updateExistingCondition_type, updateExistingCondition_type]
        · rw [(hshape n1).1, (hshape n2).1, hstatus]
        · rw [(hshape n1).2.1, (hshape n2).2.1, hgeneration]
        · rw [(hshape n1).2.2, (hshape n2).2.2, hstatus, htime]
        · intro h
          rw [updateExistingCondition_type] at h
          exact absurd hd h
      · rw [if_neg hd, if_neg hd]
        exact List.Forall₂.cons ⟨rfl, rfl, rfl, rfl, fun _ => rfl⟩ ih

theorem progressingCondition_upgrade_agree (status message : String) :
    (progressingCondition true status message).Type_
      = (progressingCondition false status message).Type_ ∧
    (progressingCondition true status message).Status
      = (progressingCondition false status message).Status ∧
    (progressingCondition true status message).ObservedGeneration
      = (progressingCondition false status message).ObservedGeneration ∧
    (progressingCondition true status message).LastTransitionTime
      = (progressingCondition false status message).LastTransitionTime := by
  unfold progressingCondition
  simp only [if_true, Bool.false_eq_true, if_false]
  repeat' split
  all_goals exact ⟨rfl, rfl, rfl, rfl⟩

/-! ## The claims, continued -/

/-- C12: for an addon with supported configuration and no ManifestApplied condition, the run sets
the Progressing condition to status False with reason WaitingForManifestApplied and stops:
no state is chosen, the works are not consulted (the outcome is the same whatever lister and hook
work names the environment has), and `status.configReferences` is unchanged. -/
theorem C12_waiting_for_manifest_applied (env : Env) (newaddon oldaddon : ManagedClusterAddOn)
    (hsupported : (isConfigurationSupported newaddon).1 = true)
    (hwaiting : FindStatusCondition newaddon.Status.Conditions
      ManagedClusterAddOnManifestApplied = none) :
    (∃ c, FindStatusCondition
        (updateAddonProgressingAndLastApplied env newaddon oldaddon).addon.Status.Conditions
        ManagedClusterAddOnConditionProgressing = some c ∧
      c.Status = ConditionFalse ∧ c.Reason = "WaitingForManifestApplied" ∧
      c.Message = "Waiting for ManagedClusterAddOn ManifestApplied condition") ∧
    (updateAddonProgressingAndLastApplied env newaddon oldaddon).state = none ∧
    (updateAddonProgressingAndLastApplied env newaddon oldaddon).addon.Status.ConfigReferences
      = newaddon.Status.ConfigReferences ∧
    (∀ (lister : String → String → Except String (List ManifestWork))
        (hookWorkName : String → String),
      updateAddonProgressingAndLastApplied
          { env with workLister := lister, PreDeleteHookWorkName := hookWorkName }
          newaddon oldaddon
        = updateAddonProgressingAndLastApplied env newaddon oldaddon) := by
  refine ⟨?_, ?_, ?_, ?_⟩
  · rw [update_of_waiting oldaddon hsupported hwaiting]
    exact findStatusCondition_set env.now newaddon.Status.Conditions
      { Type_ := ManagedClusterAddOnConditionProgressing
        Status := ConditionFalse
        Reason := "WaitingForManifestApplied"
        Message := "Waiting for ManagedClusterAddOn ManifestApplied condition" }
  · rw [update_of_waiting oldaddon hsupported hwaiting]
    rfl
  · rw [update_of_waiting oldaddon hsupported hwaiting]
    rfl
  · intro lister hookWorkName
    rw [update_of_waiting oldaddon hsupported hwaiting,
      update_of_waiting oldaddon hsupported hwaiting]
    rfl

/-- Witness of C12: the addon of the test case `no work applied condition`, once with no work
and once with a lister that fails. -/
theorem C12_waiting_for_manifest_applied_witness :
    (updateAddonProgressingAndLastApplied (testEnv []) testNewAddon testNewAddon).state = none ∧
    updateAddonProgressingAndLastApplied
        { testEnv [] with
          workLister := fun _ _ => Except.error "cache not synced"
          PreDeleteHookWorkName := fun _ => "" }
        testNewAddon testNewAddon
      = updateAddonProgressingAndLastApplied (testEnv []) testNewAddon testNewAddon :=
  ⟨(C12_waiting_for_manifest_applied (testEnv []) testNewAddon testNewAddon
      (by decide) (by decide)).2.1,
    (C12_waiting_for_manifest_applied (testEnv []) testNewAddon testNewAddon
      (by decide) (by decide)).2.2.2 _ _⟩

/-- C14: the upgrade flag is true if and only if some last applied config is non-nil with a
non-empty spec hash; and when the write-skip does not apply, the condition
`setAddOnProgressingAndLastApplied` writes is: for Doing, status True with reason Installing
(flag false) or Upgrading (flag true); for Succeed, status False with reason InstallSucceed or
UpgradeSucceed; for Failed, status False with reason InstallFailed or UpgradeFailed and the
given message. -/
theorem C14_upgrade_flag_and_reasons (addon : ManagedClusterAddOn) (now : Time)
    (isUpgrade : Bool) (message : String) :
    (isUpgradeFlag addon = true ↔
      ∃ r ∈ addon.Status.ConfigReferences, ∃ lastApplied,
        r.LastAppliedConfig = some lastApplied ∧ lastApplied.SpecHash ≠ "") ∧
    (skipProgressingUpdate addon = false →
    ((setAddOnProgressingAndLastApplied now isUpgrade ProgressingDoing message
          addon).Status.Conditions =
        SetStatusCondition now addon.Status.Conditions
          { Type_ := ManagedClusterAddOnConditionProgressing
            Status := ConditionTrue
            Reason := if isUpgrade then ProgressingReasonUpgrading
              else ProgressingReasonInstalling
            Message := if isUpgrade then "upgrading... " ++ message
              else "installing... " ++ message }) ∧
    ((setAddOnProgressingAndLastApplied now isUpgrade ProgressingSucceed message
          addon).Status.Conditions =
        SetStatusCondition now addon.Status.Conditions
          { Type_ := ManagedClusterAddOnConditionProgressing
            Status := ConditionFalse
            Reason := if isUpgrade then ProgressingReasonUpgradeSucceed
              else ProgressingReasonInstallSucceed
            Message := if isUpgrade then "upgrade completed with no errors."
              else "install completed with no errors." }) ∧
    ((setAddOnProgressingAndLastApplied now isUpgrade ProgressingFailed message
          addon).Status.Conditions =
        SetStatusCondition now addon.Status.Conditions
          { Type_ := ManagedClusterAddOnConditionProgressing
            Status := ConditionFalse
            Reason := if isUpgrade then ProgressingReasonUpgradeFailed
              else ProgressingReasonInstallFailed
            Message := message }) ∧
    (∃ c, FindStatusCondition
        (setAddOnProgressingAndLastApplied now isUpgrade ProgressingDoing message
          addon).Status.Conditions ManagedClusterAddOnConditionProgressing = some c ∧
      c.Status = ConditionTrue ∧
      c.Reason = (if isUpgrade then ProgressingReasonUpgrading
        else ProgressingReasonInstalling)) ∧
    (∃ c, FindStatusCondition
        (setAddOnProgressingAndLastApplied now isUpgrade ProgressingSucceed message
          addon).Status.Conditions ManagedClusterAddOnConditionProgressing = some c ∧
      c.Status = ConditionFalse ∧
      c.Reason = (if isUpgrade then ProgressingReasonUpgradeSucceed
        else ProgressingReasonInstallSucceed)) ∧
    (∃ c, FindStatusCondition
        (setAddOnProgressingAndLastApplied now isUpgrade ProgressingFailed message
          addon).Status.Conditions ManagedClusterAddOnConditionProgressing = some c ∧
      c.Status = ConditionFalse ∧
      c.Reason = (if isUpgrade then ProgressingReasonUpgradeFailed
        else ProgressingReasonInstallFailed) ∧
      c.Message = message)) := by
  refine ⟨isUpgradeFlag_iff addon, fun hskip => ⟨?_, ?_, ?_, ?_, ?_, ?_⟩⟩
  · rw [setAddOn_eq_of_not_skip _ _ _ _ hskip]
    cases isUpgrade <;> rfl
  · rw [setAddOn_eq_of_not_skip _ _ _ _ hskip]
    cases isUpgrade <;> rfl
  · rw [setAddOn_eq_of_not_skip _ _ _ _ hskip]
    cases isUpgrade <;> rfl
  · obtain ⟨c, hc, hstatus, hreason, _⟩ :=
      setAddOn_condition now isUpgrade ProgressingDoing message hskip
    have hpc := progressingCondition_doing isUpgrade message
    exact ⟨c, hc, hstatus.trans hpc.1, hreason.trans hpc.2.1⟩
  · obtain ⟨c, hc, hstatus, hreason, _⟩ :=
      setAddOn_condition now isUpgrade ProgressingSucceed message hskip
    have hpc := progressingCondition_succeed isUpgrade message
    exact ⟨c, hc, hstatus.trans hpc.1, hreason.trans hpc.2⟩
  · obtain ⟨c, hc, hstatus, hreason, hmessage⟩ :=
      setAddOn_condition now isUpgrade ProgressingFailed message hskip
    have hpc := progressingCondition_failed isUpgrade message
    exact ⟨c, hc, hstatus.trans hpc.1, hreason.trans hpc.2.1, hmessage.trans hpc.2.2⟩

/-- Witness of C14: the addon of the test case `upgrade succeed` (last applied hash `hash`,
desired `hashnew`) has the upgrade flag set, and Succeed writes UpgradeSucceed on it. -/
theorem C14_upgrade_flag_and_reasons_witness :
    isUpgradeFlag (testAddon [testConfigReference "hash"]) = true ∧
    ∃ c, FindStatusCondition
        (setAddOnProgressingAndLastApplied 2 true ProgressingSucceed ""
          (testAddon [testConfigReference "hash"])).Status.Conditions
        ManagedClusterAddOnConditionProgressing = some c ∧
      c.Status = ConditionFalse ∧ c.Reason = ProgressingReasonUpgradeSucceed :=
  ⟨(C14_upgrade_flag_and_reasons (testAddon [testConfigReference "hash"]) 2 true "").1.mpr
      ⟨testConfigReference "hash", by decide, _, rfl, by decide⟩,
    ((C14_upgrade_flag_and_reasons (testAddon [testConfigReference "hash"]) 2 true "").2
      (by decide)).2.2.2.2.1⟩

/-- C15: for every addon, state and message, `setAddOnProgressingAndLastApplied` with the upgrade
flag true and with the flag false yields the same `status.configReferences` and the same status
of the Progressing condition; the two results agree on everything outside the conditions, the
two condition lists agree position by position on type, status, observed generation and
transition time, and a condition of a type other than Progressing is the same in both: the
results differ at most in the reason and message of the Progressing condition. -/
theorem C15_upgrade_flag_changes_wording_only (now : Time) (status message : String)
    (addon : ManagedClusterAddOn) :
    (setAddOnProgressingAndLastApplied now true status message addon).Status.ConfigReferences
      = (setAddOnProgressingAndLastApplied now false status message
          addon).Status.ConfigReferences ∧
    Option.map Condition.Status
        (FindStatusCondition
          (setAddOnProgressingAndLastApplied now true status message addon).Status.Conditions
          ManagedClusterAddOnConditionProgressing)
      = Option.map Condition.Status
        (FindStatusCondition
          (setAddOnProgressingAndLastApplied now false status message addon).Status.Conditions
          ManagedClusterAddOnConditionProgressing) ∧
    List.Forall₂
      (fun c1 c2 => c1.Type_ = c2.Type_ ∧ c1.Status = c2.Status ∧
        c1.ObservedGeneration = c2.ObservedGeneration ∧
        c1.LastTransitionTime = c2.LastTransitionTime ∧
        (c1.Type_ ≠ ManagedClusterAddOnConditionProgressing → c1 = c2))
      (setAddOnProgressingAndLastApplied now true status message addon).Status.Conditions
      (setAddOnProgressingAndLastApplied now false status message addon).Status.Conditions ∧
    { setAddOnProgressingAndLastApplied now true status message addon with
        Status := { (setAddOnProgressingAndLastApplied now true status message addon).Status with
          Conditions := [] } }
      = { setAddOnProgressingAndLastApplied now false status message addon with
        Status := { (setAddOnProgressingAndLastApplied now false status message addon).Status with
          Conditions := [] } } := by
  cases hskip : skipProgressingUpdate addon with
  | true =>
    rw [setAddOn_of_skip hskip, setAddOn_of_skip hskip]
    refine ⟨rfl, rfl, ?_, rfl⟩
    generalize addon.Status.Conditions = l
    induction l with
    | nil => exact List.Forall₂.nil
    | cons d rest ih => exact List.Forall₂.cons ⟨rfl, rfl, rfl, rfl, fun _ => rfl⟩ ih
  | false =>
    obtain ⟨htype, hstatus, hgeneration, htime⟩ :=
      progressingCondition_upgrade_agree status message
    refine ⟨?_, ?_, ?_, ?_⟩
    · rw [setAddOn_eq_of_not_skip _ _ _ _ hskip, setAddOn_eq_of_not_skip _ _ _ _ hskip]
    · obtain ⟨c1, hc1, hs1, _⟩ := setAddOn_condition now true status message hskip
      obtain ⟨c2, hc2, hs2, _⟩ := setAddOn_condition now false status message hskip
      rw [hc1, hc2]
      simp only [Option.map_some', Option.some.injEq]
      rw [hs1, hs2, hstatus]
    · rw [setAddOn_eq_of_not_skip _ _ _ _ hskip, setAddOn_eq_of_not_skip _ _ _ _ hskip]
      have := setStatusCondition_forall₂ now addon.Status.Conditions
        (progressingCondition true status message) (progressingCondition false status message)
        htype hstatus hgeneration htime
      rw [progressingCondition_type] at this
      exact this
    · rw [setAddOn_eq_of_not_skip _ _ _ _ hskip, setAddOn_eq_of_not_skip _ _ _ _ hskip]

/-- C16: on an addon with at least one config reference in which every last applied config
equals its desired config, `setAddOnProgressingAndLastApplied` returns the addon unchanged, for
every state and message; on an addon without config references it always sets the Progressing
condition built for the given state, flag and message. -/
theorem C16_write_skip (addon : ManagedClusterAddOn) (now : Time) (isUpgrade : Bool)
    (status message : String) :
    (addon.Status.ConfigReferences ≠ [] →
      (∀ r ∈ addon.Status.ConfigReferences, r.LastAppliedConfig = r.DesiredConfig) →
      setAddOnProgressingAndLastApplied now isUpgrade status message addon = addon) ∧
    (addon.Status.ConfigReferences = [] →
      (setAddOnProgressingAndLastApplied now isUpgrade status message addon).Status.Conditions
        = SetStatusCondition now addon.Status.Conditions
            (progressingCondition isUpgrade status message) ∧
      (setAddOnProgressingAndLastApplied now isUpgrade status message
        addon).Status.ConfigReferences = [] ∧
      ∃ c, FindStatusCondition
          (setAddOnProgressingAndLastApplied now isUpgrade status message addon).Status.Conditions
          ManagedClusterAddOnConditionProgressing = some c ∧
        c.Status = (progressingCondition isUpgrade status message).Status ∧
        c.Reason = (progressingCondition isUpgrade status message).Reason ∧
        c.Message = (progressingCondition isUpgrade status message).Message) := by
  constructor
  · intro hne hall
    exact setAddOn_of_skip (skip_true_of_all_equal hne hall)
  · intro hnil
    have hskip : skipProgressingUpdate addon = false := (skip_false_iff addon).mpr (Or.inl hnil)
    refine ⟨?_, ?_, setAddOn_condition now isUpgrade status message hskip⟩
    · rw [setAddOn_eq_of_not_skip _ _ _ _ hskip]
    · rw [setAddOn_eq_of_not_skip _ _ _ _ hskip]
      simp [hnil]

/-- Witness of C16: a converged addon is returned as it is even for the state Failed, and an
addon without config references gets the Installing condition. -/
theorem C16_write_skip_witness :
    setAddOnProgressingAndLastApplied 2 false ProgressingFailed "cache not synced"
        (testInstalledAddon [testConfigReference "hashnew"])
      = testInstalledAddon [testConfigReference "hashnew"] ∧
    (setAddOnProgressingAndLastApplied 2 false ProgressingDoing "no addon works"
        (testAddon [])).Status.Conditions
      = SetStatusCondition 2 (testAddon []).Status.Conditions
          (progressingCondition false ProgressingDoing "no addon works") :=
  ⟨(C16_write_skip (testInstalledAddon [testConfigReference "hashnew"]) 2 false
      ProgressingFailed "cache not synced").1 (by decide) (by decide),
    ((C16_write_skip (testAddon []) 2 false ProgressingDoing "no addon works").2 rfl).1⟩

/-- The run changes nothing of the addon but its status. -/
theorem update_addon_eq_with_status (env : Env) (newaddon oldaddon : ManagedClusterAddOn) :
    (updateAddonProgressingAndLastApplied env newaddon oldaddon).addon =
      { newaddon with
        Status := (updateAddonProgressingAndLastApplied env newaddon oldaddon).addon.Status } := by
  rcases update_shape env newaddon oldaddon with ⟨cond, haddon, _⟩ | ⟨status, message, haddon, _, _⟩
  · rw [haddon]
  · rw [haddon]
    unfold setAddOnProgressingAndLastApplied
    split <;> rfl

/-- C19: the run is idempotent. Let `a'` be the addon `a` with the status one run computes from
it. A second run on `a'`, with the same lister (and whatever clock and client), computes a status
equal to that of `a'`, issues no patch and returns no error. -/
theorem C19_reconcile_idempotent (env : Env) (a : ManagedClusterAddOn) (now2 : Time)
    (client2 : PatchAction → Option String) :
    (updateAddonProgressingAndLastApplied { env with now := now2, addonClientPatch := client2 }
        { a with Status := (updateAddonProgressingAndLastApplied env a a).addon.Status }
        { a with Status := (updateAddonProgressingAndLastApplied env a a).addon.Status
        }).addon.Status
      = (updateAddonProgressingAndLastApplied env a a).addon.Status ∧
    (updateAddonProgressingAndLastApplied { env with now := now2, addonClientPatch := client2 }
        { a with Status := (updateAddonProgressingAndLastApplied env a a).addon.Status }
        { a with Status := (updateAddonProgressingAndLastApplied env a a).addon.Status
        }).actions = [] ∧
    (updateAddonProgressingAndLastApplied { env with now := now2, addonClientPatch := client2 }
        { a with Status := (updateAddonProgressingAndLastApplied env a a).addon.Status }
        { a with Status := (updateAddonProgressingAndLastApplied env a a).addon.Status
        }).err = none := by
  rw [← update_addon_eq_with_status env a a]
  have hsecond := update_second_run env { env with now := now2, addonClientPatch := client2 } a a
    (updateAddonProgressingAndLastApplied env a a).addon rfl rfl
  have hactions := update_actions { env with now := now2, addonClientPatch := client2 }
    (updateAddonProgressingAndLastApplied env a a).addon
    (updateAddonProgressingAndLastApplied env a a).addon
  rw [hsecond] at hactions
  rw [patch_of_status_eq _ rfl] at hactions
  exact ⟨by rw [hsecond], hactions.1, hactions.2⟩

/-- C20: `patchAddOnProgressingAndLastApplied` makes no client call and returns nil when the new
status is equal to the old status, and otherwise makes exactly one patch call, on the status
subresource of the addon, and returns what that call returns. -/
theorem C20_patch_iff_status_differs (env : Env) (new old : ManagedClusterAddOn) :
    (new.Status = old.Status →
      patchAddOnProgressingAndLastApplied env new old = ([], none)) ∧
    (new.Status ≠ old.Status →
      ∃ action,
        patchAddOnProgressingAndLastApplied env new old
          = ([action], env.addonClientPatch action) ∧
        action.Subresource = "status" ∧ action.Namespace = new.Namespace ∧
        action.Name = new.Name) := by
  constructor
  · exact patch_of_status_eq env
  · intro hne
    unfold patchAddOnProgressingAndLastApplied
    rw [if_neg hne]
    exact ⟨_, rfl, rfl, rfl, rfl⟩

/-- Witness of C20: no call for the same addon on both sides, one call on `status` when a
converged addon is compared with the addon before its install. -/
theorem C20_patch_iff_status_differs_witness :
    patchAddOnProgressingAndLastApplied (testEnv []) (testAddon []) (testAddon []) = ([], none) ∧
    ∃ action,
      patchAddOnProgressingAndLastApplied (testEnv [])
          (testInstalledAddon [testConfigReference "hashnew"])
          (testAddon [testConfigReference ""])
        = ([action], (testEnv []).addonClientPatch action) ∧
      action.Subresource = "status" ∧
      action.Namespace = (testInstalledAddon [testConfigReference "hashnew"]).Namespace ∧
      action.Name = (testInstalledAddon [testConfigReference "hashnew"]).Name :=
  ⟨(C20_patch_iff_status_differs (testEnv []) (testAddon []) (testAddon [])).1 rfl,
    (C20_patch_iff_status_differs (testEnv [])
      (testInstalledAddon [testConfigReference "hashnew"])
      (testAddon [testConfigReference ""])).2 (by decide)⟩

/-! ## When a run issues a patch -/

/-- The driver `sync` on an addon that is found and owned: the run on a copy of the addon. -/
theorem sync_of_found {env : SyncEnv} {key ns name : String} {addon : ManagedClusterAddOn}
    {clusterManagementAddon : ClusterManagementAddOn}
    (hkey : SplitMetaNamespaceKey key = some (ns, name))
    (hfound : env.managedClusterAddonLister ns name = GetResult.found addon)
    (howner : env.clusterManagementAddonLister name = GetResult.found clusterManagementAddon)
    (hfilter : env.addonFilterFunc clusterManagementAddon = true) :
    sync env key =
      ((updateAddonProgressingAndLastApplied env.toEnv addon addon).actions,
        (updateAddonProgressingAndLastApplied env.toEnv addon addon).err) := by
  unfold sync
  rw [hkey]
  simp only [hfound, howner, hfilter]
  rfl

theorem updateExistingCondition_eq_self_iff (now : Time) (existing newCondition : Condition) :
    updateExistingCondition now existing newCondition = existing ↔
      existing.Status = newCondition.Status ∧ existing.Reason = newCondition.Reason ∧
      existing.Message = newCondition.Message ∧
      existing.ObservedGeneration = newCondition.ObservedGeneration := by
  constructor
  · intro h
    have hstatus : existing.Status = newCondition.Status := by
      by_contra hne
      have := congrArg Condition.Status h
      simp only [updateExistingCondition, ne_eq, hne, not_false_eq_true, if_true] at this
      exact hne this.symm
    have hreason := congrArg Condition.Reason h
    have hmessage := congrArg Condition.Message h
    have hgeneration := congrArg Condition.ObservedGeneration h
    simp only [updateExistingCondition] at hreason hmessage hgeneration
    exact ⟨hstatus, hreason.symm, hmessage.symm, hgeneration.symm⟩
  · rintro ⟨h1, h2, h3, h4⟩
    exact updateExistingCondition_of_status h1 h2 h3 h4

theorem updateFirstCondition_eq_self_iff {now : Time} {newCondition existing : Condition}
    {conditions : List Condition}
    (h : FindStatusCondition conditions newCondition.Type_ = some existing) :
    updateFirstCondition now newCondition conditions = conditions ↔
      updateExistingCondition now existing newCondition = existing := by
  induction conditions with
  | nil => simp [FindStatusCondition] at h
  | cons d rest ih =>
    rw [findStatusCondition_cons] at h
    rw [updateFirstCondition_cons]
    by_cases hd : d.Type_ = newCondition.Type_
    · rw [if_pos hd] at h ⊢
      cases h
      simp
    · rw [if_neg hd] at h ⊢
      simp only [List.cons.injEq, true_and]
      exact ih h

/-- Setting a condition leaves the list as it is exactly when the list already has a condition
of that type with the status, reason, message and observed generation of the new one. -/
theorem setStatusCondition_eq_self_iff (now : Time) (conditions : List Condition)
    (newCondition : Condition) :
    SetStatusCondition now conditions newCondition = conditions ↔
      ∃ c, FindStatusCondition conditions newCondition.Type_ = some c ∧
        c.Status = newCondition.Status ∧ c.Reason = newCondition.Reason ∧
        c.Message = newCondition.Message ∧
        c.ObservedGeneration = newCondition.ObservedGeneration := by
  unfold SetStatusCondition
  cases h : FindStatusCondition conditions newCondition.Type_ with
  | none =>
    simp only
    constructor
    · intro heq
      have := congrArg List.length heq
      simp at this
    · rintro ⟨c, hc, _⟩
      cases hc
  | some existing =>
    simp only [Option.some.injEq, exists_eq_left']
    rw [updateFirstCondition_eq_self_iff h, updateExistingCondition_eq_self_iff]

theorem patch_of_status_ne (env : Env) {new old : ManagedClusterAddOn}
    (h : new.Status ≠ old.Status) :
    ∃ action,
      patchAddOnProgressingAndLastApplied env new old = ([action], env.addonClientPatch action) ∧
      action.Subresource = "status" ∧
      action.oldData.Conditions = old.Status.Conditions ∧
      action.newData.Conditions = new.Status.Conditions := by
  unfold patchAddOnProgressingAndLastApplied
  rw [if_neg h]
  exact ⟨_, rfl, rfl, rfl, rfl⟩

theorem patch_actions_nil_iff (env : Env) (new old : ManagedClusterAddOn) :
    (patchAddOnProgressingAndLastApplied env new old).1 = [] ↔ new.Status = old.Status := by
  unfold patchAddOnProgressingAndLastApplied
  by_cases h : new.Status = old.Status
  · simp [h]
  · simp [h]

theorem status_with_conditions_eq_iff (status : ManagedClusterAddOnStatus)
    (conditions : List Condition) :
    { status with Conditions := conditions } = status ↔ conditions = status.Conditions := by
  cases status
  simp

/-- A run that only sets a new list of conditions on the addon it was given: no patch when the
list is the old one, otherwise one patch on `status` whose conditions are the new list. -/
theorem patch_of_new_conditions (env : Env) (addon : ManagedClusterAddOn)
    (conditions : List Condition) :
    (conditions = addon.Status.Conditions →
      patchAddOnProgressingAndLastApplied env
        { addon with Status := { addon.Status with Conditions := conditions } } addon
        = ([], none)) ∧
    (conditions ≠ addon.Status.Conditions →
      ∃ action,
        patchAddOnProgressingAndLastApplied env
          { addon with Status := { addon.Status with Conditions := conditions } } addon
          = ([action], env.addonClientPatch action) ∧
        action.Subresource = "status" ∧
        PatchAction.patchConditions action = some conditions) := by
  constructor
  · intro h
    apply patch_of_status_eq
    exact (status_with_conditions_eq_iff _ _).mpr h
  · intro h
    have hne : ({ addon with Status := { addon.Status with Conditions := conditions } } :
        ManagedClusterAddOn).Status ≠ addon.Status :=
      fun heq => h ((status_with_conditions_eq_iff _ _).mp heq)
    obtain ⟨action, hpatch, hsub, hold, hnew⟩ := patch_of_status_ne env hne
    refine ⟨action, hpatch, hsub, ?_⟩
    unfold PatchAction.patchConditions
    rw [hold, hnew]
    exact if_neg (fun heq => h heq.symm)

/-- C11, as the code has it: for an addon that is found and owned, with supported configuration,
a ManifestApplied condition, no last applied config with a non-empty hash, no Progressing
condition, and to which the write-skip does not apply (no config reference, or some last applied
config different from its desired config), when no work is listed the reconcile makes exactly one
client call, a patch on `status` whose conditions carry Progressing with status True, reason
Installing and the message `installing... no addon works`. -/
theorem C11_no_works_one_installing_patch (env : SyncEnv) (key ns name : String)
    (addon : ManagedClusterAddOn) (clusterManagementAddon : ClusterManagementAddOn)
    (hkey : SplitMetaNamespaceKey key = some (ns, name))
    (hfound : env.managedClusterAddonLister ns name = GetResult.found addon)
    (howner : env.clusterManagementAddonLister name = GetResult.found clusterManagementAddon)
    (hfilter : env.addonFilterFunc clusterManagementAddon = true)
    (hsupported : (isConfigurationSupported addon).1 = true)
    (happlied : FindStatusCondition addon.Status.Conditions
      ManagedClusterAddOnManifestApplied ≠ none)
    (hfresh : ¬ ∃ r ∈ addon.Status.ConfigReferences, ∃ lastApplied,
      r.LastAppliedConfig = some lastApplied ∧ lastApplied.SpecHash ≠ "")
    (hnoprogressing : FindStatusCondition addon.Status.Conditions
      ManagedClusterAddOnConditionProgressing = none)
    (hlist : env.workLister addon.Namespace addon.Name = Except.ok [])
    (hnoskip : addon.Status.ConfigReferences = [] ∨
      ∃ r ∈ addon.Status.ConfigReferences, r.LastAppliedConfig ≠ r.DesiredConfig) :
    ∃ action conditions c,
      sync env key = ([action], env.addonClientPatch action) ∧
      action.Subresource = "status" ∧
      PatchAction.patchConditions action = some conditions ∧
      FindStatusCondition conditions ManagedClusterAddOnConditionProgressing = some c ∧
      c.Status = ConditionTrue ∧ c.Reason = ProgressingReasonInstalling ∧
      c.Message = "installing... no addon works" ∧
      ∃ before after, c.Message = before ++ "no addon works" ++ after := by
  have hskip := (skip_false_iff addon).mpr hnoskip
  have hflag : isUpgradeFlag addon = false := by
    cases h : isUpgradeFlag addon with
    | false => rfl
    | true => exact absurd ((isUpgradeFlag_iff addon).mp h) hfresh
  have hrun := @update_of_empty env.toEnv addon addon hsupported happlied hlist
  rw [hflag, setAddOn_eq_of_not_skip _ _ _ _ hskip] at hrun
  simp only [show ProgressingDoing ≠ ProgressingSucceed by decide, if_false] at hrun
  have hne : SetStatusCondition env.now addon.Status.Conditions
      (progressingCondition false ProgressingDoing "no addon works")
      ≠ addon.Status.Conditions := by
    intro heq
    obtain ⟨c, hc, _⟩ := (setStatusCondition_eq_self_iff _ _ _).mp heq
    rw [progressingCondition_type, hnoprogressing] at hc
    cases hc
  obtain ⟨action, hpatch, hsub, hconds⟩ :=
    (patch_of_new_conditions env.toEnv addon _).2 hne
  obtain ⟨c, hc, hstatus, hreason, hmessage⟩ :=
    findStatusCondition_set env.now addon.Status.Conditions
      (progressingCondition false ProgressingDoing "no addon works")
  rw [progressingCondition_type] at hc
  have hmsg : c.Message = "installing... no addon works" := hmessage
  refine ⟨action, _, c, ?_, hsub, hconds, hc, hstatus, hreason, hmsg,
    "installing... ", "", ?_⟩
  · rw [sync_of_found hkey hfound howner hfilter, hrun]
    simp only [patchAndReturn]
    rw [hpatch]
  · rw [hmsg]
    decide

/-- Witness of C11: the test case `installing when no work`. -/
theorem C11_no_works_one_installing_patch_witness :
    ∃ action conditions c,
      sync (testSyncEnv [testAddon []] []) "cluster1/test"
        = ([action], (testSyncEnv [testAddon []] []).addonClientPatch action) ∧
      action.Subresource = "status" ∧
      PatchAction.patchConditions action = some conditions ∧
      FindStatusCondition conditions ManagedClusterAddOnConditionProgressing = some c ∧
      c.Status = ConditionTrue ∧ c.Reason = ProgressingReasonInstalling ∧
      c.Message = "installing... no addon works" ∧
      ∃ before after, c.Message = before ++ "no addon works" ++ after :=
  C11_no_works_one_installing_patch (testSyncEnv [testAddon []] []) "cluster1/test"
    "cluster1" "test" (testAddon []) { Name := "test" } (by decide) rfl rfl rfl (by decide)
    (by decide) (by simp [testAddon]) (by decide) rfl (Or.inl rfl)

/-- C11 as stated fails: the addon `cluster1/test` has supported configuration, a ManifestApplied
condition, no Progressing condition and one config reference with neither a desired nor a last
applied config, so no last applied config has a non-empty hash; no work is listed. The write-skip
applies and the reconcile makes no client call. -/
theorem C11_write_skip_counterexample :
    (isConfigurationSupported (testAddon [testBareConfigReference])).1 = true ∧
    FindStatusCondition (testAddon [testBareConfigReference]).Status.Conditions
      ManagedClusterAddOnManifestApplied ≠ none ∧
    isUpgradeFlag (testAddon [testBareConfigReference]) = false ∧
    FindStatusCondition (testAddon [testBareConfigReference]).Status.Conditions
      ManagedClusterAddOnConditionProgressing = none ∧
    (∃ works, (testSyncEnv [testAddon [testBareConfigReference]] []).workLister
      "cluster1" "test" = Except.ok works ∧ works = []) ∧
    sync (testSyncEnv [testAddon [testBareConfigReference]] []) "cluster1/test" = ([], none) := by
  refine ⟨by decide, by decide, by decide, by decide, ⟨[], rfl, rfl⟩, by decide⟩

/-- C13, as the code has it: for an addon that is found and owned, with supported configuration
and no ManifestApplied condition, the reconcile makes no client call if and only if the status
already carries a Progressing condition with status False, reason WaitingForManifestApplied, the
waiting message and observed generation 0; otherwise it makes exactly one call, a patch on
`status` whose conditions carry Progressing with status False and reason
WaitingForManifestApplied. -/
theorem C13_waiting_patch_unless_recorded (env : SyncEnv) (key ns name : String)
    (addon : ManagedClusterAddOn) (clusterManagementAddon : ClusterManagementAddOn)
    (hkey : SplitMetaNamespaceKey key = some (ns, name))
    (hfound : env.managedClusterAddonLister ns name = GetResult.found addon)
    (howner : env.clusterManagementAddonLister name = GetResult.found clusterManagementAddon)
    (hfilter : env.addonFilterFunc clusterManagementAddon = true)
    (hsupported : (isConfigurationSupported addon).1 = true)
    (hwaiting : FindStatusCondition addon.Status.Conditions
      ManagedClusterAddOnManifestApplied = none) :
    ((sync env key).1 = [] ↔
      ∃ c, FindStatusCondition addon.Status.Conditions
          ManagedClusterAddOnConditionProgressing = some c ∧
        c.Status = ConditionFalse ∧ c.Reason = "WaitingForManifestApplied" ∧
        c.Message = "Waiting for ManagedClusterAddOn ManifestApplied condition" ∧
        c.ObservedGeneration = 0) ∧
    ((¬ ∃ c, FindStatusCondition addon.Status.Conditions
          ManagedClusterAddOnConditionProgressing = some c ∧
        c.Status = ConditionFalse ∧ c.Reason = "WaitingForManifestApplied" ∧
        c.Message = "Waiting for ManagedClusterAddOn ManifestApplied condition" ∧
        c.ObservedGeneration = 0) →
      ∃ action conditions c,
        sync env key = ([action], env.addonClientPatch action) ∧
        action.Subresource = "status" ∧
        PatchAction.patchConditions action = some conditions ∧
        FindStatusCondition conditions ManagedClusterAddOnConditionProgressing = some c ∧
        c.Status = ConditionFalse ∧ c.Reason = "WaitingForManifestApplied") := by
  have hrun := @update_of_waiting env.toEnv addon addon hsupported hwaiting
  have hself := setStatusCondition_eq_self_iff env.now addon.Status.Conditions
    { Type_ := ManagedClusterAddOnConditionProgressing
      Status := ConditionFalse
      Reason := "WaitingForManifestApplied"
      Message := "Waiting for ManagedClusterAddOn ManifestApplied condition" }
  have hpatch := patch_of_new_conditions env.toEnv addon
    (SetStatusCondition env.now addon.Status.Conditions
      { Type_ := ManagedClusterAddOnConditionProgressing
        Status := ConditionFalse
        Reason := "WaitingForManifestApplied"
        Message := "Waiting for ManagedClusterAddOn ManifestApplied condition" })
  rw [sync_of_found hkey hfound howner hfilter, hrun]
  simp only [patchAndReturn]
  constructor
  · rw [patch_actions_nil_iff, status_with_conditions_eq_iff]
    exact hself
  · intro hnot
    have hne := fun heq => hnot (hself.mp heq)
    obtain ⟨action, hcall, hsub, hconds⟩ := hpatch.2 hne
    obtain ⟨c, hc, hstatus, hreason, _⟩ :=
      findStatusCondition_set env.now addon.Status.Conditions
        { Type_ := ManagedClusterAddOnConditionProgressing
          Status := ConditionFalse
          Reason := "WaitingForManifestApplied"
          Message := "Waiting for ManagedClusterAddOn ManifestApplied condition" }
    exact ⟨action, _, c, by rw [hcall], hsub, hconds, hc, hstatus, hreason⟩

/-- Witness of C13: the addon left by a first reconcile without ManifestApplied (it carries
the waiting condition) is reconciled without a client call. -/
theorem C13_waiting_patch_unless_recorded_witness :
    (sync
      (testSyncEnv
        [(updateAddonProgressingAndLastApplied (testEnv []) testNewAddon testNewAddon).addon] [])
      "cluster1/test").1 = [] :=
  (C13_waiting_patch_unless_recorded
    (testSyncEnv
      [(updateAddonProgressingAndLastApplied (testEnv []) testNewAddon testNewAddon).addon] [])
    "cluster1/test" "cluster1" "test"
    (updateAddonProgressingAndLastApplied (testEnv []) testNewAddon testNewAddon).addon
    { Name := "test" } (by decide) rfl rfl rfl (by decide) (by decide)).1.mpr
    ⟨{ Type_ := ManagedClusterAddOnConditionProgressing, Status := ConditionFalse
       LastTransitionTime := 2, Reason := "WaitingForManifestApplied"
       Message := "Waiting for ManagedClusterAddOn ManifestApplied condition" },
      by decide, by decide, by decide, by decide, by decide⟩

/-- C13 as stated fails: the addon `cluster1/test` of the test case `no work applied condition`
exists, is owned and has no ManifestApplied condition; reconciled under its own key
`cluster1/test` it receives one patch on `status`. (Under the key `test/test` that the test case
uses the addon is not found, which is why the test case sees no action.) -/
theorem C13_waiting_patch_counterexample :
    (testSyncEnv [testNewAddon] []).managedClusterAddonLister "cluster1" "test"
      = GetResult.found testNewAddon ∧
    FindStatusCondition testNewAddon.Status.Conditions ManagedClusterAddOnManifestApplied = none ∧
    (∃ action, (sync (testSyncEnv [testNewAddon] []) "cluster1/test").1 = [action] ∧
      action.Subresource = "status" ∧
      PatchAction.patchConditions action =
        some [{ Type_ := ManagedClusterAddOnConditionProgressing, Status := ConditionFalse
                LastTransitionTime := 2, Reason := "WaitingForManifestApplied"
                Message := "Waiting for ManagedClusterAddOn ManifestApplied condition" }]) ∧
    sync (testSyncEnv [testNewAddon] []) "test/test" = ([], none) := by
  refine ⟨rfl, by decide, ⟨_, rfl, by decide, by decide⟩, by decide⟩

/-- C17, as the code has it: for an addon with supported configuration, a ManifestApplied
condition and at least one config reference, in which every last applied config equals its
desired config, a run leaves the addon, and with it the Progressing condition, as it is,
whatever the lister answers; the reconcile then makes no client call. -/
theorem C17_freeze_on_converged (env : Env) (newaddon oldaddon : ManagedClusterAddOn)
    (hsupported : (isConfigurationSupported newaddon).1 = true)
    (happlied : FindStatusCondition newaddon.Status.Conditions
      ManagedClusterAddOnManifestApplied ≠ none)
    (hrefs : newaddon.Status.ConfigReferences ≠ [])
    (hconverged : ∀ r ∈ newaddon.Status.ConfigReferences,
      r.LastAppliedConfig = r.DesiredConfig) :
    (updateAddonProgressingAndLastApplied env newaddon oldaddon).addon = newaddon ∧
    FindStatusCondition
        (updateAddonProgressingAndLastApplied env newaddon oldaddon).addon.Status.Conditions
        ManagedClusterAddOnConditionProgressing
      = FindStatusCondition newaddon.Status.Conditions ManagedClusterAddOnConditionProgressing ∧
    (updateAddonProgressingAndLastApplied env newaddon newaddon).actions = [] ∧
    (updateAddonProgressingAndLastApplied env newaddon newaddon).err = none := by
  have hskip := skip_true_of_all_equal hrefs hconverged
  have haddon : ∀ old, (updateAddonProgressingAndLastApplied env newaddon old).addon
      = newaddon := by
    intro old
    rw [update_of_gates old hsupported happlied]
    exact setAddOn_of_skip hskip
  have hcalls := update_actions env newaddon newaddon
  rw [haddon newaddon, patch_of_status_eq _ rfl] at hcalls
  exact ⟨haddon oldaddon, by rw [haddon oldaddon], hcalls.1, hcalls.2⟩

/-- Witness of C17: the installed and converged addon keeps its condition when its work is no
longer available. -/
theorem C17_freeze_on_converged_witness :
    (updateAddonProgressingAndLastApplied (testEnv [testWork "hashnew" "True" "False"])
      (testInstalledAddon [testConfigReference "hashnew"])
      (testInstalledAddon [testConfigReference "hashnew"])).addon
      = testInstalledAddon [testConfigReference "hashnew"] :=
  (C17_freeze_on_converged (testEnv [testWork "hashnew" "True" "False"])
    (testInstalledAddon [testConfigReference "hashnew"])
    (testInstalledAddon [testConfigReference "hashnew"])
    (by decide) (by decide) (by decide) (by decide)).1

/-- C17 as stated fails, in three ways. An installed addon without config references (every
config reference, there being none, has its last applied config equal to the desired one) whose
works are gone gets Progressing True with reason Installing. A converged addon whose spec asks
for an unsupported configuration gets the reason ConfigurationUnsupported. A converged addon
without ManifestApplied condition gets the reason WaitingForManifestApplied. -/
theorem C17_freeze_counterexample :
    ((∀ r ∈ (testInstalledAddon []).Status.ConfigReferences,
        r.LastAppliedConfig = r.DesiredConfig) ∧
      FindStatusCondition (testInstalledAddon []).Status.Conditions
        ManagedClusterAddOnConditionProgressing = some testInstallSucceed ∧
      FindStatusCondition
        (updateAddonProgressingAndLastApplied (testEnv []) (testInstalledAddon [])
          (testInstalledAddon [])).addon.Status.Conditions
        ManagedClusterAddOnConditionProgressing
        = some { Type_ := ManagedClusterAddOnConditionProgressing, Status := ConditionTrue
                 LastTransitionTime := 2, Reason := ProgressingReasonInstalling
                 Message := "installing... no addon works" }) ∧
    ((∀ r ∈ testConvergedUnsupportedAddon.Status.ConfigReferences,
        r.LastAppliedConfig = r.DesiredConfig) ∧
      FindStatusCondition testConvergedUnsupportedAddon.Status.Conditions
        ManagedClusterAddOnConditionProgressing = some testInstallSucceed ∧
      FindStatusCondition
        (updateAddonProgressingAndLastApplied (testEnv []) testConvergedUnsupportedAddon
          testConvergedUnsupportedAddon).addon.Status.Conditions
        ManagedClusterAddOnConditionProgressing
        = some { testInstallSucceed with
                 Reason := ProgressingReasonConfigurationUnsupported
                 Message := "Configuration with gvr config1.test/config1 is not supported "
                   ++ "for this addon" }) ∧
    ((∀ r ∈ testConvergedUnappliedAddon.Status.ConfigReferences,
        r.LastAppliedConfig = r.DesiredConfig) ∧
      FindStatusCondition testConvergedUnappliedAddon.Status.Conditions
        ManagedClusterAddOnConditionProgressing = some testInstallSucceed ∧
      FindStatusCondition
        (updateAddonProgressingAndLastApplied (testEnv []) testConvergedUnappliedAddon
          testConvergedUnappliedAddon).addon.Status.Conditions
        ManagedClusterAddOnConditionProgressing
        = some { testInstallSucceed with
                 Reason := "WaitingForManifestApplied"
                 Message := "Waiting for ManagedClusterAddOn ManifestApplied condition" }) := by
  refine ⟨⟨by decide, by decide, by decide⟩, ⟨by decide, by decide, by decide⟩,
    ⟨by decide, by decide, by decide⟩⟩

/-- C18, as the code has it: for an addon with supported configuration and a ManifestApplied
condition, whatever its Progressing condition is (in particular when it has a Succeed reason),
and to which the write-skip does not apply (no config reference, or some last applied config
different from its desired config), if a listed work that is not a pre-delete hook work fails the
hash match or is not ready, the resulting Progressing condition has status True and reason
Installing or Upgrading, so no Succeed reason. -/
theorem C18_succeed_not_sticky (env : Env) (newaddon oldaddon : ManagedClusterAddOn)
    (works : List ManifestWork)
    (hsupported : (isConfigurationSupported newaddon).1 = true)
    (happlied : FindStatusCondition newaddon.Status.Conditions
      ManagedClusterAddOnManifestApplied ≠ none)
    (hnoskip : newaddon.Status.ConfigReferences = [] ∨
      ∃ r ∈ newaddon.Status.ConfigReferences, r.LastAppliedConfig ≠ r.DesiredConfig)
    (hlist : env.workLister newaddon.Namespace newaddon.Name = Except.ok works)
    (hfail : ∃ work ∈ works,
      HasPrefix work.Name (env.PreDeleteHookWorkName newaddon.Name) = false ∧
        (workConfigsMatchesAddon work newaddon = false ∨ workIsReady work = false)) :
    ∃ c, FindStatusCondition
        (updateAddonProgressingAndLastApplied env newaddon oldaddon).addon.Status.Conditions
        ManagedClusterAddOnConditionProgressing = some c ∧
      c.Status = ConditionTrue ∧
      (c.Reason = ProgressingReasonInstalling ∨ c.Reason = ProgressingReasonUpgrading) ∧
      c.Reason ≠ ProgressingReasonInstallSucceed ∧
      c.Reason ≠ ProgressingReasonUpgradeSucceed := by
  have hne : works ≠ [] := by
    obtain ⟨work, hmem, _⟩ := hfail
    exact List.ne_nil_of_mem hmem
  have hskip := (skip_false_iff newaddon).mpr hnoskip
  rw [update_of_listed oldaddon hsupported happlied hlist hne]
  cases hcheck : checkAddonWorks (env.PreDeleteHookWorkName newaddon.Name) newaddon works with
  | none =>
    exfalso
    obtain ⟨work, hmem, hpre, hbad⟩ := hfail
    have := (checkAddonWorks_none_iff _ _ _).mp hcheck work hmem hpre
    rcases hbad with hbad | hbad
    · rw [this.1] at hbad; cases hbad
    · rw [this.2] at hbad; cases hbad
  | some message =>
    simp only [patchAndReturn]
    obtain ⟨c, hc, hstatus, hreason, _⟩ :=
      setAddOn_condition env.now (isUpgradeFlag newaddon) ProgressingDoing message hskip
    have hpc := progressingCondition_doing (isUpgradeFlag newaddon) message
    refine ⟨c, hc, hstatus.trans hpc.1, ?_, ?_, ?_⟩
    · rw [hreason, hpc.2.1]
      cases isUpgradeFlag newaddon
      · left; rfl
      · right; rfl
    · rw [hreason, hpc.2.1]
      cases isUpgradeFlag newaddon <;> decide
    · rw [hreason, hpc.2.1]
      cases isUpgradeFlag newaddon <;> decide

/-- Witness of C18: an installed addon whose desired hash moved on to `hashnew` while `hash` is
applied, with a work that is not available: the condition becomes Upgrading. -/
theorem C18_succeed_not_sticky_witness :
    ∃ c, FindStatusCondition
        (updateAddonProgressingAndLastApplied (testEnv [testWork "hashnew" "True" "False"])
          (testInstalledAddon [testConfigReference "hash"])
          (testInstalledAddon [testConfigReference "hash"])).addon.Status.Conditions
        ManagedClusterAddOnConditionProgressing = some c ∧
      c.Status = ConditionTrue ∧
      (c.Reason = ProgressingReasonInstalling ∨ c.Reason = ProgressingReasonUpgrading) ∧
      c.Reason ≠ ProgressingReasonInstallSucceed ∧
      c.Reason ≠ ProgressingReasonUpgradeSucceed :=
  C18_succeed_not_sticky (testEnv [testWork "hashnew" "True" "False"])
    (testInstalledAddon [testConfigReference "hash"])
    (testInstalledAddon [testConfigReference "hash"])
    [testWork "hashnew" "True" "False"] (by decide) (by decide)
    (Or.inr ⟨testConfigReference "hash", by decide, by decide⟩) rfl
    ⟨testWork "hashnew" "True" "False", by decide, by decide, Or.inr (by decide)⟩

/-- C18 as stated fails: the installed addon `cluster1/test` (Progressing has the reason
InstallSucceed, last applied hash equal to the desired `hashnew`) has supported configuration and
a ManifestApplied condition; its work, not a pre-delete hook work, is not available, so not
ready. The state Doing is chosen, the write-skip applies, and the Progressing condition keeps
the reason InstallSucceed. -/
theorem C18_sticky_counterexample :
    (isConfigurationSupported (testInstalledAddon [testConfigReference "hashnew"])).1 = true ∧
    FindStatusCondition (testInstalledAddon [testConfigReference "hashnew"]).Status.Conditions
      ManagedClusterAddOnManifestApplied ≠ none ∧
    FindStatusCondition (testInstalledAddon [testConfigReference "hashnew"]).Status.Conditions
      ManagedClusterAddOnConditionProgressing = some testInstallSucceed ∧
    (testEnv [testWork "hashnew" "True" "False"]).workLister "cluster1" "test"
      = Except.ok [testWork "hashnew" "True" "False"] ∧
    HasPrefix (testWork "hashnew" "True" "False").Name
      ((testEnv [testWork "hashnew" "True" "False"]).PreDeleteHookWorkName "test") = false ∧
    workIsReady (testWork "hashnew" "True" "False") = false ∧
    (updateAddonProgressingAndLastApplied (testEnv [testWork "hashnew" "True" "False"])
      (testInstalledAddon [testConfigReference "hashnew"])
      (testInstalledAddon [testConfigReference "hashnew"])).state = some ProgressingDoing ∧
    FindStatusCondition
      (updateAddonProgressingAndLastApplied (testEnv [testWork "hashnew" "True" "False"])
        (testInstalledAddon [testConfigReference "hashnew"])
        (testInstalledAddon [testConfigReference "hashnew"])).addon.Status.Conditions
      ManagedClusterAddOnConditionProgressing = some testInstallSucceed := by
  refine ⟨by decide, by decide, by decide, rfl, by decide, by decide, by decide, by decide⟩

/-! ## The claims, third part -/

/-- C30: `GetHostedManifestLocation` returns `("", false, nil)` when the hosted-manifest-location
label is absent, `(v, true, nil)` when it is present with a value `v` among `managed`, `hosting`
and `none`, and `("", true, err)` with a non-nil error when it is present with another value;
so it returns an error if and only if the label is present with an invalid value. -/
theorem C30_hosted_manifest_location (labels : GoMap) :
    (GoMap.get labels HostedManifestLocationLabel = none →
      GetHostedManifestLocation labels = ("", false, none)) ∧
    (∀ v, GoMap.get labels HostedManifestLocationLabel = some v →
      (v = "managed" ∨ v = "hosting" ∨ v = "none") →
      GetHostedManifestLocation labels = (v, true, none)) ∧
    (∀ v, GoMap.get labels HostedManifestLocationLabel = some v →
      ¬ (v = "managed" ∨ v = "hosting" ∨ v = "none") →
      ∃ err, GetHostedManifestLocation labels = ("", true, some err) ∧
        err = "not supported manifest location: " ++ v) ∧
    ((GetHostedManifestLocation labels).2.2 ≠ none ↔
      ∃ v, GoMap.get labels HostedManifestLocationLabel = some v ∧
        ¬ (v = "managed" ∨ v = "hosting" ∨ v = "none")) := by
  have hdef : ∀ location, GoMap.get labels HostedManifestLocationLabel = some location →
      GetHostedManifestLocation labels =
        if location = "managed" ∨ location = "hosting" ∨ location = "none" then
          (location, true, none)
        else ("", true, some ("not supported manifest location: " ++ location)) := by
    intro location h
    unfold GetHostedManifestLocation
    rw [h]
    rfl
  refine ⟨?_, ?_, ?_, ?_⟩
  · intro h
    unfold GetHostedManifestLocation
    rw [h]
  · intro v h hv
    rw [hdef v h, if_pos hv]
  · intro v h hv
    rw [hdef v h, if_neg hv]
    exact ⟨_, rfl, rfl⟩
  · constructor
    · intro herr
      cases h : GoMap.get labels HostedManifestLocationLabel with
      | none =>
        exfalso
        apply herr
        unfold GetHostedManifestLocation
        rw [h]
      | some v =>
        refine ⟨v, rfl, ?_⟩
        intro hv
        apply herr
        rw [hdef v h, if_pos hv]
    · rintro ⟨v, h, hv⟩
      rw [hdef v h, if_neg hv]
      simp

/-- Witness of C30: a label map with the value `hosting`, and one with the value `hub`. -/
theorem C30_hosted_manifest_location_witness :
    GetHostedManifestLocation [(HostedManifestLocationLabel, "hosting")]
      = ("hosting", true, none) ∧
    ∃ err, GetHostedManifestLocation [(HostedManifestLocationLabel, "hub")]
        = ("", true, some err) ∧
      err = "not supported manifest location: " ++ "hub" :=
  ⟨(C30_hosted_manifest_location [(HostedManifestLocationLabel, "hosting")]).2.1 "hosting"
      (by decide) (Or.inr (Or.inl rfl)),
    (C30_hosted_manifest_location [(HostedManifestLocationLabel, "hub")]).2.2.1 "hub"
      (by decide) (by decide)⟩

theorem chosenState_of_error {env : Env} {newaddon : ManagedClusterAddOn} {err : String}
    (h : env.workLister newaddon.Namespace newaddon.Name = Except.error err) :
    chosenState env newaddon = (ProgressingFailed, err) := by
  unfold chosenState
  rw [h]

theorem chosenState_of_ok {env : Env} {newaddon : ManagedClusterAddOn}
    {works : List ManifestWork}
    (h : env.workLister newaddon.Namespace newaddon.Name = Except.ok works) :
    (chosenState env newaddon).1 = ProgressingDoing ∨
    (chosenState env newaddon).1 = ProgressingSucceed := by
  unfold chosenState
  rw [h]
  simp only
  split
  · exact Or.inl rfl
  · cases checkAddonWorks (env.PreDeleteHookWorkName newaddon.Name) newaddon works with
    | none => exact Or.inr rfl
    | some message => exact Or.inl rfl

/-- A run stopped by a gate chooses no state. -/
theorem update_state_none_of_gate (env : Env) (newaddon oldaddon : ManagedClusterAddOn)
    (h : (isConfigurationSupported newaddon).1 = false ∨
      FindStatusCondition newaddon.Status.Conditions ManagedClusterAddOnManifestApplied = none) :
    (updateAddonProgressingAndLastApplied env newaddon oldaddon).state = none := by
  rcases isConfigurationSupported_cases newaddon with hs | ⟨config, hs⟩
  · rcases h with h | h
    · rw [hs] at h; cases h
    · rw [update_of_waiting oldaddon (by rw [hs]) h]
      rfl
  · rw [update_of_unsupported oldaddon hs]
    rfl

/-- C22: the state Failed is chosen if and only if the run lists the works (both gates are
passed) and the lister returns an error. Then the message is the error text,
`status.configReferences` is unchanged and, when the write-skip does not apply, the Progressing
condition has status False, reason InstallFailed or UpgradeFailed and the error text as message.
When the lister succeeds the state is never Failed: after the gates it is Doing or Succeed,
whatever the works contain. -/
theorem C22_failed_iff_list_error (env : Env) (newaddon oldaddon : ManagedClusterAddOn) :
    ((updateAddonProgressingAndLastApplied env newaddon oldaddon).state
        = some ProgressingFailed ↔
      (isConfigurationSupported newaddon).1 = true ∧
      FindStatusCondition newaddon.Status.Conditions ManagedClusterAddOnManifestApplied ≠ none ∧
      ∃ err, env.workLister newaddon.Namespace newaddon.Name = Except.error err) ∧
    (∀ err, (isConfigurationSupported newaddon).1 = true →
      FindStatusCondition newaddon.Status.Conditions ManagedClusterAddOnManifestApplied ≠ none →
      env.workLister newaddon.Namespace newaddon.Name = Except.error err →
      (updateAddonProgressingAndLastApplied env newaddon oldaddon).message = err ∧
      (updateAddonProgressingAndLastApplied env newaddon oldaddon).addon.Status.ConfigReferences
        = newaddon.Status.ConfigReferences ∧
      (skipProgressingUpdate newaddon = false →
        ∃ c, FindStatusCondition
            (updateAddonProgressingAndLastApplied env newaddon oldaddon).addon.Status.Conditions
            ManagedClusterAddOnConditionProgressing = some c ∧
          c.Status = ConditionFalse ∧
          (c.Reason = ProgressingReasonInstallFailed ∨
            c.Reason = ProgressingReasonUpgradeFailed) ∧
          c.Message = err)) ∧
    (∀ works, env.workLister newaddon.Namespace newaddon.Name = Except.ok works →
      (updateAddonProgressingAndLastApplied env newaddon oldaddon).state
        ≠ some ProgressingFailed ∧
      ((isConfigurationSupported newaddon).1 = true →
        FindStatusCondition newaddon.Status.Conditions
          ManagedClusterAddOnManifestApplied ≠ none →
        (updateAddonProgressingAndLastApplied env newaddon oldaddon).state
            = some ProgressingDoing ∨
          (updateAddonProgressingAndLastApplied env newaddon oldaddon).state
            = some ProgressingSucceed)) := by
  have hgate : ∀ (hs : (isConfigurationSupported newaddon).1 = true)
      (ha : FindStatusCondition newaddon.Status.Conditions
        ManagedClusterAddOnManifestApplied ≠ none),
      (updateAddonProgressingAndLastApplied env newaddon oldaddon).state
        = some (chosenState env newaddon).1 := by
    intro hs ha
    rw [update_of_gates oldaddon hs ha]
    rfl
  have hok : ∀ works, env.workLister newaddon.Namespace newaddon.Name = Except.ok works →
      (updateAddonProgressingAndLastApplied env newaddon oldaddon).state
        ≠ some ProgressingFailed := by
    intro works hlist hfailed
    by_cases hs : (isConfigurationSupported newaddon).1 = true
    · by_cases ha : FindStatusCondition newaddon.Status.Conditions
          ManagedClusterAddOnManifestApplied = none
      · rw [update_state_none_of_gate env newaddon oldaddon (Or.inr ha)] at hfailed
        cases hfailed
      · rw [hgate hs ha] at hfailed
        rcases chosenState_of_ok hlist with h | h
        · rw [h] at hfailed; revert hfailed; decide
        · rw [h] at hfailed; revert hfailed; decide
    · rw [update_state_none_of_gate env newaddon oldaddon
        (Or.inl (by simpa using hs))] at hfailed
      cases hfailed
  refine ⟨⟨?_, ?_⟩, ?_, ?_⟩
  · intro hfailed
    by_cases hs : (isConfigurationSupported newaddon).1 = true
    · by_cases ha : FindStatusCondition newaddon.Status.Conditions
          ManagedClusterAddOnManifestApplied = none
      · rw [update_state_none_of_gate env newaddon oldaddon (Or.inr ha)] at hfailed
        cases hfailed
      · refine ⟨hs, ha, ?_⟩
        cases hlist : env.workLister newaddon.Namespace newaddon.Name with
        | error err => exact ⟨err, rfl⟩
        | ok works => exact absurd hfailed (hok works hlist)
    · rw [update_state_none_of_gate env newaddon oldaddon
        (Or.inl (by simpa using hs))] at hfailed
      cases hfailed
  · rintro ⟨hs, ha, err, hlist⟩
    rw [hgate hs ha, chosenState_of_error hlist]
  · intro err hs ha hlist
    rw [update_of_gates oldaddon hs ha, chosenState_of_error hlist]
    simp only [patchAndReturn]
    refine ⟨trivial, setAddOn_refs_of_ne (by decide), ?_⟩
    intro hskip
    obtain ⟨c, hc, hstatus, hreason, hmessage⟩ :=
      setAddOn_condition env.now (isUpgradeFlag newaddon) ProgressingFailed err hskip
    have hpc := progressingCondition_failed (isUpgradeFlag newaddon) err
    refine ⟨c, hc, hstatus.trans hpc.1, ?_, hmessage.trans hpc.2.2⟩
    rw [hreason, hpc.2.1]
    cases isUpgradeFlag newaddon
    · left; rfl
    · right; rfl
  · intro works hlist
    refine ⟨hok works hlist, ?_⟩
    intro hs ha
    rw [hgate hs ha]
    rcases chosenState_of_ok hlist with h | h
    · left; rw [h]
    · right; rw [h]

/-- Witness of C22: the addon of the test cases with a lister that fails. -/
theorem C22_failed_iff_list_error_witness :
    (updateAddonProgressingAndLastApplied
      { testEnv [] with workLister := fun _ _ => Except.error "cache not synced" }
      (testAddon [testConfigReference ""]) (testAddon [testConfigReference ""])).state
      = some ProgressingFailed :=
  (C22_failed_iff_list_error
    { testEnv [] with workLister := fun _ _ => Except.error "cache not synced" }
    (testAddon [testConfigReference ""]) (testAddon [testConfigReference ""])).1.mpr
    ⟨by decide, by decide, "cache not synced", rfl⟩

/-- A run either makes no call and returns no error, or makes one call and returns what the
client answered. -/
theorem update_actions_cases (env : Env) (newaddon oldaddon : ManagedClusterAddOn) :
    ((updateAddonProgressingAndLastApplied env newaddon oldaddon).actions = [] ∧
      (updateAddonProgressingAndLastApplied env newaddon oldaddon).err = none) ∨
    (∃ action,
      (updateAddonProgressingAndLastApplied env newaddon oldaddon).actions = [action] ∧
      (updateAddonProgressingAndLastApplied env newaddon oldaddon).err
        = env.addonClientPatch action) := by
  obtain ⟨hactions, herr⟩ := update_actions env newaddon oldaddon
  rw [hactions, herr]
  by_cases h : (updateAddonProgressingAndLastApplied env newaddon oldaddon).addon.Status
      = oldaddon.Status
  · left
    rw [patch_of_status_eq env h]
    exact ⟨rfl, rfl⟩
  · right
    obtain ⟨action, haction, _⟩ := patch_of_status_ne env h
    rw [haction]
    exact ⟨action, rfl, rfl⟩

/-- What `sync` does in each case of its reads. -/
theorem sync_cases (env : SyncEnv) (key : String) :
    ((sync env key).1 = [] ∧
      ((sync env key).2 = none ∨
        (∃ ns name, SplitMetaNamespaceKey key = some (ns, name) ∧
          (env.managedClusterAddonLister ns name = GetResult.failed ((sync env key).2.getD "") ∨
            env.clusterManagementAddonLister name
              = GetResult.failed ((sync env key).2.getD ""))))) ∨
    (∃ addon, sync env key =
      ((updateAddonProgressingAndLastApplied env.toEnv addon addon).actions,
        (updateAddonProgressingAndLastApplied env.toEnv addon addon).err)) := by
  unfold sync
  cases hkey : SplitMetaNamespaceKey key with
  | none => exact Or.inl ⟨rfl, Or.inl rfl⟩
  | some pair =>
    obtain ⟨ns, name⟩ := pair
    simp only
    cases haddon : env.managedClusterAddonLister ns name with
    | notFound => exact Or.inl ⟨rfl, Or.inl rfl⟩
    | failed err => exact Or.inl ⟨rfl, Or.inr ⟨ns, name, rfl, Or.inl haddon⟩⟩
    | found addon =>
      simp only
      cases hcma : env.clusterManagementAddonLister name with
      | notFound => exact Or.inl ⟨rfl, Or.inl rfl⟩
      | failed err => exact Or.inl ⟨rfl, Or.inr ⟨ns, name, rfl, Or.inr hcma⟩⟩
      | found cma =>
        simp only
        cases hfilter : env.addonFilterFunc cma with
        | false => exact Or.inl ⟨rfl, Or.inl rfl⟩
        | true => exact Or.inr ⟨addon, rfl⟩

/-- C24: a failed status write is never dropped. In every branch of
`updateAddonProgressingAndLastApplied` at most one patch is issued; when a patch is issued and
the client returns an error, the run returns that error, and so does `sync`; when no patch is
issued, or the client accepts the patch, the run returns nil, whatever state was chosen. -/
theorem C24_write_error_returned (env : SyncEnv) (key : String)
    (newaddon oldaddon : ManagedClusterAddOn) :
    (updateAddonProgressingAndLastApplied env.toEnv newaddon oldaddon).actions.length ≤ 1 ∧
    (∀ action err,
      action ∈ (updateAddonProgressingAndLastApplied env.toEnv newaddon oldaddon).actions →
      env.addonClientPatch action = some err →
      (updateAddonProgressingAndLastApplied env.toEnv newaddon oldaddon).err = some err) ∧
    ((updateAddonProgressingAndLastApplied env.toEnv newaddon oldaddon).actions = [] →
      (updateAddonProgressingAndLastApplied env.toEnv newaddon oldaddon).err = none) ∧
    ((∀ action,
        action ∈ (updateAddonProgressingAndLastApplied env.toEnv newaddon oldaddon).actions →
        env.addonClientPatch action = none) →
      (updateAddonProgressingAndLastApplied env.toEnv newaddon oldaddon).err = none) ∧
    (∀ action err, action ∈ (sync env key).1 → env.addonClientPatch action = some err →
      (sync env key).2 = some err) := by
  have hrun : ∀ (a b : ManagedClusterAddOn),
      (∀ action err,
        action ∈ (updateAddonProgressingAndLastApplied env.toEnv a b).actions →
        env.addonClientPatch action = some err →
        (updateAddonProgressingAndLastApplied env.toEnv a b).err = some err) := by
    intro a b action err hmem hclient
    rcases update_actions_cases env.toEnv a b with ⟨hnil, _⟩ | ⟨action1, hone, herr⟩
    · rw [hnil] at hmem
      cases hmem
    · rw [hone] at hmem
      rw [List.mem_singleton] at hmem
      rw [herr, ← hmem, hclient]
  refine ⟨?_, hrun newaddon oldaddon, ?_, ?_, ?_⟩
  · rcases update_actions_cases env.toEnv newaddon oldaddon with ⟨hnil, _⟩ | ⟨action1, hone, _⟩
    · rw [hnil]
      exact Nat.zero_le 1
    · rw [hone]
      exact Nat.le_refl 1
  · intro hnil
    rcases update_actions_cases env.toEnv newaddon oldaddon with ⟨_, herr⟩ | ⟨action1, hone, _⟩
    · exact herr
    · rw [hone] at hnil
      cases hnil
  · intro hall
    rcases update_actions_cases env.toEnv newaddon oldaddon with ⟨_, herr⟩ | ⟨action1, hone, herr⟩
    · exact herr
    · rw [herr]
      exact hall action1 (by rw [hone]; exact List.mem_singleton.mpr rfl)
  · intro action err hmem hclient
    rcases sync_cases env key with ⟨hnil, _⟩ | ⟨addon, hsync⟩
    · rw [hnil] at hmem
      cases hmem
    · rw [hsync] at hmem ⊢
      exact hrun addon addon action err hmem hclient

/-- Witness of C24: the first run on the addon of the test cases with a client that rejects
every patch returns the error of the client. -/
theorem C24_write_error_returned_witness :
    (updateAddonProgressingAndLastApplied
      { testEnv [] with addonClientPatch := fun _ => some "conflict" }
      (testAddon [testConfigReference ""]) (testAddon [testConfigReference ""])).err
      = some "conflict" :=
  (C24_write_error_returned
    { toEnv := { testEnv [] with addonClientPatch := fun _ => some "conflict" }
      managedClusterAddonLister := fun _ _ => GetResult.notFound
      clusterManagementAddonLister := fun _ => GetResult.notFound
      addonFilterFunc := fun _ => true }
    "cluster1/test"
    (testAddon [testConfigReference ""]) (testAddon [testConfigReference ""])).2.1
    { Namespace := "cluster1", Name := "test", Subresource := "status"
      oldData :=
        { ConfigReferences := [testConfigReference ""], Conditions := [testManifestApplied] }
      newData :=
        { ConfigReferences := [testConfigReference ""]
          Conditions :=
            SetStatusCondition 2 [testManifestApplied]
              (progressingCondition false ProgressingDoing "no addon works") } }
    "conflict" (by decide) rfl

/-- C25: `sync` returns nil and issues no patch when the key cannot be split into namespace and
name, when the addon is not found, when the cluster management addon of that name is not found,
or when the filter rejects the cluster management addon; a read error other than not-found is
returned as the error, again without a patch. -/
theorem C25_sync_skips_missing_objects (env : SyncEnv) (key : String) :
    (SplitMetaNamespaceKey key = none → sync env key = ([], none)) ∧
    (∀ ns name, SplitMetaNamespaceKey key = some (ns, name) →
      (env.managedClusterAddonLister ns name = GetResult.notFound →
        sync env key = ([], none)) ∧
      (∀ err, env.managedClusterAddonLister ns name = GetResult.failed err →
        sync env key = ([], some err)) ∧
      (∀ addon, env.managedClusterAddonLister ns name = GetResult.found addon →
        (env.clusterManagementAddonLister name = GetResult.notFound →
          sync env key = ([], none)) ∧
        (∀ err, env.clusterManagementAddonLister name = GetResult.failed err →
          sync env key = ([], some err)) ∧
        (∀ clusterManagementAddon,
          env.clusterManagementAddonLister name = GetResult.found clusterManagementAddon →
          env.addonFilterFunc clusterManagementAddon = false →
          sync env key = ([], none)))) := by
  refine ⟨?_, ?_⟩
  · intro hkey
    unfold sync
    rw [hkey]
  · intro ns name hkey
    refine ⟨?_, ?_, ?_⟩
    · intro h
      unfold sync
      rw [hkey]
      simp only
      rw [h]
    · intro err h
      unfold sync
      rw [hkey]
      simp only
      rw [h]
    · intro addon haddon
      refine ⟨?_, ?_, ?_⟩
      · intro h
        unfold sync
        rw [hkey]
        simp only
        rw [haddon]
        simp only
        rw [h]
      · intro err h
        unfold sync
        rw [hkey]
        simp only
        rw [haddon]
        simp only
        rw [h]
      · intro cma h hfilter
        unfold sync
        rw [hkey]
        simp only
        rw [haddon]
        simp only
        rw [h]
        simp only
        rw [hfilter]
        rfl

/-- Witness of C25: the test case without any addon, and a key with two slashes. -/
theorem C25_sync_skips_missing_objects_witness :
    sync (testSyncEnv [] []) "cluster1/test" = ([], none) ∧
    sync (testSyncEnv [testAddon []] []) "a/b/c" = ([], none) :=
  ⟨((C25_sync_skips_missing_objects (testSyncEnv [] []) "cluster1/test").2
      "cluster1" "test" (by decide)).1 rfl,
    (C25_sync_skips_missing_objects (testSyncEnv [testAddon []] []) "a/b/c").1 (by decide)⟩

/-! ## What a run writes -/

theorem updateExistingCondition_fields (now : Time) (existing newCondition : Condition) :
    (updateExistingCondition now existing newCondition).Status = newCondition.Status ∧
    (updateExistingCondition now existing newCondition).Reason = newCondition.Reason ∧
    (updateExistingCondition now existing newCondition).Message = newCondition.Message := by
  unfold updateExistingCondition
  by_cases h : existing.Status = newCondition.Status
  · simp [h]
  · simp [h]

theorem updateFirstCondition_shape (now : Time) (newCondition : Condition)
    (conditions : List Condition)
    (h : FindStatusCondition conditions newCondition.Type_ ≠ none) :
    ∃ pre c post, conditions = pre ++ c :: post ∧
      (∀ d ∈ pre, d.Type_ ≠ newCondition.Type_) ∧ c.Type_ = newCondition.Type_ ∧
      updateFirstCondition now newCondition conditions
        = pre ++ updateExistingCondition now c newCondition :: post := by
  induction conditions with
  | nil => exact absurd rfl h
  | cons d rest ih =>
    by_cases hd : d.Type_ = newCondition.Type_
    · refine ⟨[], d, rest, rfl, ?_, hd, ?_⟩
      · intro e he
        cases he
      · rw [updateFirstCondition_cons, if_pos hd]
        rfl
    · rw [findStatusCondition_cons, if_neg hd] at h
      obtain ⟨pre, c, post, hsplit, hpre, hc, hupdate⟩ := ih h
      refine ⟨d :: pre, c, post, ?_, ?_, hc, ?_⟩
      · rw [hsplit]
        rfl
      · intro e he
        rcases List.mem_cons.mp he with rfl | he
        · exact hd
        · exact hpre e he
      · rw [updateFirstCondition_cons, if_neg hd, hupdate]
        rfl

/-- The two ways `SetStatusCondition` changes a list: a condition of a new type is appended,
the first condition of an existing type is updated where it stands. -/
theorem setStatusCondition_shape (now : Time) (conditions : List Condition)
    (newCondition : Condition) :
    (FindStatusCondition conditions newCondition.Type_ = none ∧
      ∃ c, c.Type_ = newCondition.Type_ ∧
        SetStatusCondition now conditions newCondition = conditions ++ [c]) ∨
    (∃ pre c c2 post, conditions = pre ++ c :: post ∧
      (∀ d ∈ pre, d.Type_ ≠ newCondition.Type_) ∧ c.Type_ = newCondition.Type_ ∧
      c2.Type_ = newCondition.Type_ ∧
      SetStatusCondition now conditions newCondition = pre ++ c2 :: post) := by
  unfold SetStatusCondition
  cases hfind : FindStatusCondition conditions newCondition.Type_ with
  | none =>
    left
    refine ⟨rfl, _, ?_, rfl⟩
    split <;> rfl
  | some found =>
    right
    obtain ⟨pre, c, post, hsplit, hpre, hc, hupdate⟩ :=
      updateFirstCondition_shape now newCondition conditions (by rw [hfind]; exact nofun)
    exact ⟨pre, c, _, post, hsplit, hpre, hc,
      (updateExistingCondition_type now c newCondition).trans hc, hupdate⟩

theorem setStatusCondition_filter (now : Time) (conditions : List Condition)
    (newCondition : Condition) :
    (SetStatusCondition now conditions newCondition).filter
        (fun c => c.Type_ ≠ newCondition.Type_)
      = conditions.filter (fun c => c.Type_ ≠ newCondition.Type_) := by
  rcases setStatusCondition_shape now conditions newCondition with
    ⟨_, c, hc, hset⟩ | ⟨pre, c, c2, post, hsplit, _, hc, hc2, hset⟩
  · rw [hset, List.filter_append]
    simp [hc]
  · rw [hset, hsplit, List.filter_append, List.filter_append]
    simp [hc, hc2]

theorem setStatusCondition_length (now : Time) (conditions : List Condition)
    (newCondition : Condition) :
    conditions.length ≤ (SetStatusCondition now conditions newCondition).length ∧
    (SetStatusCondition now conditions newCondition).length ≤ conditions.length + 1 := by
  rcases setStatusCondition_shape now conditions newCondition with
    ⟨_, c, hc, hset⟩ | ⟨pre, c, c2, post, hsplit, _, hc, hc2, hset⟩
  · rw [hset]
    simp
  · rw [hset, hsplit]
    simp

/-- What a run leaves in `newaddon`: either nothing changes, or the conditions are those of
`SetStatusCondition` with a Progressing condition of one of the eight reasons and the config
references are the old ones, possibly with the last applied configs set to the desired ones. -/
theorem update_written (env : Env) (newaddon oldaddon : ManagedClusterAddOn) :
    (updateAddonProgressingAndLastApplied env newaddon oldaddon).addon = newaddon ∨
    ∃ cond refs,
      (updateAddonProgressingAndLastApplied env newaddon oldaddon).addon =
        { newaddon with
          Status := { newaddon.Status with
            ConfigReferences := refs
            Conditions := SetStatusCondition env.now newaddon.Status.Conditions cond } } ∧
      (refs = newaddon.Status.ConfigReferences ∨
        refs = newaddon.Status.ConfigReferences.map
          (fun configReference =>
            { configReference with LastAppliedConfig := configReference.DesiredConfig })) ∧
      cond.Type_ = ManagedClusterAddOnConditionProgressing ∧
      ((cond.Status = ConditionTrue ∧
        (cond.Reason = ProgressingReasonInstalling ∨ cond.Reason = ProgressingReasonUpgrading)) ∨
      (cond.Status = ConditionFalse ∧
        (cond.Reason = ProgressingReasonInstallSucceed ∨ cond.Reason = ProgressingReasonUpgradeSucceed ∨
          cond.Reason = ProgressingReasonInstallFailed ∨ cond.Reason = ProgressingReasonUpgradeFailed ∨
          cond.Reason = ProgressingReasonConfigurationUnsupported ∨
          cond.Reason = "WaitingForManifestApplied"))) := by
  rcases isConfigurationSupported_cases newaddon with hs | ⟨config, hs⟩
  · by_cases ha : FindStatusCondition newaddon.Status.Conditions
        ManagedClusterAddOnManifestApplied = none
    · rw [update_of_waiting oldaddon (by rw [hs]) ha]
      right
      exact ⟨_, newaddon.Status.ConfigReferences, rfl, Or.inl rfl, rfl,
        Or.inr ⟨rfl, Or.inr (Or.inr (Or.inr (Or.inr (Or.inr rfl))))⟩⟩
    · rw [update_of_gates oldaddon (by rw [hs]) ha]
      simp only [patchAndReturn]
      cases hskip : skipProgressingUpdate newaddon with
      | true => exact Or.inl (setAddOn_of_skip hskip)
      | false =>
        right
        rw [setAddOn_eq_of_not_skip _ _ _ _ hskip]
        refine ⟨_, _, rfl, ?_, progressingCondition_type _ _ _, ?_⟩
        · by_cases hstate : (chosenState env newaddon).1 = ProgressingSucceed
          · right
            rw [if_pos hstate]
          · left
            rw [if_neg hstate]
        · rcases chosenState_cases env newaddon with h | h | h
          · rw [h]
            have hpc := progressingCondition_failed (isUpgradeFlag newaddon)
              (chosenState env newaddon).2
            right
            refine ⟨hpc.1, ?_⟩
            rw [hpc.2.1]
            cases isUpgradeFlag newaddon
            · exact Or.inr (Or.inr (Or.inl rfl))
            · exact Or.inr (Or.inr (Or.inr (Or.inl rfl)))
          · rw [h]
            have hpc := progressingCondition_doing (isUpgradeFlag newaddon)
              (chosenState env newaddon).2
            left
            refine ⟨hpc.1, ?_⟩
            rw [hpc.2.1]
            cases isUpgradeFlag newaddon
            · exact Or.inl rfl
            · exact Or.inr rfl
          · rw [h]
            have hpc := progressingCondition_succeed (isUpgradeFlag newaddon)
              (chosenState env newaddon).2
            right
            refine ⟨hpc.1, ?_⟩
            rw [hpc.2]
            cases isUpgradeFlag newaddon
            · exact Or.inl rfl
            · exact Or.inr (Or.inl rfl)
  · rw [update_of_unsupported oldaddon hs]
    right
    exact ⟨_, newaddon.Status.ConfigReferences, rfl, Or.inl rfl, rfl,
      Or.inr ⟨rfl, Or.inr (Or.inr (Or.inr (Or.inr (Or.inl rfl))))⟩⟩

/-- The eight reasons and the status that goes with each of them. -/
theorem reason_status_facts {c : Condition}
    (h : (c.Status = ConditionTrue ∧
        (c.Reason = ProgressingReasonInstalling ∨ c.Reason = ProgressingReasonUpgrading)) ∨
      (c.Status = ConditionFalse ∧
        (c.Reason = ProgressingReasonInstallSucceed ∨ c.Reason = ProgressingReasonUpgradeSucceed ∨
          c.Reason = ProgressingReasonInstallFailed ∨ c.Reason = ProgressingReasonUpgradeFailed ∨
          c.Reason = ProgressingReasonConfigurationUnsupported ∨
          c.Reason = "WaitingForManifestApplied"))) :
    c.Reason ∈ [ProgressingReasonInstalling, ProgressingReasonUpgrading,
          ProgressingReasonInstallSucceed, ProgressingReasonUpgradeSucceed,
          ProgressingReasonInstallFailed, ProgressingReasonUpgradeFailed,
          ProgressingReasonConfigurationUnsupported, "WaitingForManifestApplied"] ∧
      (c.Status = ConditionTrue ∨ c.Status = ConditionFalse) ∧
      (c.Status = ConditionTrue ↔
        c.Reason = ProgressingReasonInstalling ∨ c.Reason = ProgressingReasonUpgrading) := by
  rcases h with ⟨hs, hr | hr⟩ | ⟨hs, hr | hr | hr | hr | hr | hr⟩ <;>
    exact ⟨by rw [hr]; decide, by rw [hs]; decide, by rw [hs, hr]; decide⟩

/-- C28: a run either leaves the addon as it was, or sets a Progressing condition whose reason
is one of Installing, Upgrading, InstallSucceed, UpgradeSucceed, InstallFailed, UpgradeFailed,
ConfigurationUnsupported and WaitingForManifestApplied, and whose status is True for Installing
and Upgrading and False for the other six; the Progressing condition found in the status after
the run has that reason and that status. Every patch `sync` issues carries such a condition. -/
theorem C28_progressing_reason_and_status (env : SyncEnv) (key : String)
    (newaddon oldaddon : ManagedClusterAddOn) :
    ((updateAddonProgressingAndLastApplied env.toEnv newaddon oldaddon).addon = newaddon ∨
      ∃ cond,
        (updateAddonProgressingAndLastApplied env.toEnv newaddon oldaddon).addon.Status.Conditions
          = SetStatusCondition env.now newaddon.Status.Conditions cond ∧
        cond.Type_ = ManagedClusterAddOnConditionProgressing ∧
        (cond.Reason ∈ [ProgressingReasonInstalling, ProgressingReasonUpgrading,
          ProgressingReasonInstallSucceed, ProgressingReasonUpgradeSucceed,
          ProgressingReasonInstallFailed, ProgressingReasonUpgradeFailed,
          ProgressingReasonConfigurationUnsupported, "WaitingForManifestApplied"] ∧
      (cond.Status = ConditionTrue ∨ cond.Status = ConditionFalse) ∧
      (cond.Status = ConditionTrue ↔
        cond.Reason = ProgressingReasonInstalling ∨ cond.Reason = ProgressingReasonUpgrading)) ∧
        ∃ c, FindStatusCondition
            (updateAddonProgressingAndLastApplied env.toEnv newaddon
              oldaddon).addon.Status.Conditions
            ManagedClusterAddOnConditionProgressing = some c ∧
          c.Reason = cond.Reason ∧ c.Status = cond.Status) ∧
    (∀ action ∈ (sync env key).1,
      ∃ c, FindStatusCondition action.newData.Conditions
          ManagedClusterAddOnConditionProgressing = some c ∧
        c.Reason ∈ [ProgressingReasonInstalling, ProgressingReasonUpgrading,
          ProgressingReasonInstallSucceed, ProgressingReasonUpgradeSucceed,
          ProgressingReasonInstallFailed, ProgressingReasonUpgradeFailed,
          ProgressingReasonConfigurationUnsupported, "WaitingForManifestApplied"] ∧
      (c.Status = ConditionTrue ∨ c.Status = ConditionFalse) ∧
      (c.Status = ConditionTrue ↔
        c.Reason = ProgressingReasonInstalling ∨ c.Reason = ProgressingReasonUpgrading)) := by
  have hrun : ∀ a b : ManagedClusterAddOn,
      (updateAddonProgressingAndLastApplied env.toEnv a b).addon = a ∨
      ∃ cond,
        (updateAddonProgressingAndLastApplied env.toEnv a b).addon.Status.Conditions
          = SetStatusCondition env.now a.Status.Conditions cond ∧
        cond.Type_ = ManagedClusterAddOnConditionProgressing ∧
        (cond.Reason ∈ [ProgressingReasonInstalling, ProgressingReasonUpgrading,
          ProgressingReasonInstallSucceed, ProgressingReasonUpgradeSucceed,
          ProgressingReasonInstallFailed, ProgressingReasonUpgradeFailed,
          ProgressingReasonConfigurationUnsupported, "WaitingForManifestApplied"] ∧
      (cond.Status = ConditionTrue ∨ cond.Status = ConditionFalse) ∧
      (cond.Status = ConditionTrue ↔
        cond.Reason = ProgressingReasonInstalling ∨ cond.Reason = ProgressingReasonUpgrading)) ∧
        ∃ c, FindStatusCondition
            (updateAddonProgressingAndLastApplied env.toEnv a b).addon.Status.Conditions
            ManagedClusterAddOnConditionProgressing = some c ∧
          c.Reason = cond.Reason ∧ c.Status = cond.Status := by
    intro a b
    rcases update_written env.toEnv a b with h | ⟨cond, refs, hout, _, htype, hcls⟩
    · exact Or.inl h
    · right
      refine ⟨cond, by rw [hout], htype, reason_status_facts hcls, ?_⟩
      obtain ⟨c, hc, hstatus, hreason, _⟩ :=
        findStatusCondition_set env.now a.Status.Conditions cond
      rw [htype] at hc
      exact ⟨c, by rw [hout]; exact hc, hreason, hstatus⟩
  refine ⟨hrun newaddon oldaddon, ?_⟩
  intro action hmem
  rcases sync_cases env key with ⟨hnil, _⟩ | ⟨addon, hsync⟩
  · rw [hnil] at hmem
    cases hmem
  · rw [hsync] at hmem
    simp only at hmem
    rw [(update_actions env.toEnv addon addon).1] at hmem
    by_cases hstatus : (updateAddonProgressingAndLastApplied env.toEnv addon addon).addon.Status
        = addon.Status
    · rw [patch_of_status_eq env.toEnv hstatus] at hmem
      cases hmem
    · obtain ⟨action1, haction, _, _, hnew⟩ := patch_of_status_ne env.toEnv hstatus
      rw [haction] at hmem
      rw [List.mem_singleton.mp hmem, hnew]
      rcases hrun addon addon with h | ⟨cond, _, _, hfacts, c, hc, hreason, hcstatus⟩
      · rw [h] at hstatus
        exact absurd rfl hstatus
      · refine ⟨c, hc, ?_⟩
        rw [hreason, hcstatus]
        exact hfacts

/-- Witness of C28: the patch of the test case `no work applied condition` carries the reason
WaitingForManifestApplied with status False. -/
theorem C28_progressing_reason_and_status_witness :
    ∃ c, FindStatusCondition
        (SetStatusCondition 2 []
          { Type_ := ManagedClusterAddOnConditionProgressing, Status := ConditionFalse
            Reason := "WaitingForManifestApplied"
            Message := "Waiting for ManagedClusterAddOn ManifestApplied condition" })
        ManagedClusterAddOnConditionProgressing = some c ∧
      c.Reason ∈ [ProgressingReasonInstalling, ProgressingReasonUpgrading,
          ProgressingReasonInstallSucceed, ProgressingReasonUpgradeSucceed,
          ProgressingReasonInstallFailed, ProgressingReasonUpgradeFailed,
          ProgressingReasonConfigurationUnsupported, "WaitingForManifestApplied"] ∧
      (c.Status = ConditionTrue ∨ c.Status = ConditionFalse) ∧
      (c.Status = ConditionTrue ↔
        c.Reason = ProgressingReasonInstalling ∨ c.Reason = ProgressingReasonUpgrading) :=
  (C28_progressing_reason_and_status (testSyncEnv [testNewAddon] []) "cluster1/test"
    testNewAddon testNewAddon).2
    { Namespace := "cluster1", Name := "test", Subresource := "status"
      oldData := {}
      newData :=
        { Conditions :=
            SetStatusCondition 2 []
              { Type_ := ManagedClusterAddOnConditionProgressing, Status := ConditionFalse
                Reason := "WaitingForManifestApplied"
                Message := "Waiting for ManagedClusterAddOn ManifestApplied condition" } } }
    (by decide)

/-- C29: a run changes nothing in the addon except the conditions and the config references
of its status. In the conditions only the Progressing condition changes: the conditions of
every other type are the same, in the same order; either the list is unchanged, or a Progressing
condition is appended when there was none, or the first Progressing condition is replaced where
it stands, so the list never shrinks and grows by at most one entry. The config references keep
their number, order and every field but the last applied config. -/
theorem C29_status_frame (env : Env) (newaddon oldaddon : ManagedClusterAddOn) :
    { (updateAddonProgressingAndLastApplied env newaddon oldaddon).addon with
        Status := newaddon.Status } = newaddon ∧
    (updateAddonProgressingAndLastApplied env newaddon oldaddon).addon.Status.SupportedConfigs = newaddon.Status.SupportedConfigs ∧
    (updateAddonProgressingAndLastApplied env newaddon oldaddon).addon.Status.Namespace = newaddon.Status.Namespace ∧
    (∀ t, t ≠ ManagedClusterAddOnConditionProgressing →
      FindStatusCondition (updateAddonProgressingAndLastApplied env newaddon oldaddon).addon.Status.Conditions t
        = FindStatusCondition newaddon.Status.Conditions t) ∧
    (updateAddonProgressingAndLastApplied env newaddon oldaddon).addon.Status.Conditions.filter
        (fun c => c.Type_ ≠ ManagedClusterAddOnConditionProgressing)
      = newaddon.Status.Conditions.filter
        (fun c => c.Type_ ≠ ManagedClusterAddOnConditionProgressing) ∧
    ((updateAddonProgressingAndLastApplied env newaddon oldaddon).addon.Status.Conditions = newaddon.Status.Conditions ∨
      (FindStatusCondition newaddon.Status.Conditions ManagedClusterAddOnConditionProgressing
          = none ∧
        ∃ c, c.Type_ = ManagedClusterAddOnConditionProgressing ∧
          (updateAddonProgressingAndLastApplied env newaddon oldaddon).addon.Status.Conditions = newaddon.Status.Conditions ++ [c]) ∨
      (∃ pre c c2 post, newaddon.Status.Conditions = pre ++ c :: post ∧
        (∀ d ∈ pre, d.Type_ ≠ ManagedClusterAddOnConditionProgressing) ∧
        c.Type_ = ManagedClusterAddOnConditionProgressing ∧
        c2.Type_ = ManagedClusterAddOnConditionProgressing ∧
        (updateAddonProgressingAndLastApplied env newaddon oldaddon).addon.Status.Conditions = pre ++ c2 :: post)) ∧
    newaddon.Status.Conditions.length ≤ (updateAddonProgressingAndLastApplied env newaddon oldaddon).addon.Status.Conditions.length ∧
    (updateAddonProgressingAndLastApplied env newaddon oldaddon).addon.Status.Conditions.length ≤ newaddon.Status.Conditions.length + 1 ∧
    (updateAddonProgressingAndLastApplied env newaddon oldaddon).addon.Status.ConfigReferences.length = newaddon.Status.ConfigReferences.length ∧
    (updateAddonProgressingAndLastApplied env newaddon oldaddon).addon.Status.ConfigReferences.map
        (fun configReference => { configReference with LastAppliedConfig := none })
      = newaddon.Status.ConfigReferences.map
        (fun configReference => { configReference with LastAppliedConfig := none }) := by
  rcases update_written env newaddon oldaddon with h | ⟨cond, refs, hout, hrefs, htype, _⟩
  · rw [h]
    exact ⟨rfl, rfl, rfl, fun _ _ => rfl, rfl, Or.inl rfl, Nat.le_refl _, Nat.le_succ _, rfl,
      rfl⟩
  · rw [hout]
    refine ⟨rfl, rfl, rfl, ?_, ?_, ?_, ?_, ?_, ?_, ?_⟩
    · intro t ht
      exact findStatusCondition_set_of_ne env.now newaddon.Status.Conditions cond
        (by rw [htype]; exact ht)
    · have hfilter := setStatusCondition_filter env.now newaddon.Status.Conditions cond
      rw [htype] at hfilter
      exact hfilter
    · have hshape := setStatusCondition_shape env.now newaddon.Status.Conditions cond
      rw [htype] at hshape
      exact Or.inr hshape
    · exact (setStatusCondition_length env.now newaddon.Status.Conditions cond).1
    · exact (setStatusCondition_length env.now newaddon.Status.Conditions cond).2
    · rcases hrefs with hrefs | hrefs
      · rw [hrefs]
      · rw [hrefs]
        exact List.length_map _ _
    · rcases hrefs with hrefs | hrefs
      · rw [hrefs]
      · rw [hrefs]
        simp only [List.map_map]
        rfl

/-- Witness of C29: the successful install of the test cases appends the Progressing condition
after the ManifestApplied condition and keeps the identity of the config reference. -/
theorem C29_status_frame_witness :
    (updateAddonProgressingAndLastApplied (testEnv [testWork "hashnew" "True" "True"])
      (testAddon [testConfigReference ""])
      (testAddon [testConfigReference ""])).addon.Status.Conditions.filter
        (fun c => c.Type_ ≠ ManagedClusterAddOnConditionProgressing)
      = [testManifestApplied] :=
  (C29_status_frame (testEnv [testWork "hashnew" "True" "True"])
    (testAddon [testConfigReference ""]) (testAddon [testConfigReference ""])).2.2.2.2.1

/-- C23: the run on a failing work lister. The addon `cluster1/test` of the test cases passes
both gates, the lister fails with `cache not synced` and the client accepts the patch: the state
is Failed and the patch is issued, but the run and `sync` return nil, not the error of the
lister. -/
theorem C23_list_error_returns_nil :
    (updateAddonProgressingAndLastApplied (testListErrorEnv "cache not synced")
      (testAddon [testConfigReference ""]) (testAddon [testConfigReference ""])).state
      = some ProgressingFailed ∧
    (updateAddonProgressingAndLastApplied (testListErrorEnv "cache not synced")
      (testAddon [testConfigReference ""]) (testAddon [testConfigReference ""])).message
      = "cache not synced" ∧
    (updateAddonProgressingAndLastApplied (testListErrorEnv "cache not synced")
      (testAddon [testConfigReference ""]) (testAddon [testConfigReference ""])).actions.length
      = 1 ∧
    (updateAddonProgressingAndLastApplied (testListErrorEnv "cache not synced")
      (testAddon [testConfigReference ""]) (testAddon [testConfigReference ""])).err = none ∧
    (sync (testListErrorSyncEnv [testAddon [testConfigReference ""]] "cache not synced")
      "cluster1/test").1.length = 1 ∧
    (sync (testListErrorSyncEnv [testAddon [testConfigReference ""]] "cache not synced")
      "cluster1/test").2 = none := by
  decide

theorem workConfigsMatchesAddon_of_malformed {work : ManifestWork} {annotationValue : String}
    (hannot : GoMap.get work.Annotations ManifestConfigSpecHashAnnotationKey
      = some annotationValue)
    (hbad : jsonUnmarshalStringMap annotationValue = none) (addon : ManagedClusterAddOn) :
    workConfigsMatchesAddon work addon = false := by
  unfold workConfigsMatchesAddon
  rw [hannot]
  simp only
  rw [hbad]

theorem checkAddonWorks_of_mismatch {hook : String} {addon : ManagedClusterAddOn}
    {work : ManifestWork} (pre post : List ManifestWork)
    (hhook : HasPrefix work.Name hook = false)
    (hmismatch : workConfigsMatchesAddon work addon = false) :
    (∃ message, checkAddonWorks hook addon (pre ++ work :: post) = some message) ∧
    ((∀ v ∈ pre, HasPrefix v.Name hook = true ∨
        (workConfigsMatchesAddon v addon = true ∧ workIsReady v = true)) →
      checkAddonWorks hook addon (pre ++ work :: post) = some "configs mismatch") := by
  constructor
  · cases hcheck : checkAddonWorks hook addon (pre ++ work :: post) with
    | some message => exact ⟨message, rfl⟩
    | none =>
      have hall := (checkAddonWorks_none_iff hook addon (pre ++ work :: post)).mp hcheck
      have := (hall work (by simp) hhook).1
      rw [hmismatch] at this
      cases this
  · intro hpre
    induction pre with
    | nil =>
      show checkAddonWorks hook addon (work :: post) = some "configs mismatch"
      unfold checkAddonWorks
      simp [hhook, hmismatch]
    | cons v rest ih =>
      have hrest := ih (fun u hu => hpre u (List.mem_cons_of_mem v hu))
      show checkAddonWorks hook addon (v :: (rest ++ work :: post)) = some "configs mismatch"
      unfold checkAddonWorks
      rcases hpre v (List.mem_cons_self v rest) with hv | ⟨hm, hr⟩
      · simp [hv, hrest]
      · by_cases hv : HasPrefix v.Name hook = true
        · simp [hv, hrest]
        · simp [hv, hm, hr, hrest]

/-! ## The checked run never panics -/

theorem deepCopy_eq (receiver : Option ConfigSpecHash) :
    ConfigSpecHash.DeepCopy receiver = receiver := by
  cases receiver <;> rfl

theorem isUpgradeFlagChecked_eq (configReferences : List ConfigReference) :
    isUpgradeFlagChecked configReferences =
      some (configReferences.any
        (fun configReference =>
          match configReference.LastAppliedConfig with
          | none => false
          | some lastApplied => lastApplied.SpecHash ≠ "")) := by
  induction configReferences with
  | nil => rfl
  | cons r rest ih =>
    unfold isUpgradeFlagChecked
    cases hlast : r.LastAppliedConfig with
    | none => simp [List.any_cons, hlast, ih]
    | some lastApplied =>
      by_cases hhash : lastApplied.SpecHash = ""
      · simp [List.any_cons, hlast, hhash, ih]
      · simp [List.any_cons, hlast, hhash]

theorem workIsReadyChecked_eq (work : ManifestWork) :
    workIsReadyChecked work = some (workIsReady work) := by
  unfold workIsReadyChecked workIsReady
  cases FindStatusCondition work.Status.Conditions WorkAvailable with
  | none => rfl
  | some available =>
    simp only [if_neg (Option.some_ne_none available)]
    split
    · rfl
    · cases FindStatusCondition work.Status.Conditions WorkApplied with
      | none => rfl
      | some applied =>
        simp only [if_neg (Option.some_ne_none applied)]
        split <;> rfl

theorem desiredConfigsChecked_eq (configReferences : List ConfigReference) :
    desiredConfigsChecked configReferences =
      some (!configReferences.any
        (fun configReference =>
          match configReference.DesiredConfig with
          | none => true
          | some desired => desired.SpecHash = "")) := by
  induction configReferences with
  | nil => rfl
  | cons r rest ih =>
    unfold desiredConfigsChecked
    cases hdesired : r.DesiredConfig with
    | none => simp [List.any_cons, hdesired]
    | some desired =>
      by_cases hhash : desired.SpecHash = ""
      · simp [List.any_cons, hdesired, hhash]
      · simp [List.any_cons, hdesired, hhash, ih]

theorem workConfigsMatchesAddonChecked_eq (work : ManifestWork) (addon : ManagedClusterAddOn) :
    workConfigsMatchesAddonChecked work addon = some (workConfigsMatchesAddon work addon) := by
  unfold workConfigsMatchesAddonChecked workConfigsMatchesAddon
  cases GoMap.get work.Annotations ManifestConfigSpecHashAnnotationKey with
  | none => rfl
  | some annotationValue =>
    simp only
    cases jsonUnmarshalStringMap annotationValue with
    | none => rfl
    | some workSpecHashMap =>
      simp only
      split
      · rfl
      · rw [desiredConfigsChecked_eq]
        cases hany : addon.Status.ConfigReferences.any
            (fun configReference =>
              match configReference.DesiredConfig with
              | none => true
              | some desired => decide (desired.SpecHash = "")) with
        | true => simp
        | false => simp

theorem checkAddonWorksChecked_eq (hook : String) (addon : ManagedClusterAddOn)
    (works : List ManifestWork) :
    checkAddonWorksChecked hook addon works = some (checkAddonWorks hook addon works) := by
  induction works with
  | nil => rfl
  | cons w rest ih =>
    unfold checkAddonWorksChecked checkAddonWorks
    by_cases hp : HasPrefix w.Name hook = true
    · simp only [hp, if_true]
      exact ih
    · simp only [hp]
      rw [workConfigsMatchesAddonChecked_eq, workIsReadyChecked_eq]
      cases workConfigsMatchesAddon w addon with
      | false => rfl
      | true =>
        cases workIsReady w with
        | false => rfl
        | true => simpa using ih

theorem setAddOnChecked_eq (now : Time) (isUpgrade : Bool) (status message : String)
    (addon : ManagedClusterAddOn) :
    setAddOnProgressingAndLastAppliedChecked now isUpgrade status message addon =
      some (setAddOnProgressingAndLastApplied now isUpgrade status message addon) := by
  unfold setAddOnProgressingAndLastAppliedChecked setAddOnProgressingAndLastApplied
  simp only [deepCopy_eq]
  split <;> rfl

theorem updateChecked_eq (env : Env) (newaddon oldaddon : ManagedClusterAddOn) :
    updateAddonProgressingAndLastAppliedChecked env newaddon oldaddon =
      some (updateAddonProgressingAndLastApplied env newaddon oldaddon) := by
  unfold updateAddonProgressingAndLastAppliedChecked updateAddonProgressingAndLastApplied
  rcases isConfigurationSupported_cases newaddon with hs | ⟨config, hs⟩
  · rw [hs]
    simp only
    cases FindStatusCondition newaddon.Status.Conditions ManagedClusterAddOnManifestApplied with
    | none => rfl
    | some applied =>
      simp only [isUpgradeFlagChecked_eq, NewRequirement, setAddOnChecked_eq, Option.map_some,
        checkAddonWorksChecked_eq]
      cases env.workLister newaddon.Namespace newaddon.Name with
      | error err => rfl
      | ok addonWorks =>
        simp only
        split
        · rfl
        · cases checkAddonWorks (env.PreDeleteHookWorkName newaddon.Name) newaddon addonWorks
            <;> rfl
  · rw [hs]

/-- C27: `updateAddonProgressingAndLastApplied` is total. The run with every pointer read
checked never panics: for every addon, whatever its name and its config references, and every
answer of the work lister it returns the outcome of the run. The requirement returned by
`labels.NewRequirement` is not nil even when the name of the addon is not a valid label value
and an error is reported; the upgrade flag reads the last applied config only when it is not
nil; `DeepCopy` of a nil desired config is nil. The state of the outcome is none (a gate
stopped the run), Doing, Succeed or Failed, and the error is nil or the answer of the client. -/
theorem C27_run_is_total (env : Env) (newaddon oldaddon : ManagedClusterAddOn) :
    updateAddonProgressingAndLastAppliedChecked env newaddon oldaddon
      = some (updateAddonProgressingAndLastApplied env newaddon oldaddon) ∧
    (NewRequirement AddonLabelKey Equals [newaddon.Name]).1 ≠ none ∧
    (IsValidLabelValue newaddon.Name = false →
      (NewRequirement AddonLabelKey Equals [newaddon.Name]).2 ≠ none) ∧
    isUpgradeFlagChecked newaddon.Status.ConfigReferences = some (isUpgradeFlag newaddon) ∧
    ConfigSpecHash.DeepCopy none = none ∧
    ((updateAddonProgressingAndLastApplied env newaddon oldaddon).state = none ∨
      (updateAddonProgressingAndLastApplied env newaddon oldaddon).state
        = some ProgressingDoing ∨
      (updateAddonProgressingAndLastApplied env newaddon oldaddon).state
        = some ProgressingSucceed ∨
      (updateAddonProgressingAndLastApplied env newaddon oldaddon).state
        = some ProgressingFailed) ∧
    ((updateAddonProgressingAndLastApplied env newaddon oldaddon).err = none ∨
      ∃ action, (updateAddonProgressingAndLastApplied env newaddon oldaddon).err
        = env.addonClientPatch action) := by
  refine ⟨updateChecked_eq env newaddon oldaddon, nofun, ?_,
    isUpgradeFlagChecked_eq newaddon.Status.ConfigReferences, rfl, ?_, ?_⟩
  · intro hinvalid
    simp [NewRequirement, hinvalid]
  · rcases update_shape env newaddon oldaddon with ⟨_, _, hstate⟩ | ⟨status, message, _, hstate, _⟩
    · exact Or.inl hstate
    · by_cases hs : (isConfigurationSupported newaddon).1 = true
      · by_cases ha : FindStatusCondition newaddon.Status.Conditions
            ManagedClusterAddOnManifestApplied = none
        · exact Or.inl (update_state_none_of_gate env newaddon oldaddon (Or.inr ha))
        · right
          have hchosen : (updateAddonProgressingAndLastApplied env newaddon oldaddon).state
              = some (chosenState env newaddon).1 := by
            rw [update_of_gates oldaddon hs ha]
            rfl
          rw [hchosen]
          rcases chosenState_cases env newaddon with h | h | h
          · exact Or.inr (Or.inr (by rw [h]))
          · exact Or.inl (by rw [h])
          · exact Or.inr (Or.inl (by rw [h]))
      · exact Or.inl (update_state_none_of_gate env newaddon oldaddon
          (Or.inl (by simpa using hs)))
  · rcases update_actions_cases env newaddon oldaddon with ⟨_, herr⟩ | ⟨action, _, herr⟩
    · exact Or.inl herr
    · exact Or.inr ⟨action, herr⟩

/-- Witness of C27: an addon whose name is not a valid label value and whose config reference
has nil desired and last applied configs, with a ready work whose hash annotation is empty:
the checked run returns an outcome, with state Doing. -/
theorem C27_run_is_total_witness :
    IsValidLabelValue testOddAddon.Name = false ∧
    (updateAddonProgressingAndLastAppliedChecked
      (testEnv [{ testAnnotatedWork "" with Name := "w", Labels := [(AddonLabelKey, "test-")] }])
      testOddAddon testOddAddon).map (fun outcome => outcome.state)
      = some (some ProgressingDoing) :=
  ⟨by decide,
    by rw [(C27_run_is_total
      (testEnv [{ testAnnotatedWork "" with Name := "w", Labels := [(AddonLabelKey, "test-")] }])
      testOddAddon testOddAddon).1]; decide⟩

/-! ## The members of a merge patch -/

theorem JsonObject.toList_append : ∀ (a b : JsonObject),
    (a.append b).toList = a.toList ++ b.toList
  | .nil, _ => rfl
  | .cons k v rest, b => by
    show (k, v) :: (rest.append b).toList = (k, v) :: (rest.toList ++ b.toList)
    rw [JsonObject.toList_append rest b]

theorem JsonObject.get_none_iff_not_mem : ∀ (m : JsonObject) (key : String),
    m.get key = none ↔ ∀ v, (key, v) ∉ m.toList
  | .nil, _ => by simp [JsonObject.get, JsonObject.toList]
  | .cons k v rest, key => by
    have ih := JsonObject.get_none_iff_not_mem rest key
    by_cases hk : k = key
    · subst hk
      simp only [JsonObject.get, if_true, JsonObject.toList]
      constructor
      · intro h
        cases h
      · intro h
        exact absurd (List.mem_cons_self _ _) (h v)
    · simp only [JsonObject.get, if_neg hk, JsonObject.toList, List.mem_cons, Prod.mk.injEq]
      rw [ih]
      constructor
      · intro h v hv
        rcases hv with ⟨hkey, _⟩ | hv
        · exact hk hkey.symm
        · exact h v hv
      · intro h v hv
        exact h v (Or.inr hv)

theorem JsonObject.get_some_of_mem : ∀ (m : JsonObject), m.distinctKeys = true →
    ∀ key value, (key, value) ∈ m.toList → m.get key = some value
  | .nil, _, _, _, h => by simp [JsonObject.toList] at h
  | .cons k v rest, hd, key, value, h => by
    simp only [JsonObject.distinctKeys, Bool.and_eq_true, Option.isNone_iff_eq_none] at hd
    simp only [JsonObject.toList, List.mem_cons, Prod.mk.injEq] at h
    rcases h with ⟨rfl, rfl⟩ | h
    · simp [JsonObject.get]
    · have hne : k ≠ key := by
        intro hk
        subst hk
        exact (JsonObject.get_none_iff_not_mem rest k).mp hd.1.1 value h
      simp only [JsonObject.get, if_neg hne]
      exact JsonObject.get_some_of_mem rest hd.2 key value h

theorem JsonObject.get_ne_none_of_mem : ∀ (m : JsonObject) (key : String) (value : Json),
    (key, value) ∈ m.toList → m.get key ≠ none := by
  intro m key value hmem hnone
  exact (JsonObject.get_none_iff_not_mem m key).mp hnone value hmem

mutual
theorem Json.matchesValue_self : ∀ (v : Json), v.distinctKeys = true →
    Json.matchesValue v v = true
  | .null, _ => rfl
  | .bool _, _ => by simp [Json.matchesValue]
  | .num _, _ => by simp [Json.matchesValue]
  | .str _, _ => by simp [Json.matchesValue]
  | .arr items, h => by
    simp only [Json.matchesValue]
    exact JsonArray.matchesArray_self items (by simpa [Json.distinctKeys] using h)
  | .obj members, h => by
    have hd : members.distinctKeys = true := by simpa [Json.distinctKeys] using h
    simp only [Json.matchesValue, beq_self_eq_true, Bool.true_and]
    exact JsonObject.matchesIn_of_sub members members hd
      (JsonObject.get_some_of_mem members hd)
theorem JsonArray.matchesArray_self : ∀ (xs : JsonArray), xs.distinctKeys = true →
    JsonArray.matchesArray xs xs = true
  | .nil, _ => rfl
  | .cons x xs, h => by
    simp only [JsonArray.distinctKeys, Bool.and_eq_true] at h
    simp only [JsonArray.matchesArray, Bool.and_eq_true]
    exact ⟨Json.matchesValue_self x h.1, JsonArray.matchesArray_self xs h.2⟩
theorem JsonObject.matchesIn_of_sub : ∀ (bm am : JsonObject), bm.distinctKeys = true →
    (∀ key value, (key, value) ∈ bm.toList → am.get key = some value) →
    JsonObject.matchesIn am bm = true
  | .nil, _, _, _ => rfl
  | .cons k v rest, am, h, hsub => by
    simp only [JsonObject.distinctKeys, Bool.and_eq_true] at h
    simp only [JsonObject.matchesIn, Bool.and_eq_true]
    rw [hsub k v (by simp [JsonObject.toList])]
    exact ⟨Json.matchesValue_self v h.1.2,
      JsonObject.matchesIn_of_sub rest am h.2
        (fun key value hmem => hsub key value (by simp [JsonObject.toList, hmem]))⟩
end

theorem JsonObject.deleted_eq_nil : ∀ (a b : JsonObject),
    (∀ key value, (key, value) ∈ a.toList → b.get key ≠ none) →
    JsonObject.deleted b a = .nil
  | .nil, _, _ => rfl
  | .cons k v rest, b, h => by
    simp only [JsonObject.deleted]
    cases hget : b.get k with
    | none => exact absurd hget (h k v (by simp [JsonObject.toList]))
    | some _ =>
      exact JsonObject.deleted_eq_nil rest b
        (fun key value hmem => h key value (by simp [JsonObject.toList, hmem]))

theorem JsonObject.mem_deleted : ∀ (a b : JsonObject) (key : String) (value : Json),
    (key, value) ∈ (JsonObject.deleted b a).toList →
    value = .null ∧ b.get key = none ∧ ∃ old, (key, old) ∈ a.toList
  | .nil, _, _, _, h => by simp [JsonObject.deleted, JsonObject.toList] at h
  | .cons k v rest, b, key, value, h => by
    simp only [JsonObject.deleted] at h
    cases hget : b.get k with
    | none =>
      rw [hget] at h
      simp only [JsonObject.toList, List.mem_cons, Prod.mk.injEq] at h
      rcases h with ⟨rfl, rfl⟩ | h
      · exact ⟨rfl, hget, v, by simp [JsonObject.toList]⟩
      · obtain ⟨h1, h2, old, h3⟩ := JsonObject.mem_deleted rest b key value h
        exact ⟨h1, h2, old, by simp [JsonObject.toList, h3]⟩
    | some found =>
      rw [hget] at h
      obtain ⟨h1, h2, old, h3⟩ := JsonObject.mem_deleted rest b key value h
      exact ⟨h1, h2, old, by simp [JsonObject.toList, h3]⟩

theorem JsonObject.self_deleted (m : JsonObject) : JsonObject.deleted m m = .nil :=
  JsonObject.deleted_eq_nil m m (fun key value h => JsonObject.get_ne_none_of_mem m key value h)

mutual
theorem getDiffValue_self : ∀ (v : Json) (key : String), v.distinctKeys = true →
    getDiffValue key (some v) v = .nil
  | .null, _, _ => by simp [getDiffValue, Json.matchesValue]
  | .bool _, _, _ => by simp [getDiffValue, Json.matchesValue]
  | .num _, _, _ => by simp [getDiffValue, Json.matchesValue]
  | .str _, _, _ => by simp [getDiffValue, Json.matchesValue]
  | .arr items, _, h => by
    simp [getDiffValue, Json.matchesValue_self (.arr items) h]
  | .obj members, key, h => by
    have hd : members.distinctKeys = true := by simpa [Json.distinctKeys] using h
    simp only [getDiffValue]
    rw [getDiffPresent_of_sub members members hd (JsonObject.get_some_of_mem members hd),
      JsonObject.self_deleted]
    rfl
theorem getDiffPresent_of_sub : ∀ (bm am : JsonObject), bm.distinctKeys = true →
    (∀ key value, (key, value) ∈ bm.toList → am.get key = some value) →
    getDiffPresent am bm = .nil
  | .nil, _, _, _ => rfl
  | .cons k v rest, am, h, hsub => by
    simp only [JsonObject.distinctKeys, Bool.and_eq_true] at h
    simp only [getDiffPresent]
    rw [hsub k v (by simp [JsonObject.toList]), getDiffValue_self v k h.1.2,
      getDiffPresent_of_sub rest am h.2
        (fun key value hmem => hsub key value (by simp [JsonObject.toList, hmem]))]
    rfl
end

theorem mem_getDiffValue (key : String) (av : Option Json) (bv : Json) (k : String) (v : Json)
    (h : (k, v) ∈ (getDiffValue key av bv).toList) :
    k = key ∧
    ((∃ am bm, av = some (.obj am) ∧ bv = .obj bm ∧ v = .obj (getDiff am bm)) ∨
      (v = bv ∧ ∀ am bm, av = some (.obj am) → bv ≠ .obj bm)) := by
  cases bv with
  | obj bm =>
    cases av with
    | none =>
      simp only [getDiffValue, JsonObject.toList, List.mem_singleton, Prod.mk.injEq] at h
      exact ⟨h.1, Or.inr ⟨h.2, fun _ _ hav => nomatch hav⟩⟩
    | some a =>
      cases a with
      | obj am =>
        simp only [getDiffValue] at h
        split at h
        · simp [JsonObject.toList] at h
        · simp only [JsonObject.toList, List.mem_singleton, Prod.mk.injEq] at h
          exact ⟨h.1, Or.inl ⟨am, bm, rfl, rfl, h.2⟩⟩
      | _ =>
        simp only [getDiffValue, JsonObject.toList, List.mem_singleton, Prod.mk.injEq] at h
        exact ⟨h.1, Or.inr ⟨h.2, fun _ _ hav => nomatch hav⟩⟩
  | _ =>
    cases av with
    | none =>
      simp only [getDiffValue, JsonObject.toList, List.mem_singleton, Prod.mk.injEq] at h
      exact ⟨h.1, Or.inr ⟨h.2, fun _ _ hav => nomatch hav⟩⟩
    | some a =>
      simp only [getDiffValue] at h
      split at h
      · simp [JsonObject.toList] at h
      · simp only [JsonObject.toList, List.mem_singleton, Prod.mk.injEq] at h
        exact ⟨h.1, Or.inr ⟨h.2, fun _ _ _ hbv => nomatch hbv⟩⟩

theorem mem_getDiffPresent : ∀ (b a : JsonObject) (k : String) (v : Json),
    (k, v) ∈ (getDiffPresent a b).toList →
    ∃ bv, (k, bv) ∈ b.toList ∧ (k, v) ∈ (getDiffValue k (a.get k) bv).toList
  | .nil, _, _, _, h => by simp [getDiffPresent, JsonObject.toList] at h
  | .cons key bv rest, a, k, v, h => by
    simp only [getDiffPresent, JsonObject.toList_append, List.mem_append] at h
    rcases h with h | h
    · have hk := (mem_getDiffValue key (a.get key) bv k v h).1
      subst hk
      exact ⟨bv, by simp [JsonObject.toList], h⟩
    · obtain ⟨bv1, hmem, hval⟩ := mem_getDiffPresent rest a k v h
      exact ⟨bv1, by simp [JsonObject.toList, hmem], hval⟩

theorem JsonObject.get_append : ∀ (a b : JsonObject) (key : String),
    (a.append b).get key = (match a.get key with
      | some v => some v
      | none => b.get key)
  | .nil, _, _ => rfl
  | .cons k v rest, b, key => by
    by_cases hk : k = key
    · simp [JsonObject.append, JsonObject.get, hk]
    · simp only [JsonObject.append, JsonObject.get, if_neg hk]
      exact JsonObject.get_append rest b key

theorem JsonObject.distinctKeys_of_mem : ∀ (m : JsonObject), m.distinctKeys = true →
    ∀ key value, (key, value) ∈ m.toList → value.distinctKeys = true
  | .nil, _, _, _, h => by simp [JsonObject.toList] at h
  | .cons k v rest, hd, key, value, h => by
    simp only [JsonObject.distinctKeys, Bool.and_eq_true] at hd
    simp only [JsonObject.toList, List.mem_cons, Prod.mk.injEq] at h
    rcases h with ⟨_, rfl⟩ | h
    · exact hd.1.2
    · exact JsonObject.distinctKeys_of_mem rest hd.2 key value h

/-- The difference of two objects that share the members `rest`: a member of the difference
comes from the members in front. -/
theorem mem_getDiff_of_common (ha hb rest : JsonObject) (hrest : rest.distinctKeys = true)
    (hclash : ∀ key value, (key, value) ∈ rest.toList → ha.get key = none ∧ hb.get key = none)
    (k : String) (v : Json)
    (h : (k, v) ∈ (getDiff (ha.append rest) (hb.append rest)).toList) :
    (∃ bv, (k, bv) ∈ hb.toList ∧
      (k, v) ∈ (getDiffValue k ((ha.append rest).get k) bv).toList) ∨
    (v = .null ∧ (hb.append rest).get k = none ∧ ∃ old, (k, old) ∈ ha.toList) := by
  unfold getDiff at h
  rw [JsonObject.toList_append, List.mem_append] at h
  rcases h with h | h
  · obtain ⟨bv, hmem, hval⟩ := mem_getDiffPresent _ _ k v h
    rw [JsonObject.toList_append, List.mem_append] at hmem
    rcases hmem with hmem | hmem
    · exact Or.inl ⟨bv, hmem, hval⟩
    · exfalso
      have hget : (ha.append rest).get k = some bv := by
        rw [JsonObject.get_append, (hclash k bv hmem).1]
        exact JsonObject.get_some_of_mem rest hrest k bv hmem
      rw [hget, getDiffValue_self bv k (JsonObject.distinctKeys_of_mem rest hrest k bv hmem)]
        at hval
      simp [JsonObject.toList] at hval
  · obtain ⟨hnull, hnone, old, hold⟩ := JsonObject.mem_deleted _ _ k v h
    rw [JsonObject.toList_append, List.mem_append] at hold
    rcases hold with hold | hold
    · exact Or.inr ⟨hnull, hnone, old, hold⟩
    · exfalso
      exact JsonObject.get_ne_none_of_mem (hb.append rest) k old
        (by rw [JsonObject.toList_append]; exact List.mem_append_right _ hold) hnone

theorem mem_omitEmpty {key : String} {isEmpty : Bool} {value : Json} {k : String} {v : Json}
    (h : (k, v) ∈ (omitEmpty key isEmpty value).toList) : k = key ∧ v = value := by
  unfold omitEmpty at h
  split at h
  · simp [JsonObject.toList] at h
  · simpa [JsonObject.toList] using h

theorem mem_two_omitEmpty {key1 key2 : String} {e1 e2 : Bool} {v1 v2 : Json} {k : String}
    {v : Json}
    (h : (k, v) ∈ ((omitEmpty key1 e1 v1).append (omitEmpty key2 e2 v2)).toList) :
    (k = key1 ∧ v = v1) ∨ (k = key2 ∧ v = v2) := by
  rw [JsonObject.toList_append, List.mem_append] at h
  rcases h with h | h
  · exact Or.inl (mem_omitEmpty h)
  · exact Or.inr (mem_omitEmpty h)

theorem get_two_omitEmpty_of_ne {key1 key2 : String} {e1 e2 : Bool} {v1 v2 : Json}
    {k : String} (h1 : k ≠ key1) (h2 : k ≠ key2) :
    ((omitEmpty key1 e1 v1).append (omitEmpty key2 e2 v2)).get k = none := by
  rw [JsonObject.get_none_iff_not_mem]
  intro v hv
  rcases mem_two_omitEmpty hv with ⟨h, _⟩ | ⟨h, _⟩
  · exact h1 h
  · exact h2 h

/-- The members a difference of two marshalled parts can have: those of the two fields in
front, with the new value or, when the field is dropped, `null`. -/
theorem mem_getDiff_two_fields {key1 key2 : String} {e1 e2 f1 f2 : Bool} {a1 a2 b1 b2 : Json}
    {rest : JsonObject} (hrest : rest.distinctKeys = true)
    (hkey1 : rest.get key1 = none) (hkey2 : rest.get key2 = none)
    (hb1 : ∀ m, b1 ≠ .obj m) (hb2 : ∀ m, b2 ≠ .obj m)
    {k : String} {v : Json}
    (h : (k, v) ∈ (getDiff
      (((omitEmpty key1 e1 a1).append (omitEmpty key2 e2 a2)).append rest)
      (((omitEmpty key1 f1 b1).append (omitEmpty key2 f2 b2)).append rest)).toList) :
    (k = key1 ∧ (v = b1 ∨ (v = .null ∧ e1 = false))) ∨
    (k = key2 ∧ (v = b2 ∨ (v = .null ∧ e2 = false))) := by
  have hclash : ∀ key value, (key, value) ∈ rest.toList →
      ((omitEmpty key1 e1 a1).append (omitEmpty key2 e2 a2)).get key = none ∧
      ((omitEmpty key1 f1 b1).append (omitEmpty key2 f2 b2)).get key = none := by
    intro key value hmem
    have hne := JsonObject.get_ne_none_of_mem rest key value hmem
    have h1 : key ≠ key1 := fun hk => hne (hk ▸ hkey1)
    have h2 : key ≠ key2 := fun hk => hne (hk ▸ hkey2)
    exact ⟨get_two_omitEmpty_of_ne h1 h2, get_two_omitEmpty_of_ne h1 h2⟩
  rcases mem_getDiff_of_common _ _ rest hrest hclash k v h with
    ⟨bv, hmem, hval⟩ | ⟨hnull, _, old, hold⟩
  · obtain ⟨_, hcases⟩ := mem_getDiffValue _ _ _ _ _ hval
    rcases mem_two_omitEmpty hmem with ⟨hk, hbv⟩ | ⟨hk, hbv⟩
    · left
      refine ⟨hk, Or.inl ?_⟩
      rcases hcases with ⟨_, bm, _, hobj, _⟩ | ⟨hv, _⟩
      · exact absurd (hbv ▸ hobj) (hb1 bm)
      · rw [hv, hbv]
    · right
      refine ⟨hk, Or.inl ?_⟩
      rcases hcases with ⟨_, bm, _, hobj, _⟩ | ⟨hv, _⟩
      · exact absurd (hbv ▸ hobj) (hb2 bm)
      · rw [hv, hbv]
  · rw [JsonObject.toList_append, List.mem_append] at hold
    rcases hold with hold | hold
    · left
      refine ⟨(mem_omitEmpty hold).1, Or.inr ⟨hnull, ?_⟩⟩
      cases e1 with
      | false => rfl
      | true => simp [omitEmpty, JsonObject.toList] at hold
    · right
      refine ⟨(mem_omitEmpty hold).1, Or.inr ⟨hnull, ?_⟩⟩
      cases e2 with
      | false => rfl
      | true => simp [omitEmpty, JsonObject.toList] at hold

/-- The members of the payload of a client call. -/
theorem mem_patchBytes (enc : Encoding) (hwf : enc.wellFormed = true) (action : PatchAction)
    (k : String) (v : Json) (h : (k, v) ∈ (action.patchBytes enc).toList) :
    (k = "metadata" ∧ ∃ m, v = .obj m ∧ ∀ k2 v2, (k2, v2) ∈ m.toList →
      (k2 = "uid" ∧
        (v2 = .str action.newData.UID ∨ (v2 = .null ∧ action.oldData.UID ≠ ""))) ∨
      (k2 = "resourceVersion" ∧
        (v2 = .str action.newData.ResourceVersion ∨
          (v2 = .null ∧ action.oldData.ResourceVersion ≠ "")))) ∨
    (k = "status" ∧ ∃ m, v = .obj m ∧ ∀ k2 v2, (k2, v2) ∈ m.toList →
      (k2 = "conditions" ∧
        (v2 = .arr (JsonArray.ofList (action.newData.Conditions.map enc.condition)) ∨
          (v2 = .null ∧ action.oldData.Conditions ≠ []))) ∨
      (k2 = "configReferences" ∧
        (v2 = .arr (JsonArray.ofList
            (action.newData.ConfigReferences.map enc.configReference)) ∨
          (v2 = .null ∧ action.oldData.ConfigReferences ≠ [])))) := by
  simp only [Encoding.wellFormed, Bool.and_eq_true, Option.isNone_iff_eq_none] at hwf
  obtain ⟨⟨⟨⟨⟨⟨⟨⟨hobject, hobjectMeta⟩, hobjectStatus⟩, hmeta⟩, hmetaUid⟩, hmetaVersion⟩,
    hstatus⟩, hstatusConditions⟩, hstatusReferences⟩ := hwf
  have hclash : ∀ (x y : Json) key value, (key, value) ∈ enc.objectRest.toList →
      (JsonObject.cons "metadata" x (.cons "status" y .nil)).get key = none := by
    intro x y key value hmem
    have hne := JsonObject.get_ne_none_of_mem enc.objectRest key value hmem
    have h1 : "metadata" ≠ key := fun hk => hne (hk ▸ hobjectMeta)
    have h2 : "status" ≠ key := fun hk => hne (hk ▸ hobjectStatus)
    simp [JsonObject.get, h1, h2]
  have htop := mem_getDiff_of_common
    (.cons "metadata" (.obj (marshalObjectMeta enc action.oldData))
      (.cons "status" (.obj (marshalStatus enc action.oldData)) .nil))
    (.cons "metadata" (.obj (marshalObjectMeta enc action.newData))
      (.cons "status" (.obj (marshalStatus enc action.newData)) .nil))
    enc.objectRest hobject
    (fun key value hmem => ⟨hclash _ _ key value hmem, hclash _ _ key value hmem⟩) k v h
  rcases htop with ⟨bv, hmem, hval⟩ | ⟨_, hnone, old, hold⟩
  · obtain ⟨_, hcases⟩ := mem_getDiffValue _ _ _ _ _ hval
    simp only [JsonObject.toList, List.mem_cons, Prod.mk.injEq, List.mem_nil_iff,
      or_false] at hmem
    rcases hmem with ⟨hk, hbv⟩ | ⟨hk, hbv⟩
    · left
      refine ⟨hk, ?_⟩
      subst hk
      rcases hcases with ⟨am, bm, hav, hobj, hv⟩ | ⟨_, hno⟩
      · have ham : am = marshalObjectMeta enc action.oldData := by
          simp [JsonObject.append, JsonObject.get] at hav
          exact hav.symm
        have hbm : bm = marshalObjectMeta enc action.newData := by
          rw [hbv] at hobj
          exact (Json.obj.inj hobj).symm
        refine ⟨_, hv, ?_⟩
        intro k2 v2 hmem2
        rw [ham, hbm] at hmem2
        rcases mem_getDiff_two_fields hmeta hmetaUid hmetaVersion (fun _ hobj => Json.noConfusion hobj)
          (fun _ hobj => Json.noConfusion hobj) hmem2 with ⟨hk2, hv2⟩ | ⟨hk2, hv2⟩
        · left
          refine ⟨hk2, ?_⟩
          rcases hv2 with hv2 | ⟨hv2, hempty⟩
          · exact Or.inl hv2
          · exact Or.inr ⟨hv2, by simpa using hempty⟩
        · right
          refine ⟨hk2, ?_⟩
          rcases hv2 with hv2 | ⟨hv2, hempty⟩
          · exact Or.inl hv2
          · exact Or.inr ⟨hv2, by simpa using hempty⟩
      · exact absurd hbv (hno (marshalObjectMeta enc action.oldData)
          (marshalObjectMeta enc action.newData) (by simp [JsonObject.append, JsonObject.get]))
    · right
      refine ⟨hk, ?_⟩
      subst hk
      rcases hcases with ⟨am, bm, hav, hobj, hv⟩ | ⟨_, hno⟩
      · have ham : am = marshalStatus enc action.oldData := by
          simp [JsonObject.append, JsonObject.get] at hav
          exact hav.symm
        have hbm : bm = marshalStatus enc action.newData := by
          rw [hbv] at hobj
          exact (Json.obj.inj hobj).symm
        refine ⟨_, hv, ?_⟩
        intro k2 v2 hmem2
        rw [ham, hbm] at hmem2
        rcases mem_getDiff_two_fields hstatus hstatusConditions hstatusReferences
          (fun _ hobj => Json.noConfusion hobj) (fun _ hobj => Json.noConfusion hobj) hmem2 with ⟨hk2, hv2⟩ | ⟨hk2, hv2⟩
        · left
          refine ⟨hk2, ?_⟩
          rcases hv2 with hv2 | ⟨hv2, hempty⟩
          · exact Or.inl hv2
          · exact Or.inr ⟨hv2, by simpa using hempty⟩
        · right
          refine ⟨hk2, ?_⟩
          rcases hv2 with hv2 | ⟨hv2, hempty⟩
          · exact Or.inl hv2
          · exact Or.inr ⟨hv2, by simpa using hempty⟩
      · exact absurd hbv (hno (marshalStatus enc action.oldData)
          (marshalStatus enc action.newData) (by simp [JsonObject.append, JsonObject.get]))
  · exfalso
    simp only [JsonObject.toList, List.mem_cons, Prod.mk.injEq, List.mem_nil_iff,
      or_false] at hold
    rcases hold with ⟨hk, _⟩ | ⟨hk, _⟩
    · subst hk
      simp [JsonObject.append, JsonObject.get] at hnone
    · subst hk
      simp [JsonObject.append, JsonObject.get] at hnone

/-- The call `patchAddOnProgressingAndLastApplied` makes, when it makes one. -/
theorem patch_action_eq (env : Env) (new old : ManagedClusterAddOn) (action : PatchAction)
    (h : action ∈ (patchAddOnProgressingAndLastApplied env new old).1) :
    action =
      { Namespace := new.Namespace, Name := new.Name, Subresource := "status"
        oldData :=
          { ConfigReferences := old.Status.ConfigReferences, Conditions := old.Status.Conditions }
        newData :=
          { UID := new.UID, ResourceVersion := new.ResourceVersion
            ConfigReferences := new.Status.ConfigReferences
            Conditions := new.Status.Conditions } } := by
  unfold patchAddOnProgressingAndLastApplied at h
  split at h
  · cases h
  · exact List.mem_singleton.mp h

/-- C21: the merge patch built by `patchAddOnProgressingAndLastApplied` has no member other
than `metadata`, an object with no member other than `uid` and `resourceVersion` (those of the
new addon), and `status`, an object with no member other than `conditions` and
`configReferences` (the new lists, or `null` when the new list is empty). This holds for every
way of encoding the API types in which the keys of an object are distinct. The payload depends
on nothing but these four fields of the new addon and the two status fields of the old one. -/
theorem C21_patch_payload_fields (enc : Encoding) (env : Env)
    (new old new2 old2 : ManagedClusterAddOn) (hwf : enc.wellFormed = true) :
    (∀ action ∈ (patchAddOnProgressingAndLastApplied env new old).1,
      ∀ k v, (k, v) ∈ (action.patchBytes enc).toList →
        (k = "metadata" ∧ ∃ m, v = .obj m ∧ ∀ k2 v2, (k2, v2) ∈ m.toList →
          (k2 = "uid" ∧ v2 = .str new.UID) ∨
          (k2 = "resourceVersion" ∧ v2 = .str new.ResourceVersion)) ∨
        (k = "status" ∧ ∃ m, v = .obj m ∧ ∀ k2 v2, (k2, v2) ∈ m.toList →
          (k2 = "conditions" ∧
            (v2 = .arr (JsonArray.ofList (new.Status.Conditions.map enc.condition)) ∨
              v2 = .null)) ∨
          (k2 = "configReferences" ∧
            (v2 = .arr (JsonArray.ofList
                (new.Status.ConfigReferences.map enc.configReference)) ∨
              v2 = .null)))) ∧
    (new2.UID = new.UID → new2.ResourceVersion = new.ResourceVersion →
      new2.Status.Conditions = new.Status.Conditions →
      new2.Status.ConfigReferences = new.Status.ConfigReferences →
      old2.Status.Conditions = old.Status.Conditions →
      old2.Status.ConfigReferences = old.Status.ConfigReferences →
      ∀ action ∈ (patchAddOnProgressingAndLastApplied env new old).1,
        ∀ action2 ∈ (patchAddOnProgressingAndLastApplied env new2 old2).1,
          action2.patchBytes enc = action.patchBytes enc) := by
  constructor
  · intro action haction k v hmem
    have heq := patch_action_eq env new old action haction
    have hnew : action.newData.UID = new.UID ∧
        action.newData.ResourceVersion = new.ResourceVersion ∧
        action.newData.Conditions = new.Status.Conditions ∧
        action.newData.ConfigReferences = new.Status.ConfigReferences := by
      rw [heq]
      exact ⟨rfl, rfl, rfl, rfl⟩
    have hold : action.oldData.UID = "" ∧ action.oldData.ResourceVersion = "" := by
      rw [heq]
      exact ⟨rfl, rfl⟩
    obtain ⟨huid, hversion, hconditions, hreferences⟩ := hnew
    rcases mem_patchBytes enc hwf action k v hmem with ⟨hk, m, hv, hm⟩ | ⟨hk, m, hv, hm⟩
    · left
      refine ⟨hk, m, hv, ?_⟩
      intro k2 v2 hmem2
      rcases hm k2 v2 hmem2 with ⟨hk2, hv2 | ⟨_, hne⟩⟩ | ⟨hk2, hv2 | ⟨_, hne⟩⟩
      · exact Or.inl ⟨hk2, by rw [hv2, huid]⟩
      · exact absurd hold.1 hne
      · exact Or.inr ⟨hk2, by rw [hv2, hversion]⟩
      · exact absurd hold.2 hne
    · right
      refine ⟨hk, m, hv, ?_⟩
      intro k2 v2 hmem2
      rcases hm k2 v2 hmem2 with ⟨hk2, hv2 | ⟨hv2, _⟩⟩ | ⟨hk2, hv2 | ⟨hv2, _⟩⟩
      · exact Or.inl ⟨hk2, Or.inl (by rw [hv2, hconditions])⟩
      · exact Or.inl ⟨hk2, Or.inr hv2⟩
      · exact Or.inr ⟨hk2, Or.inl (by rw [hv2, hreferences])⟩
      · exact Or.inr ⟨hk2, Or.inr hv2⟩
  · intro h1 h2 h3 h4 h5 h6 action haction action2 haction2
    rw [patch_action_eq env new old action haction,
      patch_action_eq env new2 old2 action2 haction2]
    simp only [PatchAction.patchBytes, marshalAddon, marshalObjectMeta, marshalStatus]
    rw [h1, h2, h3, h4, h5, h6]

/-- Witness of C21: the member `status` of the patch that records the Progressing condition of
the addon `cluster1/test` holds the new conditions and nothing else. -/
theorem C21_patch_payload_fields_witness :
    ("status" = "metadata" ∧ ∃ m, (Json.obj (.cons "conditions"
      (.arr (JsonArray.ofList (testPatchedAddon.Status.Conditions.map testEncoding.condition)))
      .nil)) = .obj m ∧ ∀ k2 v2, (k2, v2) ∈ m.toList →
          (k2 = "uid" ∧ v2 = .str testPatchedAddon.UID) ∨
          (k2 = "resourceVersion" ∧ v2 = .str testPatchedAddon.ResourceVersion)) ∨
        ("status" = "status" ∧ ∃ m, (Json.obj (.cons "conditions"
      (.arr (JsonArray.ofList (testPatchedAddon.Status.Conditions.map testEncoding.condition)))
      .nil)) = .obj m ∧ ∀ k2 v2, (k2, v2) ∈ m.toList →
          (k2 = "conditions" ∧
            (v2 = .arr (JsonArray.ofList (testPatchedAddon.Status.Conditions.map testEncoding.condition)) ∨
              v2 = .null)) ∨
          (k2 = "configReferences" ∧
            (v2 = .arr (JsonArray.ofList
                (testPatchedAddon.Status.ConfigReferences.map testEncoding.configReference)) ∨
              v2 = .null))) :=
  (C21_patch_payload_fields testEncoding (testEnv []) testPatchedAddon
    (testAddon [testConfigReference ""]) testPatchedAddon (testAddon [testConfigReference ""])
    (by decide)).1
    { Namespace := "cluster1", Name := "test", Subresource := "status"
      oldData :=
        { ConfigReferences := [testConfigReference ""], Conditions := [testManifestApplied] }
      newData :=
        { UID := "u1", ResourceVersion := "7"
          ConfigReferences := [testConfigReference ""]
          Conditions := [testManifestApplied, testInstallSucceed] } }
    (by decide) "status"
    (Json.obj (.cons "conditions"
      (.arr (JsonArray.ofList (testPatchedAddon.Status.Conditions.map testEncoding.condition)))
      .nil))
    (List.Mem.tail _ (List.Mem.head _))

/-! ## The claims, fourth part -/

/-- C31: `GetHostedModeInfo` returns `("Default", "")` if and only if the hosting cluster name
key is absent from the map; when the key is present with value `v` it returns `("Hosted", v)`,
also when `v` is the empty string. -/
theorem C31_hosted_mode_info (annotations : GoMap) :
    (GetHostedModeInfo annotations = (InstallModeDefault, "") ↔
      GoMap.get annotations HostingClusterNameAnnotation = none) ∧
    (∀ v, GoMap.get annotations HostingClusterNameAnnotation = some v →
      GetHostedModeInfo annotations = (InstallModeHosted, v)) ∧
    (GoMap.get annotations HostingClusterNameAnnotation = some "" →
      GetHostedModeInfo annotations = ("Hosted", "")) := by
  have hpresent : ∀ v, GoMap.get annotations HostingClusterNameAnnotation = some v →
      GetHostedModeInfo annotations = (InstallModeHosted, v) := by
    intro v h
    unfold GetHostedModeInfo
    rw [h]
  refine ⟨⟨?_, ?_⟩, hpresent, hpresent ""⟩
  · intro h
    cases hget : GoMap.get annotations HostingClusterNameAnnotation with
    | none => rfl
    | some v =>
      rw [hpresent v hget] at h
      have hmode : InstallModeHosted = InstallModeDefault := congrArg Prod.fst h
      exact absurd hmode (by decide)
  · intro h
    unfold GetHostedModeInfo
    rw [h]

/-- Witness of C31: a map that holds the key with an empty value, and the empty map. -/
theorem C31_hosted_mode_info_witness :
    GetHostedModeInfo [( HostingClusterNameAnnotation, "")] = ("Hosted", "") ∧
    GetHostedModeInfo [] = ("Default", "") :=
  ⟨(C31_hosted_mode_info [( HostingClusterNameAnnotation, "")]).2.2 (by decide),
    (C31_hosted_mode_info []).1.mpr (by decide)⟩

/-- The loop of `HealthCheck` looks at the first value named `ReadyReplicas` only. -/
theorem healthCheckLoop_eq (identifier : ResourceIdentifier) (values : List FeedbackValue) :
    healthCheckLoop identifier values =
      match values.find? (fun v => v.Name = "ReadyReplicas") with
      | none => some (some "readyReplica is not probed")
      | some value =>
        match value.Value.Integer with
        | none => none
        | some integer =>
          if integer ≥ 1 then some none
          else
            some (some ("readyReplica is " ++ toString integer ++ " for deployment "
              ++ identifier.Namespace ++ "/" ++ identifier.Name)) := by
  induction values with
  | nil => rfl
  | cons value rest ih =>
    unfold healthCheckLoop
    by_cases hname : value.Name = "ReadyReplicas"
    · simp only [hname, ne_eq, not_true_eq_false, if_false, List.find?_cons, decide_True]
    · simp only [hname, ne_eq, not_false_eq_true, if_true, List.find?_cons, decide_False]
      exact ih

/-- C36: `HealthCheck` on the first value named `ReadyReplicas`. It returns nil exactly when
that value carries an integer that is at least 1, and an error when there are no values, when
no value is named `ReadyReplicas`, and when the integer is below 1. When that value carries no
integer the dereference `*value.Value.Integer` panics: on a result whose `ReadyReplicas` is
reported as a string the call does not return. -/
theorem C36_health_check_nil_integer (identifier : ResourceIdentifier)
    (result : StatusFeedbackResult) :
    HealthCheck testIdentifier testStringReplicas = none ∧
    (HealthCheck identifier result = none ↔
      ∃ value, result.Values.find? (fun v => v.Name = "ReadyReplicas") = some value ∧
        value.Value.Integer = none) ∧
    (HealthCheck identifier result = some none ↔
      ∃ value integer, result.Values.find? (fun v => v.Name = "ReadyReplicas") = some value ∧
        value.Value.Integer = some integer ∧ 1 ≤ integer) ∧
    (result.Values = [] →
      HealthCheck identifier result = some (some ("no values are probed for deployment "
        ++ identifier.Namespace ++ "/" ++ identifier.Name))) ∧
    (result.Values ≠ [] → result.Values.find? (fun v => v.Name = "ReadyReplicas") = none →
      HealthCheck identifier result = some (some "readyReplica is not probed")) ∧
    (∀ value integer, result.Values.find? (fun v => v.Name = "ReadyReplicas") = some value →
      value.Value.Integer = some integer → integer < 1 →
      HealthCheck identifier result = some (some ("readyReplica is " ++ toString integer
        ++ " for deployment " ++ identifier.Namespace ++ "/" ++ identifier.Name))) := by
  have hfound : ∀ value, result.Values.find? (fun v => v.Name = "ReadyReplicas") = some value →
      HealthCheck identifier result =
        match value.Value.Integer with
        | none => none
        | some integer =>
          if integer ≥ 1 then some none
          else
            some (some ("readyReplica is " ++ toString integer ++ " for deployment "
              ++ identifier.Namespace ++ "/" ++ identifier.Name)) := by
    intro value hfind
    have hne : result.Values.length ≠ 0 := by
      intro hlen
      rw [List.length_eq_zero.mp hlen] at hfind
      cases hfind
    unfold HealthCheck
    rw [if_neg hne, healthCheckLoop_eq, hfind]
  have hmissing : result.Values.find? (fun v => v.Name = "ReadyReplicas") = none →
      ∃ err, HealthCheck identifier result = some (some err) := by
    intro hfind
    unfold HealthCheck
    split
    · exact ⟨_, rfl⟩
    · rw [healthCheckLoop_eq, hfind]
      exact ⟨_, rfl⟩
  refine ⟨by decide, ⟨?_, ?_⟩, ⟨?_, ?_⟩, ?_, ?_, ?_⟩
  · intro h
    cases hfind : result.Values.find? (fun v => v.Name = "ReadyReplicas") with
    | none =>
      obtain ⟨err, herr⟩ := hmissing hfind
      rw [herr] at h
      cases h
    | some value =>
      refine ⟨value, rfl, ?_⟩
      rw [hfound value hfind] at h
      cases hinteger : value.Value.Integer with
      | none => rfl
      | some integer =>
        rw [hinteger] at h
        simp only at h
        split at h <;> cases h
  · rintro ⟨value, hfind, hinteger⟩
    rw [hfound value hfind, hinteger]
  · intro h
    cases hfind : result.Values.find? (fun v => v.Name = "ReadyReplicas") with
    | none =>
      obtain ⟨err, herr⟩ := hmissing hfind
      rw [herr] at h
      cases h
    | some value =>
      rw [hfound value hfind] at h
      cases hinteger : value.Value.Integer with
      | none =>
        rw [hinteger] at h
        cases h
      | some integer =>
        rw [hinteger] at h
        simp only at h
        refine ⟨value, integer, rfl, hinteger, ?_⟩
        by_contra hlt
        rw [if_neg hlt] at h
        cases h
  · rintro ⟨value, integer, hfind, hinteger, hge⟩
    rw [hfound value hfind, hinteger]
    simp only
    rw [if_pos hge]
  · intro hempty
    unfold HealthCheck
    rw [hempty]
    rfl
  · intro hne hfind
    unfold HealthCheck
    rw [if_neg (fun hlen => hne (List.length_eq_zero.mp hlen)), healthCheckLoop_eq, hfind]
  · intro value integer hfind hinteger hlt
    rw [hfound value hfind, hinteger]
    simp only
    rw [if_neg (not_le.mpr hlt)]

/-! ## The loop over the works, record by record -/

theorem checkAddonWorks_first_failing {hook : String} {addon : ManagedClusterAddOn}
    {work : ManifestWork} (pre post : List ManifestWork)
    (hpre : ∀ v ∈ pre, HasPrefix v.Name hook = true ∨
      (workConfigsMatchesAddon v addon = true ∧ workIsReady v = true))
    (hhook : HasPrefix work.Name hook = false)
    (hfail : workConfigsMatchesAddon work addon = false ∨ workIsReady work = false) :
    checkAddonWorks hook addon (pre ++ work :: post) =
      some (if workConfigsMatchesAddon work addon = false then "configs mismatch"
        else "work is not ready") := by
  induction pre with
  | nil =>
    show checkAddonWorks hook addon (work :: post) = _
    unfold checkAddonWorks
    by_cases hm : workConfigsMatchesAddon work addon = true
    · rcases hfail with hfail | hfail
      · rw [hm] at hfail
        cases hfail
      · simp [hhook, hm, hfail]
    · simp [hhook, hm]
  | cons v rest ih =>
    have hrest := ih (fun u hu => hpre u (List.mem_cons_of_mem v hu))
    show checkAddonWorks hook addon (v :: (rest ++ work :: post)) = _
    unfold checkAddonWorks
    rcases hpre v (List.mem_cons_self v rest) with hv | ⟨hm, hr⟩
    · simp only [hv, if_true]
      exact hrest
    · by_cases hv : HasPrefix v.Name hook = true
      · simp only [hv, if_true]
        exact hrest
      · simp only [hv, hm, hr, Bool.not_true, if_false]
        exact hrest

theorem checkAddonWorks_replace_hook {hook : String} (addon : ManagedClusterAddOn)
    {hook1 hook2 : ManifestWork} (pre post : List ManifestWork)
    (hname : hook2.Name = hook1.Name) (hstarts : HasPrefix hook1.Name hook = true) :
    checkAddonWorks hook addon (pre ++ hook1 :: post)
      = checkAddonWorks hook addon (pre ++ hook2 :: post) := by
  induction pre with
  | nil =>
    show checkAddonWorks hook addon (hook1 :: post) = checkAddonWorks hook addon (hook2 :: post)
    unfold checkAddonWorks
    rw [hname]
    simp only [hstarts, if_true]
  | cons v rest ih =>
    show checkAddonWorks hook addon (v :: (rest ++ hook1 :: post))
      = checkAddonWorks hook addon (v :: (rest ++ hook2 :: post))
    unfold checkAddonWorks
    rw [ih]

theorem chosenState_of_list {env : Env} {newaddon : ManagedClusterAddOn}
    {works : List ManifestWork}
    (hlist : env.workLister newaddon.Namespace newaddon.Name = Except.ok works) :
    chosenState env newaddon =
      if works.length = 0 then (ProgressingDoing, "no addon works")
      else
        match checkAddonWorks (env.PreDeleteHookWorkName newaddon.Name) newaddon works with
        | some message => (ProgressingDoing, message)
        | none => (ProgressingSucceed, "") := by
  unfold chosenState
  rw [hlist]

theorem patchAndReturn_congr {env1 env2 : Env}
    (hclient : env1.addonClientPatch = env2.addonClientPatch) (state : Option String)
    (message : String) (newaddon oldaddon : ManagedClusterAddOn) :
    patchAndReturn env1 state message newaddon oldaddon
      = patchAndReturn env2 state message newaddon oldaddon := by
  unfold patchAndReturn patchAddOnProgressingAndLastApplied
  rw [hclient]

/-- A work that matches an addon with at least one config reference shows that every config
reference has a desired config with a non-empty hash. -/
theorem workConfigsMatchesAddon_desired {work : ManifestWork} {addon : ManagedClusterAddOn}
    (hmatch : workConfigsMatchesAddon work addon = true)
    (hrefs : addon.Status.ConfigReferences ≠ []) :
    ∀ r ∈ addon.Status.ConfigReferences,
      ∃ desired, r.DesiredConfig = some desired ∧ desired.SpecHash ≠ "" := by
  unfold workConfigsMatchesAddon at hmatch
  split at hmatch
  · exact absurd (List.length_eq_zero.mp (by simpa using hmatch)) hrefs
  · split at hmatch
    · cases hmatch
    · split at hmatch
      · cases hmatch
      · split at hmatch
        · cases hmatch
        · rename_i hany
          intro r hr
          have hall : ∀ x ∈ addon.Status.ConfigReferences,
              ¬ (match x.DesiredConfig with
                | none => true
                | some desired => decide (desired.SpecHash = "")) = true := by
            simpa using hany
          have hr := hall r hr
          cases hdesired : r.DesiredConfig with
          | none =>
            rw [hdesired] at hr
            exact absurd rfl hr
          | some desired =>
            rw [hdesired] at hr
            exact ⟨desired, rfl, by simpa using hr⟩

/-- C32: the works are evaluated in listing order and the first work that is not a pre-delete
hook work and fails a check decides: when every work before it is a hook work or passes both
checks, the state is Doing and the message is `configs mismatch` if the work fails the hash
match (also when it is not ready either) and `work is not ready` if it matches and is not
ready, whatever works come after it. Unless the write-skip applies, the Progressing condition
carries that message after `installing... ` or `upgrading... `. -/
theorem C32_first_failing_record_decides (env : Env) (newaddon oldaddon : ManagedClusterAddOn)
    (pre post : List ManifestWork) (work : ManifestWork)
    (hsupported : (isConfigurationSupported newaddon).1 = true)
    (happlied : FindStatusCondition newaddon.Status.Conditions
      ManagedClusterAddOnManifestApplied ≠ none)
    (hlist : env.workLister newaddon.Namespace newaddon.Name = Except.ok (pre ++ work :: post))
    (hpre : ∀ v ∈ pre, HasPrefix v.Name (env.PreDeleteHookWorkName newaddon.Name) = true ∨
      (workConfigsMatchesAddon v newaddon = true ∧ workIsReady v = true))
    (hhook : HasPrefix work.Name (env.PreDeleteHookWorkName newaddon.Name) = false)
    (hfail : workConfigsMatchesAddon work newaddon = false ∨ workIsReady work = false) :
    (updateAddonProgressingAndLastApplied env newaddon oldaddon).state = some ProgressingDoing ∧
    (workConfigsMatchesAddon work newaddon = false → (updateAddonProgressingAndLastApplied env newaddon oldaddon).message = "configs mismatch") ∧
    (workConfigsMatchesAddon work newaddon = true → (updateAddonProgressingAndLastApplied env newaddon oldaddon).message = "work is not ready") ∧
    (skipProgressingUpdate newaddon = false →
      ∃ c, FindStatusCondition (updateAddonProgressingAndLastApplied env newaddon oldaddon).addon.Status.Conditions
          ManagedClusterAddOnConditionProgressing = some c ∧
        c.Status = ConditionTrue ∧
        c.Message = (if isUpgradeFlag newaddon then "upgrading... " else "installing... ")
          ++ (updateAddonProgressingAndLastApplied env newaddon oldaddon).message) := by
  have hcheck := checkAddonWorks_first_failing pre post hpre hhook hfail
  have hrun : (updateAddonProgressingAndLastApplied env newaddon oldaddon) =
      patchAndReturn env (some ProgressingDoing)
        (if workConfigsMatchesAddon work newaddon = false then "configs mismatch"
          else "work is not ready")
        (setAddOnProgressingAndLastApplied env.now (isUpgradeFlag newaddon) ProgressingDoing
          (if workConfigsMatchesAddon work newaddon = false then "configs mismatch"
            else "work is not ready") newaddon) oldaddon := by
    rw [update_of_listed oldaddon hsupported happlied hlist (by simp), hcheck]
  rw [hrun]
  refine ⟨rfl, ?_, ?_, ?_⟩
  · intro hm
    simp only [patchAndReturn]
    rw [if_pos hm]
  · intro hm
    simp only [patchAndReturn]
    rw [if_neg (by rw [hm]; decide)]
  · intro hskip
    simp only [patchAndReturn]
    obtain ⟨c, hc, hstatus, _, hmessage⟩ :=
      setAddOn_condition env.now (isUpgradeFlag newaddon) ProgressingDoing
        (if workConfigsMatchesAddon work newaddon = false then "configs mismatch"
          else "work is not ready") hskip
    have hpc := progressingCondition_doing (isUpgradeFlag newaddon)
      (if workConfigsMatchesAddon work newaddon = false then "configs mismatch"
        else "work is not ready")
    refine ⟨c, hc, hstatus.trans hpc.1, ?_⟩
    rw [hmessage, hpc.2.2]
    cases isUpgradeFlag newaddon <;> rfl

/-- Witness of C32: a work with an old hash comes first, a work that is not available second:
the message is `configs mismatch`. -/
theorem C32_first_failing_record_decides_witness :
    (updateAddonProgressingAndLastApplied (testEnv testFailingWorks)
      (testAddon [testConfigReference ""]) (testAddon [testConfigReference ""])).message
      = "configs mismatch" :=
  (C32_first_failing_record_decides (testEnv testFailingWorks)
    (testAddon [testConfigReference ""]) (testAddon [testConfigReference ""])
    [] [testWork "hashnew" "True" "False"]
    { testWork "hashold" "True" "True" with Name := "addon-test-deploy-0" }
    (by decide) (by decide) rfl (fun _ h => nomatch h) (by decide)
    (Or.inl (by decide))).2.1 (by decide)

/-- C33: the content of a pre-delete hook work never influences the run. When one work of the
list whose name starts with the pre-delete hook work name is replaced by any other work of the
same name, the run has the same outcome: the same addon, state, message, client calls and
error. -/
theorem C33_hook_record_content_ignored (env1 env2 : Env)
    (newaddon oldaddon : ManagedClusterAddOn) (pre post : List ManifestWork)
    (hook1 hook2 : ManifestWork)
    (hnow : env1.now = env2.now)
    (hhook : env1.PreDeleteHookWorkName = env2.PreDeleteHookWorkName)
    (hclient : env1.addonClientPatch = env2.addonClientPatch)
    (hlist1 : env1.workLister newaddon.Namespace newaddon.Name
      = Except.ok (pre ++ hook1 :: post))
    (hlist2 : env2.workLister newaddon.Namespace newaddon.Name
      = Except.ok (pre ++ hook2 :: post))
    (hname : hook2.Name = hook1.Name)
    (hstarts : HasPrefix hook1.Name (env1.PreDeleteHookWorkName newaddon.Name) = true) :
    updateAddonProgressingAndLastApplied env1 newaddon oldaddon
      = updateAddonProgressingAndLastApplied env2 newaddon oldaddon := by
  rcases isConfigurationSupported_cases newaddon with hs | ⟨config, hs⟩
  · by_cases ha : FindStatusCondition newaddon.Status.Conditions
        ManagedClusterAddOnManifestApplied = none
    · rw [@update_of_waiting env1 newaddon oldaddon (by rw [hs]) ha,
        @update_of_waiting env2 newaddon oldaddon (by rw [hs]) ha, hnow]
      exact patchAndReturn_congr hclient _ _ _ _
    · have hchosen : chosenState env1 newaddon = chosenState env2 newaddon := by
        rw [chosenState_of_list hlist1, chosenState_of_list hlist2, ← hhook,
          checkAddonWorks_replace_hook newaddon pre post hname hstarts]
        simp
      rw [@update_of_gates env1 newaddon oldaddon (by rw [hs]) ha,
        @update_of_gates env2 newaddon oldaddon (by rw [hs]) ha, hchosen, hnow]
      exact patchAndReturn_congr hclient _ _ _ _
  · rw [@update_of_unsupported env1 newaddon oldaddon config hs,
      @update_of_unsupported env2 newaddon oldaddon config hs, hnow]
    exact patchAndReturn_congr hclient _ _ _ _

/-- Witness of C33: the hook work of the test cases replaced by a hook work with an
annotation that is not JSON and with conditions, next to a ready work. -/
theorem C33_hook_record_content_ignored_witness :
    updateAddonProgressingAndLastApplied
        (testEnv [testWork "hashnew" "True" "True", testHookWork])
        (testAddon [testConfigReference ""]) (testAddon [testConfigReference ""])
      = updateAddonProgressingAndLastApplied
        (testEnv [testWork "hashnew" "True" "True",
          { testAnnotatedWork "not json" with Name := "addon-test-pre-delete" }])
        (testAddon [testConfigReference ""]) (testAddon [testConfigReference ""]) :=
  C33_hook_record_content_ignored
    (testEnv [testWork "hashnew" "True" "True", testHookWork])
    (testEnv [testWork "hashnew" "True" "True",
      { testAnnotatedWork "not json" with Name := "addon-test-pre-delete" }])
    (testAddon [testConfigReference ""]) (testAddon [testConfigReference ""])
    [testWork "hashnew" "True" "True"] [] testHookWork
    { testAnnotatedWork "not json" with Name := "addon-test-pre-delete" }
    rfl rfl rfl rfl rfl rfl (by decide)

/-- C34: for an addon with at least one config reference and a list of works with at least
one work that is not a pre-delete hook work, when the run reaches Succeed every config
reference of the resulting status has a last applied config, equal to its desired config, with
a non-empty hash. -/
theorem C34_succeed_markers_stamped (env : Env) (newaddon oldaddon : ManagedClusterAddOn)
    (works : List ManifestWork)
    (hrefs : newaddon.Status.ConfigReferences ≠ [])
    (hlist : env.workLister newaddon.Namespace newaddon.Name = Except.ok works)
    (hnonhook : ∃ work ∈ works, HasPrefix work.Name (env.PreDeleteHookWorkName newaddon.Name) = false)
    (hstate : (updateAddonProgressingAndLastApplied env newaddon oldaddon).state = some ProgressingSucceed) :
    ∀ r ∈ (updateAddonProgressingAndLastApplied env newaddon oldaddon).addon.Status.ConfigReferences,
      ∃ lastApplied, r.LastAppliedConfig = some lastApplied ∧ lastApplied.SpecHash ≠ "" ∧
        r.DesiredConfig = some lastApplied := by
  have hs : (isConfigurationSupported newaddon).1 = true := by
    by_contra hs
    rw [update_state_none_of_gate env newaddon oldaddon (Or.inl (by simpa using hs))] at hstate
    cases hstate
  have ha : FindStatusCondition newaddon.Status.Conditions
      ManagedClusterAddOnManifestApplied ≠ none := by
    intro ha
    rw [update_state_none_of_gate env newaddon oldaddon (Or.inr ha)] at hstate
    cases hstate
  rw [update_of_gates oldaddon hs ha] at hstate ⊢
  simp only [patchAndReturn] at hstate ⊢
  have hsucceed : (chosenState env newaddon).1 = ProgressingSucceed := Option.some.inj hstate
  have hcheck : checkAddonWorks (env.PreDeleteHookWorkName newaddon.Name) newaddon works = none := by
    have h := hsucceed
    rw [chosenState_of_list hlist] at h
    split at h
    · exact absurd h (by decide)
    · cases hc : checkAddonWorks (env.PreDeleteHookWorkName newaddon.Name) newaddon works with
      | none => rfl
      | some message =>
        rw [hc] at h
        have hdoing : ProgressingDoing = ProgressingSucceed := h
        exact absurd hdoing (by decide)
  obtain ⟨work, hwork, hworkhook⟩ := hnonhook
  have hmatch := ((checkAddonWorks_none_iff _ _ _).mp hcheck work hwork hworkhook).1
  have hdesired := workConfigsMatchesAddon_desired hmatch hrefs
  rw [hsucceed]
  intro r hr
  have hlast := setAddOn_refs_succeed env.now (isUpgradeFlag newaddon)
    (chosenState env newaddon).2 newaddon r hr
  have hfrom : ∃ r0 ∈ newaddon.Status.ConfigReferences, r.DesiredConfig = r0.DesiredConfig := by
    cases hskip : skipProgressingUpdate newaddon with
    | true =>
      rw [setAddOn_of_skip hskip] at hr
      exact ⟨r, hr, rfl⟩
    | false =>
      rw [setAddOn_eq_of_not_skip _ _ _ _ hskip] at hr
      simp only [if_true, List.mem_map] at hr
      obtain ⟨r0, hr0, rfl⟩ := hr
      exact ⟨r0, hr0, rfl⟩
  obtain ⟨r0, hr0, hsame⟩ := hfrom
  obtain ⟨desired, hd, hhash⟩ := hdesired r0 hr0
  exact ⟨desired, by rw [hlast, hsame, hd], hhash, by rw [hsame, hd]⟩

/-- Witness of C34: the successful install of the test cases stamps the hash `hashnew`. -/
theorem C34_succeed_markers_stamped_witness :
    ∃ lastApplied, (testConfigReference "hashnew").LastAppliedConfig = some lastApplied ∧
      lastApplied.SpecHash ≠ "" ∧
      (testConfigReference "hashnew").DesiredConfig = some lastApplied :=
  C34_succeed_markers_stamped (testEnv [testWork "hashnew" "True" "True"])
    (testAddon [testConfigReference ""]) (testAddon [testConfigReference ""])
    [testWork "hashnew" "True" "True"] (by decide) rfl
    ⟨testWork "hashnew" "True" "True", by decide, by decide⟩ (by decide)
    (testConfigReference "hashnew") (by decide)

/-! ## Conditions that differ in their message only -/

theorem setStatusCondition_map_message (now : Time) (conditions : List Condition)
    (n : Condition) (a : String) :
    (SetStatusCondition now conditions { n with Message := a }).map (fun c : Condition => { c with Message := "" })
      = (SetStatusCondition now conditions n).map (fun c : Condition => { c with Message := "" }) := by
  obtain ⟨t, st, g, l, r, m⟩ := n
  unfold SetStatusCondition
  dsimp only
  cases FindStatusCondition conditions t with
  | none =>
    dsimp only
    rw [List.map_append, List.map_append]
    congr 1
    by_cases ht : l = 0
    · simp [ht]
    · simp [ht]
  | some existing =>
    dsimp only
    induction conditions with
    | nil => rfl
    | cons d rest ih =>
      rw [updateFirstCondition_cons, updateFirstCondition_cons]
      dsimp only
      by_cases hd : d.Type_ = t
      · rw [if_pos hd, if_pos hd, List.map_cons, List.map_cons]
        congr 1
      · rw [if_neg hd, if_neg hd, List.map_cons, List.map_cons, ih]

theorem progressingCondition_message (isUpgrade : Bool) (status message1 message2 : String) :
    progressingCondition isUpgrade status message1 =
      { progressingCondition isUpgrade status message2 with
        Message := (progressingCondition isUpgrade status message1).Message } := by
  unfold progressingCondition
  split
  · cases isUpgrade <;> rfl
  · split
    · cases isUpgrade <;> rfl
    · split
      · cases isUpgrade <;> rfl
      · rfl

/-- The message handed to `setAddOnProgressingAndLastApplied` reaches the message of the
Progressing condition and nothing else. -/
theorem setAddOn_message_only (now : Time) (isUpgrade : Bool) (status message1 message2 : String)
    (addon : ManagedClusterAddOn) :
    (setAddOnProgressingAndLastApplied now isUpgrade status message1
        addon).Status.ConfigReferences
      = (setAddOnProgressingAndLastApplied now isUpgrade status message2
        addon).Status.ConfigReferences ∧
    (setAddOnProgressingAndLastApplied now isUpgrade status message1
        addon).Status.Conditions.map (fun c : Condition => { c with Message := "" })
      = (setAddOnProgressingAndLastApplied now isUpgrade status message2
        addon).Status.Conditions.map (fun c : Condition => { c with Message := "" }) := by
  cases hskip : skipProgressingUpdate addon with
  | true =>
    rw [setAddOn_of_skip hskip, setAddOn_of_skip hskip]
    exact ⟨rfl, rfl⟩
  | false =>
    rw [setAddOn_eq_of_not_skip _ _ _ _ hskip, setAddOn_eq_of_not_skip _ _ _ _ hskip]
    refine ⟨rfl, ?_⟩
    show (SetStatusCondition now addon.Status.Conditions
        (progressingCondition isUpgrade status message1)).map (fun c : Condition => { c with Message := "" })
      = (SetStatusCondition now addon.Status.Conditions
        (progressingCondition isUpgrade status message2)).map (fun c : Condition => { c with Message := "" })
    rw [progressingCondition_message isUpgrade status message1 message2,
      setStatusCondition_map_message]

theorem findStatusCondition_of_map_message : ∀ (l1 l2 : List Condition) (t : String),
    l1.map (fun c : Condition => { c with Message := "" }) = l2.map (fun c : Condition => { c with Message := "" }) →
    (FindStatusCondition l1 t).map (fun c : Condition => (c.Status, c.Reason)) = (FindStatusCondition l2 t).map (fun c : Condition => (c.Status, c.Reason))
  | [], [], _, _ => rfl
  | [], _ :: _, _, h => by simp at h
  | _ :: _, [], _, h => by simp at h
  | c1 :: rest1, c2 :: rest2, t, h => by
    simp only [List.map_cons, List.cons.injEq] at h
    have hfields := h.1
    simp only [Condition.mk.injEq] at hfields
    have htype : c1.Type_ = c2.Type_ := hfields.1
    have hstatus : c1.Status = c2.Status := hfields.2.1
    have hreason : c1.Reason = c2.Reason := hfields.2.2.2.2.1
    rw [findStatusCondition_cons, findStatusCondition_cons, ← htype]
    by_cases hc : c1.Type_ = t
    · rw [if_pos hc, if_pos hc]
      simp [hstatus, hreason]
    · rw [if_neg hc, if_neg hc]
      exact findStatusCondition_of_map_message rest1 rest2 t h.2

/-- The state chosen for two listings that are permutations of each other is the same, and so
is the message unless the state is Doing. -/
theorem chosenState_perm {env1 env2 : Env} {newaddon : ManagedClusterAddOn}
    {works1 works2 : List ManifestWork}
    (hhook : env1.PreDeleteHookWorkName = env2.PreDeleteHookWorkName)
    (hlist1 : env1.workLister newaddon.Namespace newaddon.Name = Except.ok works1)
    (hlist2 : env2.workLister newaddon.Namespace newaddon.Name = Except.ok works2)
    (hperm : works1.Perm works2) :
    (chosenState env1 newaddon).1 = (chosenState env2 newaddon).1 ∧
    ((chosenState env1 newaddon).1 ≠ ProgressingDoing ∨ works1 = [] →
      (chosenState env1 newaddon).2 = (chosenState env2 newaddon).2) := by
  rw [chosenState_of_list hlist1, chosenState_of_list hlist2, ← hhook, hperm.length_eq]
  have hnone : checkAddonWorks (env1.PreDeleteHookWorkName newaddon.Name) newaddon works1 = none ↔
      checkAddonWorks (env1.PreDeleteHookWorkName newaddon.Name) newaddon works2 = none := by
    rw [checkAddonWorks_none_iff, checkAddonWorks_none_iff]
    constructor
    · intro h work hwork
      exact h work (hperm.mem_iff.mpr hwork)
    · intro h work hwork
      exact h work (hperm.mem_iff.mp hwork)
  by_cases hlen : works2.length = 0
  · rw [if_pos hlen, if_pos hlen]
    exact ⟨rfl, fun _ => rfl⟩
  · rw [if_neg hlen, if_neg hlen]
    cases h1 : checkAddonWorks (env1.PreDeleteHookWorkName newaddon.Name) newaddon works1 with
    | none =>
      rw [hnone.mp h1]
      exact ⟨rfl, fun _ => rfl⟩
    | some message1 =>
      cases h2 : checkAddonWorks (env1.PreDeleteHookWorkName newaddon.Name) newaddon works2 with
      | none =>
        rw [hnone.mpr h2] at h1
        cases h1
      | some message2 =>
        refine ⟨rfl, ?_⟩
        rintro (hne | hempty)
        · exact absurd rfl hne
        · rw [hempty] at hperm
          rw [List.Perm.eq_nil (List.Perm.symm hperm)] at hlen
          exact absurd rfl hlen

/-- C35: the classification does not depend on the listing order. For two listings that are
permutations of each other the run chooses the same state and leaves the same config
references and the same conditions up to their messages; in particular the Progressing
condition has the same status and reason. Unless the state is Doing the whole addon and the
message are the same. -/
theorem C35_listing_order_irrelevant (env1 env2 : Env) (newaddon oldaddon : ManagedClusterAddOn)
    (works1 works2 : List ManifestWork)
    (hnow : env1.now = env2.now)
    (hhook : env1.PreDeleteHookWorkName = env2.PreDeleteHookWorkName)
    (hlist1 : env1.workLister newaddon.Namespace newaddon.Name = Except.ok works1)
    (hlist2 : env2.workLister newaddon.Namespace newaddon.Name = Except.ok works2)
    (hperm : works1.Perm works2) :
    (updateAddonProgressingAndLastApplied env1 newaddon oldaddon).state = (updateAddonProgressingAndLastApplied env2 newaddon oldaddon).state ∧
    (updateAddonProgressingAndLastApplied env1 newaddon oldaddon).addon.Status.ConfigReferences = (updateAddonProgressingAndLastApplied env2 newaddon oldaddon).addon.Status.ConfigReferences ∧
    (updateAddonProgressingAndLastApplied env1 newaddon oldaddon).addon.Status.Conditions.map (fun c : Condition => { c with Message := "" })
      = (updateAddonProgressingAndLastApplied env2 newaddon oldaddon).addon.Status.Conditions.map (fun c : Condition => { c with Message := "" }) ∧
    (FindStatusCondition (updateAddonProgressingAndLastApplied env1 newaddon oldaddon).addon.Status.Conditions
        ManagedClusterAddOnConditionProgressing).map (fun c : Condition => (c.Status, c.Reason))
      = (FindStatusCondition (updateAddonProgressingAndLastApplied env2 newaddon oldaddon).addon.Status.Conditions
        ManagedClusterAddOnConditionProgressing).map (fun c : Condition => (c.Status, c.Reason)) ∧
    ((updateAddonProgressingAndLastApplied env1 newaddon oldaddon).state ≠ some ProgressingDoing →
      (updateAddonProgressingAndLastApplied env1 newaddon oldaddon).addon = (updateAddonProgressingAndLastApplied env2 newaddon oldaddon).addon ∧ (updateAddonProgressingAndLastApplied env1 newaddon oldaddon).message = (updateAddonProgressingAndLastApplied env2 newaddon oldaddon).message) := by
  have hmain : (updateAddonProgressingAndLastApplied env1 newaddon oldaddon).state = (updateAddonProgressingAndLastApplied env2 newaddon oldaddon).state ∧
      (updateAddonProgressingAndLastApplied env1 newaddon oldaddon).addon.Status.ConfigReferences = (updateAddonProgressingAndLastApplied env2 newaddon oldaddon).addon.Status.ConfigReferences ∧
      (updateAddonProgressingAndLastApplied env1 newaddon oldaddon).addon.Status.Conditions.map (fun c : Condition => { c with Message := "" })
        = (updateAddonProgressingAndLastApplied env2 newaddon oldaddon).addon.Status.Conditions.map (fun c : Condition => { c with Message := "" }) ∧
      ((updateAddonProgressingAndLastApplied env1 newaddon oldaddon).state ≠ some ProgressingDoing →
        (updateAddonProgressingAndLastApplied env1 newaddon oldaddon).addon = (updateAddonProgressingAndLastApplied env2 newaddon oldaddon).addon ∧ (updateAddonProgressingAndLastApplied env1 newaddon oldaddon).message = (updateAddonProgressingAndLastApplied env2 newaddon oldaddon).message) := by
    rcases isConfigurationSupported_cases newaddon with hs | ⟨config, hs⟩
    · by_cases ha : FindStatusCondition newaddon.Status.Conditions
          ManagedClusterAddOnManifestApplied = none
      · rw [@update_of_waiting env1 newaddon oldaddon (by rw [hs]) ha,
          @update_of_waiting env2 newaddon oldaddon (by rw [hs]) ha, hnow]
        exact ⟨rfl, rfl, rfl, fun _ => ⟨rfl, rfl⟩⟩
      · obtain ⟨hstate, hmessage⟩ := chosenState_perm hhook hlist1 hlist2 hperm
        rw [@update_of_gates env1 newaddon oldaddon (by rw [hs]) ha,
          @update_of_gates env2 newaddon oldaddon (by rw [hs]) ha, hnow]
        simp only [patchAndReturn]
        rw [hstate]
        obtain ⟨hrefs, hconditions⟩ := setAddOn_message_only env2.now (isUpgradeFlag newaddon)
          (chosenState env2 newaddon).1 (chosenState env1 newaddon).2
          (chosenState env2 newaddon).2 newaddon
        refine ⟨rfl, hrefs, hconditions, ?_⟩
        intro hne
        have hsame := hmessage (Or.inl (fun h => hne (by rw [← hstate, h])))
        rw [hsame]
        exact ⟨rfl, rfl⟩
    · rw [@update_of_unsupported env1 newaddon oldaddon config hs,
        @update_of_unsupported env2 newaddon oldaddon config hs, hnow]
      exact ⟨rfl, rfl, rfl, fun _ => ⟨rfl, rfl⟩⟩
  exact ⟨hmain.1, hmain.2.1, hmain.2.2.1,
    findStatusCondition_of_map_message _ _ _ hmain.2.2.1, hmain.2.2.2⟩

/-- Witness of C35: the two failing works of the examples in either order. The state is Doing
both times, the messages differ. -/
theorem C35_listing_order_irrelevant_witness :
    (updateAddonProgressingAndLastApplied (testEnv testFailingWorks)
      (testAddon [testConfigReference ""]) (testAddon [testConfigReference ""])).state
      = (updateAddonProgressingAndLastApplied (testEnv testFailingWorks.reverse)
        (testAddon [testConfigReference ""]) (testAddon [testConfigReference ""])).state ∧
    (updateAddonProgressingAndLastApplied (testEnv testFailingWorks)
      (testAddon [testConfigReference ""]) (testAddon [testConfigReference ""])).message
      ≠ (updateAddonProgressingAndLastApplied (testEnv testFailingWorks.reverse)
        (testAddon [testConfigReference ""]) (testAddon [testConfigReference ""])).message :=
  ⟨(C35_listing_order_irrelevant (testEnv testFailingWorks)
      (testEnv testFailingWorks.reverse)
      (testAddon [testConfigReference ""]) (testAddon [testConfigReference ""])
      testFailingWorks testFailingWorks.reverse rfl rfl rfl rfl
      (List.reverse_perm testFailingWorks).symm).1,
    by decide⟩

/-! ## Documents that are not a string-to-string object -/

theorem jsonMember_of_null {input : List Char} {member : String × String} {more : Bool}
    {rest : List Char} (hnull : jsonMemberIsNull input = true)
    (h : jsonMember input = some (member, more, rest)) : member.2 = "" := by
  unfold jsonMemberIsNull at hnull
  unfold jsonMember at h
  split at hnull
  · rename_i rest0
    simp only at h
    cases hkey : jsonString rest0 with
    | none => rw [hkey] at hnull; cases hnull
    | some r =>
      obtain ⟨key, afterKey⟩ := r
      rw [hkey] at hnull h
      simp only at hnull h
      split at hnull
      · rename_i afterColon hcolon
        rw [hcolon] at h
        simp only at h
        split at hnull
        · rename_i tail hn
          rw [hn] at h
          unfold jsonStringValue at h
          split at h
          · cases h
          · rename_i value afterValue hvalue
            have hempty : value = "" := by
              split at hvalue
              · rename_i hquote
                simp at hquote
              · simp only [Option.some.injEq, Prod.mk.injEq] at hvalue
                exact hvalue.1.symm
              · cases hvalue
            subst hempty
            split at h
            · split at h
              · cases h
                rfl
              · split at h
                · cases h
                  rfl
                · cases h
            · cases h
        · cases hnull
      · cases hnull
  · cases hnull

theorem jsonWrittenMembers_untag (fuel : Nat) : ∀ input : List Char,
    jsonMembers fuel input =
      (jsonWrittenMembers fuel input).map
        (fun p => (p.1.map (fun member => (member.1, member.2.getD "")), p.2)) := by
  induction fuel with
  | zero =>
    intro input
    rfl
  | succ fuel ih =>
    intro input
    unfold jsonMembers jsonWrittenMembers
    cases hmember : jsonMember input with
    | none => rfl
    | some r =>
      obtain ⟨member, more, rest⟩ := r
      have huntag : (member.1,
          (if jsonMemberIsNull input = true then none else some member.2).getD "") = member := by
        by_cases hnull : jsonMemberIsNull input = true
        · rw [if_pos hnull]
          have hempty := jsonMember_of_null hnull hmember
          exact Prod.ext rfl hempty.symm
        · rw [if_neg hnull]
          rfl
      cases more with
      | true =>
        simp only
        rw [ih rest]
        cases jsonWrittenMembers fuel rest with
        | none => rfl
        | some r2 =>
          simp only [Option.map_some', List.map_cons, huntag]
      | false =>
        simp only [Option.map_some', List.map_cons, List.map_nil, huntag]

theorem jsonWrittenObject_untag {data : String} {members : List (String × String)}
    (h : jsonObjectMembers data = some members) (hnull : jsonIsNull data = false) :
    ∃ written, jsonWrittenObject data = some written ∧
      written.map (fun member => (member.1, member.2.getD "")) = members := by
  unfold jsonObjectMembers at h
  unfold jsonIsNull at hnull
  unfold jsonWrittenObject
  split at h
  · rename_i rest hdoc
    rw [hdoc] at hnull
    simp only [decide_eq_false_iff_not] at hnull
    rw [if_neg hnull] at h
    cases h
  · rename_i c rest hnot hdoc
    rw [hdoc]
    simp only
    by_cases hc : c = Char.ofNat 123
    · rw [if_pos hc] at h ⊢
      cases hrest : jsonSkipSpace rest with
      | nil =>
        rw [hrest] at h
        cases h
      | cons d rest1 =>
        rw [hrest] at h
        simp only at h ⊢
        by_cases hd : d = Char.ofNat 125
        · rw [if_pos hd] at h ⊢
          by_cases hend : jsonSkipSpace rest1 = []
          · rw [if_pos hend] at h ⊢
            cases h
            exact ⟨[], rfl, rfl⟩
          · rw [if_neg hend] at h
            cases h
        · rw [if_neg hd] at h ⊢
          rw [jsonWrittenMembers_untag] at h
          cases hwritten : jsonWrittenMembers data.length (d :: rest1) with
          | none =>
            rw [hwritten] at h
            cases h
          | some r =>
            obtain ⟨written, tail⟩ := r
            rw [hwritten] at h
            simp only [Option.map_some'] at h ⊢
            by_cases hend : jsonSkipSpace tail = []
            · rw [if_pos hend] at h ⊢
              cases h
              exact ⟨written, rfl, rfl⟩
            · rw [if_neg hend] at h
              cases h
    · rw [if_neg hc] at h
      cases h
  · cases h

theorem GoMap.get_put (m : GoMap) (k v k2 : String) :
    GoMap.get (GoMap.put m k v) k2 = if k = k2 then some v else GoMap.get m k2 := by
  induction m with
  | nil =>
    simp [GoMap.put, GoMap.get]
  | cons kv rest ih =>
    obtain ⟨k1, v1⟩ := kv
    unfold GoMap.put
    by_cases h1 : k1 = k
    · subst h1
      by_cases h2 : k1 = k2
      · simp [GoMap.get, h2]
      · simp [GoMap.get, h2]
    · simp only [if_neg h1]
      by_cases h2 : k1 = k2
      · have h3 : ¬ k = k2 := fun h => h1 (h2.trans h.symm)
        simp [GoMap.get, h2, h3]
      · simp only [GoMap.get, if_neg h2]
        exact ih

theorem jsonLastValue_cons {α : Type} (key : String) (value : α) (rest : List (String × α))
    (k : String) :
    jsonLastValue ((key, value) :: rest) k =
      match jsonLastValue rest k with
      | some later => some later
      | none => if key = k then some value else none := rfl

/-- A map built member by member holds for every key the value of its last member. -/
theorem GoMap.get_foldl_put (members : List (String × String)) : ∀ (init : GoMap) (k : String),
    GoMap.get (members.foldl (fun m kv => GoMap.put m kv.1 kv.2) init) k =
      match jsonLastValue members k with
      | some value => some value
      | none => GoMap.get init k := by
  induction members with
  | nil =>
    intro init k
    rfl
  | cons kv rest ih =>
    intro init k
    obtain ⟨key, value⟩ := kv
    rw [List.foldl_cons, ih, jsonLastValue_cons]
    cases jsonLastValue rest k with
    | some later => rfl
    | none =>
      simp only
      rw [GoMap.get_put]
      by_cases hk : key = k
      · rw [if_pos hk, if_pos hk]
      · rw [if_neg hk, if_neg hk]

theorem jsonLastValue_map {α β : Type} (f : α → β) (members : List (String × α)) (k : String) :
    jsonLastValue (members.map (fun member => (member.1, f member.2))) k
      = (jsonLastValue members k).map f := by
  induction members with
  | nil => rfl
  | cons kv rest ih =>
    obtain ⟨key, value⟩ := kv
    rw [List.map_cons, jsonLastValue_cons, jsonLastValue_cons, ih]
    cases jsonLastValue rest k with
    | some later => rfl
    | none =>
      simp only [Option.map_none']
      by_cases hk : key = k
      · rw [if_pos hk, if_pos hk]
        rfl
      · rw [if_neg hk, if_neg hk]
        rfl

theorem jsonLastValue_of_mem {α : Type} (members : List (String × α)) (member : String × α)
    (h : member ∈ members) : jsonLastValue members member.1 ≠ none := by
  induction members with
  | nil => cases h
  | cons kv rest ih =>
    obtain ⟨key, value⟩ := kv
    rw [jsonLastValue_cons]
    cases hlater : jsonLastValue rest member.1 with
    | some later => exact nofun
    | none =>
      simp only
      rcases List.mem_cons.mp h with heq | hmem
      · rw [heq]
        simp
      · exact absurd hlater (ih hmem)

/-- A document that is neither `null` nor a valid string-to-string object, if it unmarshals at
all, leaves a map with an empty value. -/
theorem jsonUnmarshalStringMap_of_invalid {data : String} {m : GoMap}
    (hnull : jsonIsNull data = false) (hinvalid : jsonIsStringObject data = false)
    (h : jsonUnmarshalStringMap data = some m) :
    m.any (fun kv => kv.2 = "") = true := by
  unfold jsonUnmarshalStringMap at h
  cases hmembers : jsonObjectMembers data with
  | none =>
    rw [hmembers] at h
    cases h
  | some members =>
    rw [hmembers] at h
    simp only [Option.some.injEq] at h
    obtain ⟨written, hwritten, huntag⟩ := jsonWrittenObject_untag hmembers hnull
    unfold jsonIsStringObject at hinvalid
    rw [hwritten] at hinvalid
    simp only at hinvalid
    have hsome : ∃ member ∈ written, jsonLastValue written member.1 = some none := by
      by_contra hall
      push_neg at hall
      have : written.all (fun member =>
          match jsonLastValue written member.1 with
          | some (some _) => true
          | _ => false) = true := by
        rw [List.all_eq_true]
        intro member hmem
        have h1 := hall member hmem
        have h2 := jsonLastValue_of_mem written member hmem
        cases hlast : jsonLastValue written member.1 with
        | none => exact absurd hlast h2
        | some value =>
          cases value with
          | none => exact absurd hlast h1
          | some text => rfl
      rw [this] at hinvalid
      cases hinvalid
    obtain ⟨member, _, hlast⟩ := hsome
    have hget : GoMap.get m member.1 = some "" := by
      have hmap : jsonLastValue (written.map (fun member => (member.1, member.2.getD "")))
          member.1 = (jsonLastValue written member.1).map (fun value => value.getD "") :=
        jsonLastValue_map (fun value : Option String => value.getD "") written member.1
      rw [← h, GoMap.get_foldl_put, ← huntag, hmap, hlast]
      rfl
    rw [List.any_eq_true]
    exact ⟨(member.1, ""), GoMap.mem_of_get hget, by simp⟩

/-- A document on which `json.Unmarshal` returns an error is neither `null` nor a valid
string-to-string object. -/
theorem jsonUnmarshalStringMap_none {data : String} (h : jsonUnmarshalStringMap data = none) :
    jsonIsNull data = false ∧ jsonIsStringObject data = false := by
  have hmembers : jsonObjectMembers data = none := by
    unfold jsonUnmarshalStringMap at h
    cases hm : jsonObjectMembers data with
    | none => rfl
    | some members =>
      rw [hm] at h
      cases h
  have hwritten : jsonWrittenObject data = none := by
    unfold jsonObjectMembers at hmembers
    unfold jsonWrittenObject
    split at hmembers
    · rename_i rest hdoc
      rw [hdoc]
      simp only
      rw [if_neg (by decide)]
    · rename_i c rest hnot hdoc
      rw [hdoc]
      simp only
      by_cases hc : c = Char.ofNat 123
      · rw [if_pos hc] at hmembers ⊢
        cases hrest : jsonSkipSpace rest with
        | nil => rfl
        | cons d rest1 =>
          rw [hrest] at hmembers
          simp only at hmembers ⊢
          by_cases hd : d = Char.ofNat 125
          · rw [if_pos hd] at hmembers ⊢
            by_cases hend : jsonSkipSpace rest1 = []
            · rw [if_pos hend] at hmembers
              cases hmembers
            · rw [if_neg hend]
          · rw [if_neg hd] at hmembers ⊢
            rw [jsonWrittenMembers_untag] at hmembers
            cases hw : jsonWrittenMembers data.length (d :: rest1) with
            | none => rfl
            | some r =>
              obtain ⟨written, tail⟩ := r
              rw [hw] at hmembers
              simp only [Option.map_some'] at hmembers ⊢
              by_cases hend : jsonSkipSpace tail = []
              · rw [if_pos hend] at hmembers
                cases hmembers
              · rw [if_neg hend]
      · rw [if_neg hc]
    · rename_i hdoc
      rw [hdoc]
  constructor
  · unfold jsonObjectMembers at hmembers
    unfold jsonIsNull
    split at hmembers
    · rename_i rest hdoc
      rw [hdoc]
      simp only [decide_eq_false_iff_not]
      intro hend
      rw [if_pos hend] at hmembers
      cases hmembers
    · rename_i c rest hnot hdoc
      split
      · rename_i rest2 hdoc2
        rw [hdoc] at hdoc2
        simp only [List.cons.injEq] at hdoc2
        exact absurd hdoc2.2 (hnot rest2 hdoc2.1)
      · rfl
    · rename_i hdoc
      rw [hdoc]
  · unfold jsonIsStringObject
    rw [hwritten]

theorem workConfigsMatchesAddon_of_invalid {work : ManifestWork} {annotationValue : String}
    (hannot : GoMap.get work.Annotations ManifestConfigSpecHashAnnotationKey
      = some annotationValue)
    (hinvalid : jsonIsStringObject annotationValue = false)
    (hnotnull : jsonIsNull annotationValue = false) (addon : ManagedClusterAddOn) :
    workConfigsMatchesAddon work addon = false := by
  unfold workConfigsMatchesAddon
  rw [hannot]
  simp only
  cases hjson : jsonUnmarshalStringMap annotationValue with
  | none => rfl
  | some workSpecHashMap =>
    simp only
    rw [if_pos (jsonUnmarshalStringMap_of_invalid hnotnull hinvalid hjson)]

/-- C26, as amended: a work whose hash annotation is present, is not a valid JSON
string-to-string object and is not the JSON text `null` matches no addon, not even one without
config references. When such a work, not a pre-delete hook work, is listed for an addon that
passes both gates, the state is Doing, not Failed and not Succeed; the message is
`configs mismatch` when the loop reaches the work (every earlier work is a hook work or passes
both checks); the config references are unchanged, and the run returns nil when the client
accepts every patch. Every annotation on which `json.Unmarshal` returns an error is such an
annotation. -/
theorem C26_malformed_hash_is_mismatch (env : Env) (newaddon oldaddon : ManagedClusterAddOn)
    (pre post : List ManifestWork) (work : ManifestWork) (annotationValue : String)
    (hannot : GoMap.get work.Annotations ManifestConfigSpecHashAnnotationKey
      = some annotationValue)
    (hinvalid : jsonIsStringObject annotationValue = false)
    (hnotnull : jsonIsNull annotationValue = false) :
    (∀ addon, workConfigsMatchesAddon work addon = false) ∧
    ((isConfigurationSupported newaddon).1 = true →
      FindStatusCondition newaddon.Status.Conditions ManagedClusterAddOnManifestApplied ≠ none →
      env.workLister newaddon.Namespace newaddon.Name = Except.ok (pre ++ work :: post) →
      HasPrefix work.Name (env.PreDeleteHookWorkName newaddon.Name) = false →
      (updateAddonProgressingAndLastApplied env newaddon oldaddon).state = some ProgressingDoing ∧
      ((updateAddonProgressingAndLastApplied env newaddon oldaddon).message = "configs mismatch" ∨ (updateAddonProgressingAndLastApplied env newaddon oldaddon).message = "work is not ready") ∧
      ((∀ v ∈ pre, HasPrefix v.Name (env.PreDeleteHookWorkName newaddon.Name) = true ∨
          (workConfigsMatchesAddon v newaddon = true ∧ workIsReady v = true)) →
        (updateAddonProgressingAndLastApplied env newaddon oldaddon).message = "configs mismatch") ∧
      (updateAddonProgressingAndLastApplied env newaddon oldaddon).addon.Status.ConfigReferences = newaddon.Status.ConfigReferences ∧
      ((∀ action, env.addonClientPatch action = none) → (updateAddonProgressingAndLastApplied env newaddon oldaddon).err = none)) ∧
    (∀ data, jsonUnmarshalStringMap data = none →
      jsonIsStringObject data = false ∧ jsonIsNull data = false) := by
  refine ⟨workConfigsMatchesAddon_of_invalid hannot hinvalid hnotnull, ?_,
    fun data hdata => ⟨(jsonUnmarshalStringMap_none hdata).2,
      (jsonUnmarshalStringMap_none hdata).1⟩⟩
  intro hs ha hlist hhook
  have hmismatch := workConfigsMatchesAddon_of_invalid hannot hinvalid hnotnull newaddon
  obtain ⟨⟨message, hcheck⟩, hfirst⟩ := checkAddonWorks_of_mismatch pre post hhook hmismatch
  have hrun : (updateAddonProgressingAndLastApplied env newaddon oldaddon) =
      patchAndReturn env (some ProgressingDoing) message
        (setAddOnProgressingAndLastApplied env.now (isUpgradeFlag newaddon) ProgressingDoing
          message newaddon) oldaddon := by
    rw [update_of_listed oldaddon hs ha hlist (by simp), hcheck]
  refine ⟨by rw [hrun]; rfl, ?_, ?_, ?_, ?_⟩
  · rw [hrun]
    exact checkAddonWorks_some_cases hcheck
  · intro hpre
    rw [hrun]
    have := hfirst hpre
    rw [hcheck] at this
    exact Option.some.inj this
  · rw [hrun]
    exact setAddOn_refs_of_ne (by decide)
  · intro haccept
    rcases update_actions_cases env newaddon oldaddon with ⟨_, herr⟩ | ⟨action, _, herr⟩
    · exact herr
    · rw [herr]
      exact haccept action

/-- Witness of C26: a work whose annotation is an object with a `null` value, which
`json.Unmarshal` accepts, listed for the addon of the test cases without config references. -/
theorem C26_malformed_hash_is_mismatch_witness :
    (updateAddonProgressingAndLastApplied
      (testEnv [testAnnotatedWork "\x7b\"a\":null\x7d"])
      (testAddon []) (testAddon [])).state = some ProgressingDoing ∧
    (updateAddonProgressingAndLastApplied
      (testEnv [testAnnotatedWork "\x7b\"a\":null\x7d"])
      (testAddon []) (testAddon [])).message = "configs mismatch" :=
  ⟨((C26_malformed_hash_is_mismatch (testEnv [testAnnotatedWork "\x7b\"a\":null\x7d"])
      (testAddon []) (testAddon []) [] [] (testAnnotatedWork "\x7b\"a\":null\x7d")
      "\x7b\"a\":null\x7d"
      (by decide) (by decide) (by decide)).2.1 (by decide) (by decide) rfl (by decide)).1,
    ((C26_malformed_hash_is_mismatch (testEnv [testAnnotatedWork "\x7b\"a\":null\x7d"])
      (testAddon []) (testAddon []) [] [] (testAnnotatedWork "\x7b\"a\":null\x7d")
      "\x7b\"a\":null\x7d"
      (by decide) (by decide) (by decide)).2.1 (by decide) (by decide) rfl (by decide)).2.2.1
      (fun _ h => nomatch h)⟩

/-- Counterexample to C26 as stated: the annotation `null` is present and is not a valid JSON
string-to-string object, yet `json.Unmarshal` accepts it and leaves an empty map, so the work
matches an addon without config references and the addon reaches Succeed. -/
theorem C26_null_hash_counterexample :
    GoMap.get (testAnnotatedWork "null").Annotations ManifestConfigSpecHashAnnotationKey
      = some "null" ∧
    jsonIsStringObject "null" = false ∧
    workConfigsMatchesAddon (testAnnotatedWork "null") (testAddon []) = true ∧
    (updateAddonProgressingAndLastApplied (testEnv [testAnnotatedWork "null"])
      (testAddon []) (testAddon [])).state = some ProgressingSucceed := by
  decide

end AddonFramework
